import Mathlib

/-!
# Heap reconstruction for tcmalloc (heap_tcmalloc.cpp)

A shallow embedding of the span table, the cached-block index, the free-bitmap
builder and the block queries of `src/src/heap_tcmalloc.cpp`.

Conventions of the embedding:

* `unsigned long`, `address_t` and `size_t` are 64-bit: values are `Nat`, and every
  addition, subtraction, multiplication and left shift is taken modulo `2^64`;
  `unsigned int` is 32-bit, taken modulo `2^32`.
* Global variables are the fields of `HeapState`; a pointer into `g_spans` is an index.
* The inspected process image is a function `mem : Nat → Option Nat`, the result of
  `read_memory_wrapper` for one pointer-sized word (`none`: the read fails).
* A call yields an `Outcome`: it returns, or it performs an access that C leaves
  undefined (`fault`), or it is still running when the fuel is used up (`hang`).
  Of the queries only the free-object list walk consumes fuel: it is their one
  unbounded loop.
* The builders of `init_heap` read the process through the debugger: `process_image`
  is what its symbol and value layer shows, and a link it cannot read raises the
  error of the debugger, which ends the call without a result (`fault` as well).
-/

namespace TcmallocHeap

set_option maxRecDepth 8000

/-! ## Machine arithmetic -/

/-- Modulus of `unsigned long`, `address_t`, `size_t`. -/
def ULONG_MOD : Nat := 2 ^ 64

/-- Modulus of `unsigned int`. -/
def UINT_MOD : Nat := 2 ^ 32

/-- Modelled from the spec: the header `heap_tcmalloc.h` is absent; `UINT_BITS` is the
number of bits of one `unsigned int` bitmap word. -/
def UINT_BITS : Nat := 32

/-- Modelled from the spec: the header `heap_tcmalloc.h` is absent; `IN_USE` is the
first of the span locations (in-use, on the normal free list, returned to the OS). -/
def IN_USE : Nat := 0

/-- C `x << s` on 64-bit operands. -/
def shl64 (x s : Nat) : Nat := (x <<< s) % ULONG_MOD

/-- C `a + b` on 64-bit operands. -/
def add64 (a b : Nat) : Nat := (a + b) % ULONG_MOD

/-- C `a - b` on 64-bit operands (both below `2^64`). -/
def sub64 (a b : Nat) : Nat := (a + ULONG_MOD - b) % ULONG_MOD

/-- C `a * b` on 64-bit operands. -/
def mul64 (a b : Nat) : Nat := (a * b) % ULONG_MOD

/-- C `a - b` on `unsigned int` operands (both below `2^32`). -/
def sub32 (a b : Nat) : Nat := (a + UINT_MOD - b) % UINT_MOD

/-! ## Data model -/

/-- Result of running a C function of the engine. -/
inductive Outcome (α : Type) where
  | ret (a : α)
  | fault
  | hang
deriving DecidableEq, Repr

/-- Modelled from the spec: `struct ca_span` of the absent header `heap_tcmalloc.h`,
with the fields the source reads and writes. `bitmap = none` is the NULL pointer,
otherwise the `calloc`ed array of 32-bit words. -/
structure ca_span where
  start : Nat
  length : Nat
  next : Nat
  prev : Nat
  objects : Nat
  refcount : Nat
  sizeclass : Nat
  location : Nat
  sample : Nat
  bitmap : Option (List Nat)
  count : Nat
deriving DecidableEq, Repr

/-- Modelled from the spec: `struct ca_config` of the absent header: the page shift
and the size-class table `sizemap.class_to_size` (`kNumClasses` entries). -/
structure ca_config where
  kPageShift : Nat
  kNumClasses : Nat
  class_to_size : List Nat
deriving DecidableEq, Repr

/-- Modelled from the spec: `struct heap_block`, the block description filled by the
queries. -/
structure heap_block where
  addr : Nat
  size : Nat
  inuse : Bool
deriving DecidableEq, Repr

/-- Modelled from the spec: `struct inuse_block`, one entry of `walk_inuse_blocks`. -/
structure inuse_block where
  addr : Nat
  size : Nat
deriving DecidableEq, Repr

/-- The globals of the translation unit: `g_initialized`, `g_config`, `g_spans`
(with `g_spans_count` its length), `g_cached_blocks` (with
`g_cached_blocks_count` its length) and the page-skip counter `skip_npage` of the
span-table builder (zero where a state is written without it). The capacities
`g_spans_capacity` and `g_cached_blocks_capacity` only decide when `realloc` is called;
`realloc` is taken to succeed, like `calloc`, and they are left out.
`fresh_span_memory` is not a global but the memory of the `g_spans` array behind
`g_spans_count`, as far as the engine reads it before writing: the members `bitmap` and
`count` that the next entries hold, in order. `realloc` does not clear the memory it
hands out, so any values can be there; behind the end of the list the memory holds NULL
and 0 (the empty list where a state is written without it). -/
structure HeapState where
  g_initialized : Bool
  g_config : ca_config
  g_spans : List ca_span
  g_cached_blocks : List Nat
  skip_npage : Nat := 0
  fresh_span_memory : List (Option (List Nat) × Nat) := []
deriving DecidableEq, Repr

/-! ## Span lookup -/

/-- The libc `bsearch` loop (not part of the repository; the usual implementation):
`l = 0, u = nmemb; while (l < u) { idx = (l + u) / 2; c = compar(key, &base[idx]);
if (c < 0) u = idx; else if (c > 0) l = idx + 1; else return &base[idx]; } return NULL;`.
The first argument bounds the number of iterations; `u - l` shrinks at every step, so
`u - l` iterations always suffice. -/
def bsearch_loop {α : Type} (compar : α → Int) (base : List α) : Nat → Nat → Nat → Option Nat
  | 0, _, _ => none
  | fuel + 1, l, u =>
    if l < u then
      match base[(l + u) / 2]? with
      | none => none
      | some p =>
        if compar p < 0 then bsearch_loop compar base fuel l ((l + u) / 2)
        else if compar p > 0 then bsearch_loop compar base fuel ((l + u) / 2 + 1) u
        else some ((l + u) / 2)
    else none

/-- The libc `bsearch` over a whole array; the result is the index of the element
found (`none` for NULL). -/
def bsearch {α : Type} (compar : α → Int) (base : List α) : Option Nat :=
  bsearch_loop compar base base.length 0 base.length

/-- `span_search_compare`: `(*pageid >= span->start) - (*pageid < span->start + span->length)`. -/
def span_search_compare (pageid : Nat) (span : ca_span) : Int :=
  (if pageid ≥ span.start then 1 else 0) -
    (if pageid < add64 span.start span.length then 1 else 0)

/-- `span_get`: the page id of the address, then `bsearch` over `g_spans`. -/
def span_get (st : HeapState) (addr : Nat) : Option Nat :=
  bsearch (span_search_compare (addr >>> st.g_config.kPageShift)) st.g_spans

/-! ## Free bitmap -/

/-- The store `bitmap[n] |= 1 << bit` with `n = index / UINT_BITS` and
`bit = index - n * UINT_BITS`; `none` when word `n` lies outside the array. -/
def bitmap_set (bm : List Nat) (index : Nat) : Option (List Nat) :=
  match bm[index / UINT_BITS]? with
  | none => none
  | some w =>
    some (bm.set (index / UINT_BITS) (w ||| (1 <<< (index - index / UINT_BITS * UINT_BITS))))

/-- The test `bitmap[n] & (1 << bit)` (non-zero is true) with `n = index / UINT_BITS` and
`bit = index - n * UINT_BITS`; `none` when word `n` lies outside the array. -/
def bitmap_test (bm : List Nat) (index : Nat) : Option Bool :=
  match bm[index / UINT_BITS]? with
  | none => none
  | some w => some (decide (w &&& (1 <<< (index - index / UINT_BITS * UINT_BITS)) ≠ 0))

/-- The `while (cursor != 0)` loop of `span_populate_free_bitmap` over the free-object
list of a span: stop at a node outside `[base, end)` or off a block boundary, mark the
block, read the link at the node (stop when the read fails), go on with the link. One
unit of fuel per iteration. -/
def walk_objects (mem : Nat → Option Nat) (base end_ blk_sz : Nat) :
    Nat → Nat → List Nat → Outcome (List Nat)
  | 0, _, _ => Outcome.hang
  | fuel + 1, cursor, bm =>
    if cursor = 0 then Outcome.ret bm
    else if cursor < base ∨ cursor ≥ end_ then Outcome.ret bm
    else if add64 base (mul64 ((sub64 cursor base / blk_sz) % UINT_MOD) blk_sz) ≠ cursor then
      Outcome.ret bm
    else
      match bitmap_set bm ((sub64 cursor base / blk_sz) % UINT_MOD) with
      | none => Outcome.fault
      | some bm1 =>
        match mem cursor with
        | none => Outcome.ret bm1
        | some next => walk_objects mem base end_ blk_sz fuel next bm1

/-- The `for (i = 0; i < g_cached_blocks_count; i++)` loop of `span_populate_free_bitmap`:
skip addresses below `base`, break at the first address at or above `end`, mark the rest. -/
def mark_cached (base end_ blk_sz : Nat) : List Nat → List Nat → Outcome (List Nat)
  | [], bm => Outcome.ret bm
  | addr :: rest, bm =>
    if addr < base then mark_cached base end_ blk_sz rest bm
    else if addr ≥ end_ then Outcome.ret bm
    else
      match bitmap_set bm ((sub64 addr base / blk_sz) % UINT_MOD) with
      | none => Outcome.fault
      | some bm1 => mark_cached base end_ blk_sz rest bm1

/-- `span_populate_free_bitmap`: nothing to do for a span that has a bitmap, is not
subdivided or is not in use; otherwise set `count`, allocate the zeroed bitmap
(`calloc` is taken to succeed), mark the free-object list and the cached blocks.
The result is the span as left by the call and the returned `bool`. An index outside
the size-class table and a division by a zero block size are faults. -/
def span_populate_free_bitmap (st : HeapState) (mem : Nat → Option Nat) (fuel : Nat)
    (span : ca_span) : Outcome (ca_span × Bool) :=
  if span.bitmap ≠ none ∨ span.sizeclass = 0 ∨ span.location ≠ IN_USE then
    Outcome.ret (span, true)
  else
    match st.g_config.class_to_size[span.sizeclass]? with
    | none => Outcome.fault
    | some blk_sz =>
      if blk_sz = 0 then Outcome.fault
      else
        match walk_objects mem (shl64 span.start st.g_config.kPageShift)
            (add64 (shl64 span.start st.g_config.kPageShift)
              (mul64 ((shl64 span.length st.g_config.kPageShift / blk_sz) % UINT_MOD) blk_sz))
            blk_sz fuel span.objects
            (List.replicate
              (((shl64 span.length st.g_config.kPageShift / blk_sz) % UINT_MOD + UINT_BITS - 1)
                / UINT_BITS) 0) with
        | Outcome.fault => Outcome.fault
        | Outcome.hang => Outcome.hang
        | Outcome.ret bm1 =>
          match mark_cached (shl64 span.start st.g_config.kPageShift)
              (add64 (shl64 span.start st.g_config.kPageShift)
                (mul64 ((shl64 span.length st.g_config.kPageShift / blk_sz) % UINT_MOD) blk_sz))
              blk_sz st.g_cached_blocks bm1 with
          | Outcome.fault => Outcome.fault
          | Outcome.hang => Outcome.hang
          | Outcome.ret bm2 =>
            Outcome.ret
              ({ span with
                  count := (shl64 span.length st.g_config.kPageShift / blk_sz) % UINT_MOD,
                  bitmap := some bm2 }, true)

/-- `span_block_free`: a span not in use is free as a whole, an undivided span in use is
not free, otherwise the bit of the block holding `addr` is read (a NULL bitmap, a word
outside the array, an index outside the size-class table and a zero block size are
faults). -/
def span_block_free (st : HeapState) (span : ca_span) (addr : Nat) : Outcome Bool :=
  if span.location ≠ IN_USE then Outcome.ret true
  else if span.sizeclass = 0 then Outcome.ret false
  else
    match st.g_config.class_to_size[span.sizeclass]? with
    | none => Outcome.fault
    | some blk_sz =>
      if blk_sz = 0 then Outcome.fault
      else
        match span.bitmap with
        | none => Outcome.fault
        | some bm =>
          match bitmap_test bm
              ((sub64 addr (shl64 span.start st.g_config.kPageShift) / blk_sz) % UINT_MOD) with
          | none => Outcome.fault
          | some b => Outcome.ret b

/-! ## Queries -/

/-- What a block query leaves behind: the globals, the block behind the `blk` pointer
and the returned `bool`. -/
structure query_result where
  st : HeapState
  blk : heap_block
  ok : Bool
deriving DecidableEq, Repr

/-- `get_heap_block_info(addr, blk)`. -/
def get_heap_block_info (mem : Nat → Option Nat) (fuel : Nat) (st : HeapState) (addr : Nat)
    (blk : heap_block) : Outcome query_result :=
  if st.g_initialized = false then Outcome.ret ⟨st, blk, false⟩
  else
    match span_get st addr with
    | none => Outcome.ret ⟨st, blk, false⟩
    | some i =>
      match st.g_spans[i]? with
      | none => Outcome.fault
      | some span =>
        if span.location ≠ IN_USE then
          Outcome.ret ⟨st, { inuse := false, addr := shl64 span.start st.g_config.kPageShift,
                             size := shl64 span.length st.g_config.kPageShift }, true⟩
        else
          match (if span.sizeclass ≠ 0 then st.g_config.class_to_size[span.sizeclass]?
                 else some (shl64 span.length st.g_config.kPageShift)) with
          | none => Outcome.fault
          | some size =>
            if size = 0 then Outcome.fault
            else
              match span_populate_free_bitmap st mem fuel span with
              | Outcome.fault => Outcome.fault
              | Outcome.hang => Outcome.hang
              | Outcome.ret (span1, _) =>
                match span_block_free st span1
                    (sub64 addr (sub64 addr (shl64 span.start st.g_config.kPageShift) % size)) with
                | Outcome.fault => Outcome.fault
                | Outcome.hang => Outcome.hang
                | Outcome.ret free =>
                  Outcome.ret ⟨{ st with g_spans := st.g_spans.set i span1 },
                    { addr := sub64 addr
                        (sub64 addr (shl64 span.start st.g_config.kPageShift) % size),
                      size := size, inuse := !free }, true⟩

/-- The `for (pageid = ...; pageid <= last_span->start; pageid++)` loop of
`get_next_heap_block`: the first page id at or after `pageid` at which `span_get` finds a
span. The first argument bounds the iterations: `last_start + 1 - pageid` of them pass
`last_start` and one more meets the failing guard, unless `pageid` wraps around, which
needs `last_start = 2^64 - 1`. -/
def next_span_scan (st : HeapState) (last_start : Nat) : Nat → Nat → Outcome (Option Nat)
  | 0, _ => Outcome.hang
  | n + 1, pageid =>
    if pageid ≤ last_start then
      match span_get st (shl64 pageid st.g_config.kPageShift) with
      | some i => Outcome.ret (some i)
      | none => next_span_scan st last_start n (add64 pageid 1)
    else Outcome.ret none

/-- The tail of `get_next_heap_block` from `span_populate_free_bitmap(span)` on: the first
block of the span at index `i`. -/
def first_block_of_span (mem : Nat → Option Nat) (fuel : Nat) (st : HeapState) (i : Nat)
    (blk : heap_block) : Outcome query_result :=
  match st.g_spans[i]? with
  | none => Outcome.fault
  | some span =>
    match span_populate_free_bitmap st mem fuel span with
    | Outcome.fault => Outcome.fault
    | Outcome.hang => Outcome.hang
    | Outcome.ret (span1, _) =>
      if span1.location ≠ IN_USE then
        Outcome.ret ⟨{ st with g_spans := st.g_spans.set i span1 },
          { blk with addr := shl64 span1.start st.g_config.kPageShift,
                     size := shl64 span1.length st.g_config.kPageShift, inuse := false }, true⟩
      else if span1.sizeclass = 0 then
        Outcome.ret ⟨{ st with g_spans := st.g_spans.set i span1 },
          { blk with addr := shl64 span1.start st.g_config.kPageShift,
                     size := shl64 span1.length st.g_config.kPageShift, inuse := true }, true⟩
      else
        match st.g_config.class_to_size[span1.sizeclass]? with
        | none => Outcome.fault
        | some blk_sz =>
          match span1.bitmap with
          | none => Outcome.fault
          | some bm =>
            match bm[0]? with
            | none => Outcome.fault
            | some w =>
              Outcome.ret ⟨{ st with g_spans := st.g_spans.set i span1 },
                { blk with addr := shl64 span1.start st.g_config.kPageShift,
                           size := blk_sz, inuse := !(decide (w &&& 1 ≠ 0)) }, true⟩

/-- The search of `get_next_heap_block` for the span after `span`: the page scan from
`span->start + span->length` up to the start of the last table entry. -/
def next_span_of (st : HeapState) (span : ca_span) : Outcome (Option Nat) :=
  match st.g_spans[st.g_spans.length - 1]? with
  | none => Outcome.fault
  | some last_span =>
    next_span_scan st last_span.start
      (last_span.start + 1 - add64 span.start span.length + 1) (add64 span.start span.length)

/-- `get_next_heap_block(addr, blk)`. In the branch for an in-use subdivided span the
fields `span->count` and `span->bitmap` are read as they stand: the call to
`span_populate_free_bitmap` comes only later, on the way to the first block of a span. -/
def get_next_heap_block (mem : Nat → Option Nat) (fuel : Nat) (st : HeapState) (addr : Nat)
    (blk : heap_block) : Outcome query_result :=
  if st.g_initialized = false then Outcome.ret ⟨st, blk, false⟩
  else if addr = 0 then
    if st.g_spans.length = 0 then Outcome.ret ⟨st, blk, false⟩
    else first_block_of_span mem fuel st 0 blk
  else
    match span_get st addr with
    | none => Outcome.ret ⟨st, blk, false⟩
    | some i =>
      match st.g_spans[i]? with
      | none => Outcome.fault
      | some span =>
        let to_next : Outcome query_result :=
          match next_span_of st span with
          | Outcome.fault => Outcome.fault
          | Outcome.hang => Outcome.hang
          | Outcome.ret none => Outcome.ret ⟨st, blk, false⟩
          | Outcome.ret (some j) => first_block_of_span mem fuel st j blk
        if span.location = IN_USE ∧ span.sizeclass ≠ 0 then
          match st.g_config.class_to_size[span.sizeclass]? with
          | none => Outcome.fault
          | some blk_sz =>
            if blk_sz = 0 then Outcome.fault
            else if (sub64 addr (shl64 span.start st.g_config.kPageShift) / blk_sz) % UINT_MOD
                < sub32 span.count 1 then
              match span.bitmap with
              | none => Outcome.fault
              | some bm =>
                match bitmap_test bm
                    ((sub64 addr (shl64 span.start st.g_config.kPageShift) / blk_sz)
                      % UINT_MOD + 1) with
                | none => Outcome.fault
                | some b =>
                  Outcome.ret ⟨st,
                    { addr := add64 (shl64 span.start st.g_config.kPageShift)
                        (mul64 ((sub64 addr (shl64 span.start st.g_config.kPageShift) / blk_sz)
                          % UINT_MOD + 1) blk_sz),
                      size := blk_sz, inuse := !b }, true⟩
            else to_next
        else to_next

/-- `is_heap_block(addr)`. -/
def is_heap_block (st : HeapState) (addr : Nat) : Bool :=
  if st.g_initialized = false then false
  else (span_get st addr).isSome

/-- The inner loop of `walk_inuse_blocks` over the blocks of one subdivided span:
`for (index = ...; index < span->count; index++)`, an entry for every block whose bit
is clear. The first argument is the number of indices left. -/
def span_inuse_blocks (base blk_sz : Nat) (bm : List Nat) :
    Nat → Nat → Outcome (List inuse_block)
  | 0, _ => Outcome.ret []
  | k + 1, index =>
    match bitmap_test bm index with
    | none => Outcome.fault
    | some free =>
      match span_inuse_blocks base blk_sz bm k (index + 1) with
      | Outcome.fault => Outcome.fault
      | Outcome.hang => Outcome.hang
      | Outcome.ret rest =>
        Outcome.ret
          (if free then rest else ⟨add64 base (mul64 index blk_sz), blk_sz⟩ :: rest)

/-- The entries `walk_inuse_blocks` emits for one span, after its bitmap was populated. -/
def span_entries (st : HeapState) (span : ca_span) : Outcome (List inuse_block) :=
  if span.location ≠ IN_USE then Outcome.ret []
  else if span.sizeclass = 0 then
    Outcome.ret [⟨shl64 span.start st.g_config.kPageShift,
                  shl64 span.length st.g_config.kPageShift⟩]
  else
    match st.g_config.class_to_size[span.sizeclass]? with
    | none => Outcome.fault
    | some blk_sz =>
      match span.bitmap with
      | none => Outcome.fault
      | some bm =>
        span_inuse_blocks (shl64 span.start st.g_config.kPageShift) blk_sz bm span.count 0

/-- The outer loop of `walk_inuse_blocks` over the table: populate the bitmap of each
span, then emit its entries. Yields the spans as left by the loop and all entries. -/
def walk_spans (st : HeapState) (mem : Nat → Option Nat) (fuel : Nat) :
    List ca_span → Outcome (List ca_span × List inuse_block)
  | [] => Outcome.ret ([], [])
  | span :: rest =>
    match span_populate_free_bitmap st mem fuel span with
    | Outcome.fault => Outcome.fault
    | Outcome.hang => Outcome.hang
    | Outcome.ret (span1, _) =>
      match span_entries st span1 with
      | Outcome.fault => Outcome.fault
      | Outcome.hang => Outcome.hang
      | Outcome.ret es =>
        match walk_spans st mem fuel rest with
        | Outcome.fault => Outcome.fault
        | Outcome.hang => Outcome.hang
        | Outcome.ret (rest1, es1) => Outcome.ret (span1 :: rest1, es ++ es1)

/-- What `walk_inuse_blocks` leaves behind: the globals, the returned `bool`, the value
of `*opCount` and the entries stored through `opBlocks`, in the order stored. -/
structure walk_result where
  st : HeapState
  ok : Bool
  opCount : Nat
  written : List inuse_block
deriving DecidableEq, Repr

/-- `walk_inuse_blocks(opBlocks, opCount)`: `has_buffer` tells whether `opBlocks` is
non-NULL, `opCount` is the value of `*opCount` on entry. -/
def walk_inuse_blocks (mem : Nat → Option Nat) (fuel : Nat) (st : HeapState)
    (has_buffer : Bool) (opCount : Nat) : Outcome walk_result :=
  if st.g_initialized = false then Outcome.ret ⟨st, false, opCount, []⟩
  else
    match walk_spans st mem fuel st.g_spans with
    | Outcome.fault => Outcome.fault
    | Outcome.hang => Outcome.hang
    | Outcome.ret (spans1, es) =>
      Outcome.ret ⟨{ st with g_spans := spans1 }, true, es.length,
        if has_buffer then es else []⟩

/-! ## Specification-side notions -/

/-- The table is sorted: each span ends at or before the start of the next one. -/
def spans_sorted (spans : List ca_span) : Prop :=
  List.Chain' (fun a b => a.start + a.length ≤ b.start) spans

/-- The sortedness check as a loop over adjacent entries. -/
def spans_sorted_check : List ca_span → Bool
  | a :: b :: rest => decide (a.start + a.length ≤ b.start) && spans_sorted_check (b :: rest)
  | _ => true

instance (spans : List ca_span) : Decidable (spans_sorted spans) :=
  decidable_of_iff (spans_sorted_check spans = true) (by
    unfold spans_sorted
    induction spans with
    | nil => simp [spans_sorted_check]
    | cons a rest ih =>
      cases rest with
      | nil => simp [spans_sorted_check]
      | cons b rest =>
        rw [List.chain'_cons, ← ih]
        simp [spans_sorted_check])

/-- No page range of the table overflows `unsigned long`. -/
def spans_no_overflow (spans : List ca_span) : Prop :=
  ∀ s ∈ spans, s.start + s.length < ULONG_MOD

instance (spans : List ca_span) : Decidable (spans_no_overflow spans) :=
  inferInstanceAs (Decidable (∀ s ∈ spans, s.start + s.length < ULONG_MOD))

/-- The page id lies in the range `[start, start + length)` of the span. -/
def span_covers (s : ca_span) (pageid : Nat) : Prop :=
  s.start ≤ pageid ∧ pageid < s.start + s.length

instance (s : ca_span) (pageid : Nat) : Decidable (span_covers s pageid) :=
  inferInstanceAs (Decidable (s.start ≤ pageid ∧ pageid < s.start + s.length))

/-- Bit `k` of a bitmap kept as 32-bit words: bit `k mod 32` of word `k / 32`. -/
def bitmap_bit (bm : List Nat) (k : Nat) : Bool :=
  Nat.testBit (bm.getD (k / UINT_BITS) 0) (k % UINT_BITS)

/-- The nodes of a free-object list that count as free blocks: the chain from `cursor`,
cut before the first node that is null, outside `[base, end)` or off a block boundary,
and cut after the first node whose link cannot be read. -/
def free_list_nodes (mem : Nat → Option Nat) (base end_ blk_sz : Nat) : Nat → Nat → List Nat
  | 0, _ => []
  | fuel + 1, cursor =>
    if cursor = 0 ∨ cursor < base ∨ end_ ≤ cursor ∨ (cursor - base) % blk_sz ≠ 0 then []
    else
      cursor ::
        (match mem cursor with
         | none => []
         | some next => free_list_nodes mem base end_ blk_sz fuel next)

/-- The block size of a size class, `class_to_size[c]` (0 outside the table). -/
def class_size (cfg : ca_config) (c : Nat) : Nat := cfg.class_to_size.getD c 0

/-- The first byte address of a span, `start << kPageShift` without overflow. -/
def span_base (cfg : ca_config) (s : ca_span) : Nat := s.start * 2 ^ cfg.kPageShift

/-- The byte size of a span, `length << kPageShift` without overflow. -/
def span_bytes (cfg : ca_config) (s : ca_span) : Nat := s.length * 2 ^ cfg.kPageShift

/-- The number of whole blocks of a subdivided span,
`(length << kPageShift) / class_to_size[sizeclass]`. -/
def block_count (cfg : ca_config) (s : ca_span) : Nat :=
  span_bytes cfg s / class_size cfg s.sizeclass

/-- The number of 32-bit words of the bitmap of a subdivided span. -/
def bitmap_words (cfg : ca_config) (s : ca_span) : Nat :=
  (block_count cfg s + UINT_BITS - 1) / UINT_BITS

/-- A table entry describes a span of a consistent heap: it has at least one page and
ends inside the 64-bit address space; if it is in use and subdivided, its size class is
in the table with a positive size, it holds at least one block and fewer than `2^32`,
and a bitmap already attached has the block count and the word count that
`span_populate_free_bitmap` gives it. -/
def span_wf (cfg : ca_config) (s : ca_span) : Prop :=
  1 ≤ s.length ∧ (s.start + s.length) * 2 ^ cfg.kPageShift < ULONG_MOD ∧
  (s.location = IN_USE → s.sizeclass ≠ 0 →
    s.sizeclass < cfg.class_to_size.length ∧ 0 < class_size cfg s.sizeclass ∧
    class_size cfg s.sizeclass ≤ span_bytes cfg s ∧ block_count cfg s < UINT_MOD ∧
    (s.bitmap = none ∨
      (s.count = block_count cfg s ∧ s.bitmap.map List.length = some (bitmap_words cfg s))))

instance (cfg : ca_config) (s : ca_span) : Decidable (span_wf cfg s) :=
  inferInstanceAs (Decidable
    (1 ≤ s.length ∧ (s.start + s.length) * 2 ^ cfg.kPageShift < ULONG_MOD ∧
    (s.location = IN_USE → s.sizeclass ≠ 0 →
      s.sizeclass < cfg.class_to_size.length ∧ 0 < class_size cfg s.sizeclass ∧
      class_size cfg s.sizeclass ≤ span_bytes cfg s ∧ block_count cfg s < UINT_MOD ∧
      (s.bitmap = none ∨
        (s.count = block_count cfg s ∧
          s.bitmap.map List.length = some (bitmap_words cfg s))))))

/-- A ready state: `g_initialized` is set, as `init_heap` leaves it on success, and the
span table is that of a consistent heap: sorted by start page with disjoint ranges
(what `verify_sorted_spans` checks) and with every entry well formed (`span_wf`). -/
def Ready (st : HeapState) : Prop :=
  st.g_initialized = true ∧ spans_sorted st.g_spans ∧ ∀ s ∈ st.g_spans, span_wf st.g_config s

instance (st : HeapState) : Decidable (Ready st) :=
  inferInstanceAs (Decidable
    (st.g_initialized = true ∧ spans_sorted st.g_spans ∧
      ∀ s ∈ st.g_spans, span_wf st.g_config s))

/-- Populating the bitmap of any span of the table stops within `n` iterations of the
list walk. -/
def populate_returns (st : HeapState) (mem : Nat → Option Nat) (n : Nat) : Prop :=
  ∀ s ∈ st.g_spans, span_populate_free_bitmap st mem n s ≠ Outcome.hang

instance (st : HeapState) (mem : Nat → Option Nat) (n : Nat) :
    Decidable (populate_returns st mem n) :=
  inferInstanceAs
    (Decidable (∀ s ∈ st.g_spans, span_populate_free_bitmap st mem n s ≠ Outcome.hang))

/-- The free-object list of a subdivided span ends: fewer than `n` nodes of the chain
from `objects` count as free blocks, that is, within fewer than `n` links the chain
reaches a null link, a node outside the blocks of the span or off a block boundary, or a
node whose link cannot be read. -/
def list_ends (cfg : ca_config) (mem : Nat → Option Nat) (n : Nat) (s : ca_span) : Prop :=
  (free_list_nodes mem (span_base cfg s)
    (span_base cfg s + block_count cfg s * class_size cfg s.sizeclass)
    (class_size cfg s.sizeclass) n s.objects).length < n

instance (cfg : ca_config) (mem : Nat → Option Nat) (n : Nat) (s : ca_span) :
    Decidable (list_ends cfg mem n s) :=
  inferInstanceAs (Decidable
    ((free_list_nodes mem (span_base cfg s)
      (span_base cfg s + block_count cfg s * class_size cfg s.sizeclass)
      (class_size cfg s.sizeclass) n s.objects).length < n))

/-- Every free-object list of the table ends within `n` nodes: `list_ends` for each
in-use subdivided span. -/
def lists_end (st : HeapState) (mem : Nat → Option Nat) (n : Nat) : Prop :=
  ∀ s ∈ st.g_spans, s.location = IN_USE → s.sizeclass ≠ 0 → list_ends st.g_config mem n s

instance (st : HeapState) (mem : Nat → Option Nat) (n : Nat) :
    Decidable (lists_end st mem n) :=
  inferInstanceAs (Decidable
    (∀ s ∈ st.g_spans, s.location = IN_USE → s.sizeclass ≠ 0 →
      list_ends st.g_config mem n s))

/-- The span as `span_populate_free_bitmap` leaves it, with at most `n` iterations of
the list walk (the span itself if the call does not return). -/
def populated (st : HeapState) (mem : Nat → Option Nat) (n : Nat) (s : ca_span) : ca_span :=
  match span_populate_free_bitmap st mem n s with
  | Outcome.ret (s1, _) => s1
  | _ => s

/-- The state with table entry `j` replaced. -/
def attach (st : HeapState) (j : Nat) (s1 : ca_span) : HeapState :=
  { st with g_spans := st.g_spans.set j s1 }

/-- The first block of a span as the specification describes it: the whole span, free,
when it is not in use; the whole span, in use, for size class 0; otherwise block 0 with
the class size, in use when bit 0 of the free bitmap is clear. -/
def first_block (cfg : ca_config) (t : ca_span) : heap_block :=
  if t.location ≠ IN_USE then
    { addr := span_base cfg t, size := span_bytes cfg t, inuse := false }
  else if t.sizeclass = 0 then
    { addr := span_base cfg t, size := span_bytes cfg t, inuse := true }
  else
    { addr := span_base cfg t, size := class_size cfg t.sizeclass,
      inuse := !(bitmap_bit (t.bitmap.getD []) 0) }

/-- The entries the specification lists for one span whose bitmap has been built: none
for a span not in use, the whole span for size class 0, otherwise one entry for each
block index below the block count whose bit is clear, in increasing index order. -/
def expected_entries (cfg : ca_config) (s : ca_span) : List inuse_block :=
  if s.location ≠ IN_USE then []
  else if s.sizeclass = 0 then [{ addr := span_base cfg s, size := span_bytes cfg s }]
  else
    ((List.range (block_count cfg s)).filter (fun k => !(bitmap_bit (s.bitmap.getD []) k))).map
      (fun k => { addr := span_base cfg s + k * class_size cfg s.sizeclass,
                  size := class_size cfg s.sizeclass })

/-! ## Example heaps -/

/-- Configuration of the examples: 4 KiB pages, size classes of 32 and 376 bytes. -/
def ex_cfg : ca_config := { kPageShift := 12, kNumClasses := 3, class_to_size := [0, 32, 376] }

/-- A table entry as `parse_span` leaves it in memory that held zeros: no bitmap yet,
`count` not yet set. -/
def ex_span (start length objects sizeclass location : Nat) : ca_span :=
  { start := start, length := length, next := 0, prev := 0, objects := objects, refcount := 0,
    sizeclass := sizeclass, location := location, sample := 0, bitmap := none, count := 0 }

/-- The block behind the `blk` pointer before a query. -/
def ex_blk : heap_block := { addr := 0, size := 0, inuse := false }

/-- A process image in which the word at `0xB020` is a null link and no other word can
be read. -/
def ex_mem : Nat → Option Nat := fun a => if a = 0xB020 then some 0 else none

/-- A process image in which no word can be read. -/
def ex_mem_unreadable : Nat → Option Nat := fun _ => none

/-- One undivided in-use span of two pages at page 10. -/
def ex_large : HeapState :=
  { g_initialized := true, g_config := ex_cfg, g_spans := [ex_span 10 2 0 0 IN_USE],
    g_cached_blocks := [] }

/-- One in-use span of 32-byte blocks at `0xB000` with `0xB020` on its free-object list
and `0xB040` in the cached-block set. -/
def ex_small : HeapState :=
  { g_initialized := true, g_config := ex_cfg, g_spans := [ex_span 11 1 0xB020 1 IN_USE],
    g_cached_blocks := [0xB040] }

/-- The span of `ex_small` once its bitmap has been built: blocks 1 and 2 free. -/
def ex_small_span_built : ca_span :=
  { ex_span 11 1 0xB020 1 IN_USE with bitmap := some [6, 0, 0, 0], count := 128 }

/-- The state `ex_small` after a query has built the bitmap of its span. -/
def ex_small_built : HeapState :=
  { g_initialized := true, g_config := ex_cfg, g_spans := [ex_small_span_built],
    g_cached_blocks := [0xB040] }

/-- One in-use span of three pages at `0x1000` cut into 376-byte blocks: 32 whole
blocks and a tail of 256 bytes. -/
def ex_tail : HeapState :=
  { g_initialized := true, g_config := ex_cfg, g_spans := [ex_span 1 3 0 2 IN_USE],
    g_cached_blocks := [] }

/-- An in-use span of 32-byte blocks at `0xB000`, never queried, followed by a free span
of one page at `0xC000`. -/
def ex_fresh : HeapState :=
  { g_initialized := true, g_config := ex_cfg,
    g_spans := [ex_span 11 1 0 1 IN_USE, ex_span 12 1 0 0 1], g_cached_blocks := [] }

/-- An undivided in-use span of one page at `0xA000` followed by the span of `ex_small`. -/
def ex_pair : HeapState :=
  { g_initialized := true, g_config := ex_cfg,
    g_spans := [ex_span 10 1 0 0 IN_USE, ex_span 11 1 0xB020 1 IN_USE],
    g_cached_blocks := [0xB040] }

/-- The span of `ex_small` with an empty cached-block set. -/
def ex_nolink : HeapState :=
  { g_initialized := true, g_config := ex_cfg, g_spans := [ex_span 11 1 0xB020 1 IN_USE],
    g_cached_blocks := [] }

/-- The free-object list nodes as the claim reads: the chain from `cursor`, cut before
the first node that is null, outside `[base, end)`, off a block boundary, or whose link
cannot be read. -/
def nodes_before_first_bad (mem : Nat → Option Nat) (base end_ blk_sz : Nat) :
    Nat → Nat → List Nat
  | 0, _ => []
  | fuel + 1, cursor =>
    if cursor = 0 ∨ cursor < base ∨ end_ ≤ cursor ∨ (cursor - base) % blk_sz ≠ 0 then []
    else
      match mem cursor with
      | none => []
      | some next => cursor :: nodes_before_first_bad mem base end_ blk_sz fuel next

/-- The state `ex_fresh` with an arbitrary value left in the `count` field of its
never-queried first span. -/
def ex_fresh_count (c : Nat) : HeapState :=
  { g_initialized := true, g_config := ex_cfg,
    g_spans := [{ ex_span 11 1 0 1 IN_USE with count := c }, ex_span 12 1 0 0 1],
    g_cached_blocks := [] }

/-! ## Cached-block index -/

/-- `cached_block_compare`, the order given to `qsort`: `(la > ra) - (ra > la)`. -/
def cached_block_compare (la ra : Nat) : Int :=
  (if la > ra then 1 else 0) - (if ra > la then 1 else 0)

/-- `cached_block_search_compare`: `(a > c) - (c > a)`. -/
def cached_block_search_compare (a c : Nat) : Int :=
  (if a > c then 1 else 0) - (if c > a then 1 else 0)

/-- `is_block_cached`: `bsearch` over `g_cached_blocks`, true when an element is found. -/
def is_block_cached (st : HeapState) (addr : Nat) : Bool :=
  (bsearch (cached_block_search_compare addr) st.g_cached_blocks).isSome

/-- `cached_block_add`: store the address behind the last element (`realloc` is taken to
succeed, so the call returns true). -/
def cached_block_add (st : HeapState) (addr : Nat) : HeapState × Bool :=
  ({ st with g_cached_blocks := st.g_cached_blocks ++ [addr] }, true)

/-! ## Verification of the tables -/

/-- The first loop of `verify_sorted_cached_blocks`: false at the first element greater
than its successor (equal neighbours are only reported). -/
def cached_order_check : List Nat → Bool
  | a :: b :: rest => if a > b then false else cached_order_check (b :: rest)
  | _ => true

/-- The second loop of `verify_sorted_cached_blocks`: every element must be found by
`is_block_cached` and its successor address must not. -/
def cached_query_check (st : HeapState) : List Nat → Bool
  | [] => true
  | addr :: rest =>
    if is_block_cached st addr = false then false
    else if is_block_cached st (add64 addr 1) = true then false
    else cached_query_check st rest

/-- `verify_sorted_cached_blocks`. -/
def verify_sorted_cached_blocks (st : HeapState) : Bool :=
  if st.g_cached_blocks.length < 2 then true
  else if cached_order_check st.g_cached_blocks = false then false
  else cached_query_check st st.g_cached_blocks

/-- The first loop of `verify_sorted_spans`: false at the first entry with
`start + length` (in 64 bits) above the start of its successor. -/
def span_order_check : List ca_span → Bool
  | a :: b :: rest =>
    if add64 a.start a.length > b.start then false else span_order_check (b :: rest)
  | _ => true

/-- The inner loop of the second pass of `verify_sorted_spans` over the pages of one
entry, `for (l = ...; l < g_spans[i].length; l++)`: the address one byte into each page
must be found by `span_get`. The first argument is the number of pages left. -/
def span_pages_check (st : HeapState) (span : ca_span) : Nat → Nat → Bool
  | 0, _ => true
  | k + 1, l =>
    if (span_get st
        (add64 (shl64 (add64 span.start l) st.g_config.kPageShift) 1)).isNone then false
    else span_pages_check st span k (l + 1)

/-- The second pass of `verify_sorted_spans` over the entries. -/
def span_query_check (st : HeapState) : List ca_span → Bool
  | [] => true
  | span :: rest =>
    if span_pages_check st span span.length 0 = false then false
    else span_query_check st rest

/-- `verify_sorted_spans`. -/
def verify_sorted_spans (st : HeapState) : Bool :=
  if st.g_spans.length < 2 then true
  else if span_order_check st.g_spans = false then false
  else span_query_check st st.g_spans

/-! ## Building the tables -/

/-- What the debugger shows of one `tcmalloc::Span`: the nine members that `parse_span`
copies. -/
structure span_value where
  start : Nat
  length : Nat
  next : Nat
  prev : Nat
  objects : Nat
  refcount : Nat
  sizeclass : Nat
  location : Nat
  sample : Nat
deriving DecidableEq, Repr

/-- What the debugger shows of one `ThreadCache::FreeList`: the recorded length
`length_` and the head pointer `list_` of its chain. -/
structure free_list_value where
  length_ : Nat
  list_ : Nat
deriving DecidableEq, Repr

/-- What the debugger shows of one `CentralFreeList::TCEntry` slot: the pointers `head`
and `tail`. -/
structure tc_entry_value where
  head : Nat
  tail : Nat
deriving DecidableEq, Repr

/-- The inspected process as the symbol and value layer of the debugger (an external
collaborator of the engine) shows it. Each global is `none` when its lookup fails
(symbol or type not found, a member missing, a value that is not an array); the members
of a value that was found are taken to be there. Arrays are lists indexed from 0, a null
pointer in the page map is `none`, and the linked list of thread caches is given as the
list of its objects.

* `kPageShift`: the global `kPageShift`;
* `class_to_size_`: the array `tcmalloc::Static::sizemap_.class_to_size_`;
* `pagemap_`: `tcmalloc::Static::pageheap_->pagemap_.root_->ptrs`, each entry a node
  with its `ptrs`, each of these a leaf with its `values`, each of these a span;
* `thread_heaps_`: the objects on the list `tcmalloc::ThreadCache::thread_heaps_`, each
  one its array `list_` of free lists;
* `central_cache_`: the array `tcmalloc::Static::central_cache_`, each central free list
  its array `tc_slots_`. -/
structure process_image where
  kPageShift : Option Nat
  class_to_size_ : Option (List Nat)
  pagemap_ : Option (List (Option (List (Option (List (Option span_value))))))
  thread_heaps_ : Option (List (List free_list_value))
  central_cache_ : Option (List (List tc_entry_value))

/-- `parse_config`: the page shift, then the size-class table with its length as
`kNumClasses`. A failure after the first lookup leaves the new page shift in place. -/
def parse_config (img : process_image) (st : HeapState) : HeapState × Bool :=
  match img.kPageShift with
  | none => (st, false)
  | some shift =>
    match img.class_to_size_ with
    | none => ({ st with g_config := { st.g_config with kPageShift := shift } }, false)
    | some sizes =>
      ({ st with
          g_config := { kPageShift := shift, kNumClasses := sizes.length,
                        class_to_size := sizes } }, true)

/-- `parse_span`: take the next entry of the `g_spans` array, copy the nine members into
it and set `skip_npage = length - 1`. The members `bitmap` and `count` are not written by
the source: the entry keeps what the memory handed out by `realloc` held there, the head
of `fresh_span_memory`. `realloc` is taken to succeed, and the report to the segment
registry (`get_segment`) is outside the engine. -/
def parse_span (st : HeapState) (span : span_value) : HeapState × Bool :=
  ({ st with
      g_spans := st.g_spans ++
        [{ start := span.start, length := span.length, next := span.next, prev := span.prev,
           objects := span.objects, refcount := span.refcount, sizeclass := span.sizeclass,
           location := span.location, sample := span.sample,
           bitmap := (st.fresh_span_memory.head?.getD (none, 0)).1,
           count := (st.fresh_span_memory.head?.getD (none, 0)).2 }],
      fresh_span_memory := st.fresh_span_memory.tail,
      skip_npage := sub64 span.length 1 }, true)

/-- `parse_leaf`, the loop over `leaf->values`: while `skip_npage` is positive a slot is
skipped and the counter decremented; otherwise a null slot is passed over and a span is
parsed. -/
def parse_leaf : HeapState → List (Option span_value) → HeapState × Bool
  | st, [] => (st, true)
  | st, v :: rest =>
    if st.skip_npage > 0 then parse_leaf { st with skip_npage := st.skip_npage - 1 } rest
    else
      match v with
      | none => parse_leaf st rest
      | some span =>
        match parse_span st span with
        | (st1, false) => (st1, false)
        | (st1, true) => parse_leaf st1 rest

/-- The inner loop of `parse_pagemap` over the `ptrs` of one node: every non-null entry
is a leaf. -/
def parse_pagemap_node : HeapState → List (Option (List (Option span_value))) → HeapState × Bool
  | st, [] => (st, true)
  | st, none :: rest => parse_pagemap_node st rest
  | st, some leaf :: rest =>
    match parse_leaf st leaf with
    | (st1, false) => (st1, false)
    | (st1, true) => parse_pagemap_node st1 rest

/-- The outer loop of `parse_pagemap` over the `ptrs` of the root: every non-null entry
is a node. -/
def parse_pagemap_root :
    HeapState → List (Option (List (Option (List (Option span_value))))) → HeapState × Bool
  | st, [] => (st, true)
  | st, none :: rest => parse_pagemap_root st rest
  | st, some node :: rest =>
    match parse_pagemap_node st node with
    | (st1, false) => (st1, false)
    | (st1, true) => parse_pagemap_root st1 rest

/-- `parse_pagemap`. -/
def parse_pagemap (img : process_image) (st : HeapState) : HeapState × Bool :=
  match img.pagemap_ with
  | none => (st, false)
  | some root => parse_pagemap_root st root

/-- The `while (value_as_address(list) != 0)` loop of `parse_thread_cache_lists` over one
free list with recorded length `len`: count the node, add it to the cached blocks, leave
when the count is above `len`, otherwise follow the link stored at the node. A link the
debugger cannot read raises its error, which ends the call without a result (`fault`).
`count` is an `unsigned int`. One unit of fuel per iteration. -/
def thread_cache_chain (mem : Nat → Option Nat) (len : Nat) :
    Nat → Nat → Nat → HeapState → Outcome (HeapState × Bool)
  | 0, _, _, _ => Outcome.hang
  | fuel + 1, count, list, st =>
    if list = 0 then Outcome.ret (st, true)
    else
      match cached_block_add st list with
      | (st1, false) => Outcome.ret (st1, false)
      | (st1, true) =>
        if (count + 1) % UINT_MOD > len then Outcome.ret (st1, true)
        else
          match mem list with
          | none => Outcome.fault
          | some next => thread_cache_chain mem len fuel ((count + 1) % UINT_MOD) next st1

/-- The `for (index = 0; index < g_config.kNumClasses; index++)` loop of
`parse_thread_cache_lists`; the first argument is the number of indices left. An index
outside the array `lists` is an error of the debugger. -/
def thread_cache_lists_from (mem : Nat → Option Nat) (fuel : Nat)
    (lists : List free_list_value) : Nat → Nat → HeapState → Outcome (HeapState × Bool)
  | 0, _, st => Outcome.ret (st, true)
  | k + 1, index, st =>
    match lists[index]? with
    | none => Outcome.fault
    | some freelist =>
      match thread_cache_chain mem (freelist.length_ % UINT_MOD) fuel 0 freelist.list_ st with
      | Outcome.fault => Outcome.fault
      | Outcome.hang => Outcome.hang
      | Outcome.ret (st1, false) => Outcome.ret (st1, false)
      | Outcome.ret (st1, true) => thread_cache_lists_from mem fuel lists k (index + 1) st1

/-- `parse_thread_cache_lists`. -/
def parse_thread_cache_lists (mem : Nat → Option Nat) (fuel : Nat)
    (lists : List free_list_value) (st : HeapState) : Outcome (HeapState × Bool) :=
  thread_cache_lists_from mem fuel lists st.g_config.kNumClasses 0 st

/-- The loop of `parse_thread_cache` over the thread caches: the length of `list_` must
agree with `kNumClasses` (or sets it when that is still zero), then the free lists are
parsed. -/
def parse_thread_caches (mem : Nat → Option Nat) (fuel : Nat) :
    List (List free_list_value) → HeapState → Outcome (HeapState × Bool)
  | [], st => Outcome.ret (st, true)
  | lists :: rest, st =>
    if st.g_config.kNumClasses ≠ 0 ∧ st.g_config.kNumClasses ≠ lists.length then
      Outcome.ret (st, false)
    else
      match parse_thread_cache_lists mem fuel lists
          (if st.g_config.kNumClasses = 0 then
            { st with g_config := { st.g_config with kNumClasses := lists.length } }
           else st) with
      | Outcome.fault => Outcome.fault
      | Outcome.hang => Outcome.hang
      | Outcome.ret (st1, false) => Outcome.ret (st1, false)
      | Outcome.ret (st1, true) => parse_thread_caches mem fuel rest st1

/-- `parse_thread_cache`. -/
def parse_thread_cache (img : process_image) (mem : Nat → Option Nat) (fuel : Nat)
    (st : HeapState) : Outcome (HeapState × Bool) :=
  match img.thread_heaps_ with
  | none => Outcome.ret (st, false)
  | some caches => parse_thread_caches mem fuel caches st

/-- The `while (value_as_address(head) != 0)` loop of `parse_central_freelist_tcentry`:
count the node, add it to the cached blocks, fail when the count is above 1024, leave at
the tail, otherwise follow the link stored at the node (a link the debugger cannot read
raises its error: `fault`). Yields the globals, the count and the returned `bool` (false
for the two `return false` inside the loop). The first argument bounds the iterations:
the 1025th one is left by `count > 1024` at the latest. -/
def tcentry_chain (mem : Nat → Option Nat) (tail : Nat) :
    Nat → Nat → Nat → HeapState → Outcome (HeapState × Nat × Bool)
  | 0, _, _, _ => Outcome.hang
  | fuel + 1, count, head, st =>
    if head = 0 then Outcome.ret (st, count, true)
    else
      match cached_block_add st head with
      | (st1, false) => Outcome.ret (st1, count + 1, false)
      | (st1, true) =>
        if count + 1 > 1024 then Outcome.ret (st1, count + 1, false)
        else if head = tail then Outcome.ret (st1, count + 1, true)
        else
          match mem head with
          | none => Outcome.fault
          | some next => tcentry_chain mem tail fuel (count + 1) next st1

/-- `parse_central_freelist_tcentry(tcentry, empty_slot)`: the chain loop, then
`*empty_slot` is set to whether no node was counted. Yields the globals, the value behind
`empty_slot` (left as it was when the call fails) and the returned `bool`. -/
def parse_central_freelist_tcentry (mem : Nat → Option Nat) (tcentry : tc_entry_value)
    (empty_slot : Bool) (st : HeapState) : Outcome (HeapState × Bool × Bool) :=
  match tcentry_chain mem tcentry.tail 1025 0 tcentry.head st with
  | Outcome.fault => Outcome.fault
  | Outcome.hang => Outcome.hang
  | Outcome.ret (st1, _, false) => Outcome.ret (st1, empty_slot, false)
  | Outcome.ret (st1, count, true) => Outcome.ret (st1, decide (count = 0), true)

/-- `parse_central_freelist`, the loop over the slots `tc_slots_`: each slot is parsed;
the number of slots that are not empty only feeds a diagnostic message. -/
def parse_central_freelist (mem : Nat → Option Nat) :
    List tc_entry_value → HeapState → Outcome (HeapState × Bool)
  | [], st => Outcome.ret (st, true)
  | tcentry :: rest, st =>
    match parse_central_freelist_tcentry mem tcentry false st with
    | Outcome.fault => Outcome.fault
    | Outcome.hang => Outcome.hang
    | Outcome.ret (st1, _, false) => Outcome.ret (st1, false)
    | Outcome.ret (st1, _, true) => parse_central_freelist mem rest st1

/-- The loop of `parse_central_cache` over the central free lists. -/
def parse_central_freelists (mem : Nat → Option Nat) :
    List (List tc_entry_value) → HeapState → Outcome (HeapState × Bool)
  | [], st => Outcome.ret (st, true)
  | cfl :: rest, st =>
    match parse_central_freelist mem cfl st with
    | Outcome.fault => Outcome.fault
    | Outcome.hang => Outcome.hang
    | Outcome.ret (st1, false) => Outcome.ret (st1, false)
    | Outcome.ret (st1, true) => parse_central_freelists mem rest st1

/-- `parse_central_cache`: the length of `central_cache_` must agree with `kNumClasses`
(or sets it when that is still zero), then every central free list is parsed. -/
def parse_central_cache (img : process_image) (mem : Nat → Option Nat) (st : HeapState) :
    Outcome (HeapState × Bool) :=
  match img.central_cache_ with
  | none => Outcome.ret (st, false)
  | some cache =>
    if st.g_config.kNumClasses ≠ 0 ∧ st.g_config.kNumClasses ≠ cache.length then
      Outcome.ret (st, false)
    else
      parse_central_freelists mem cache
        (if st.g_config.kNumClasses = 0 then
          { st with g_config := { st.g_config with kNumClasses := cache.length } }
         else st)

/-- The libc `qsort` of `g_cached_blocks` with `cached_block_compare` (not part of the
repository): the ascending arrangement of the addresses, here by insertion. -/
def qsort_cached_blocks (blocks : List Nat) : List Nat :=
  List.insertionSort (fun la ra => cached_block_compare la ra ≤ 0) blocks

/-- `init_heap`: the four builders in turn, the sort of the cached blocks, the two
verifications; `g_initialized` is written once, on the way to `return true`. -/
def init_heap (img : process_image) (mem : Nat → Option Nat) (fuel : Nat) (st : HeapState) :
    Outcome (HeapState × Bool) :=
  match parse_config img st with
  | (st1, false) => Outcome.ret (st1, false)
  | (st1, true) =>
    match parse_pagemap img st1 with
    | (st2, false) => Outcome.ret (st2, false)
    | (st2, true) =>
      match parse_thread_cache img mem fuel st2 with
      | Outcome.fault => Outcome.fault
      | Outcome.hang => Outcome.hang
      | Outcome.ret (st3, false) => Outcome.ret (st3, false)
      | Outcome.ret (st3, true) =>
        match parse_central_cache img mem st3 with
        | Outcome.fault => Outcome.fault
        | Outcome.hang => Outcome.hang
        | Outcome.ret (st4, false) => Outcome.ret (st4, false)
        | Outcome.ret (st4, true) =>
          if verify_sorted_cached_blocks
                { st4 with g_cached_blocks := qsort_cached_blocks st4.g_cached_blocks } = false ∨
              verify_sorted_spans
                { st4 with g_cached_blocks := qsort_cached_blocks st4.g_cached_blocks } = false then
            Outcome.ret
              ({ st4 with g_cached_blocks := qsort_cached_blocks st4.g_cached_blocks }, false)
          else
            Outcome.ret
              ({ st4 with g_cached_blocks := qsort_cached_blocks st4.g_cached_blocks,
                          g_initialized := true }, true)

/-- The globals when the program starts: statics are zero; the memory that `realloc`
will hand out for the span table holds zeros as well. -/
def initial_state : HeapState :=
  { g_initialized := false,
    g_config := { kPageShift := 0, kNumClasses := 0, class_to_size := [] },
    g_spans := [], g_cached_blocks := [], skip_npage := 0 }

/-- A process image in which the links at `0xB020` and `0xB040` are null and no other
word can be read. -/
def ex_mem_cached : Nat → Option Nat :=
  fun a => if a = 0xB020 ∨ a = 0xB040 then some 0 else none

/-- An inspected process with 4 KiB pages and size classes of 32 and 376 bytes: one
undivided in-use span at page 10, one in-use span of 32-byte blocks at page 11 with
`0xB020` on its free-object list, one thread cache with `0xB040` on its free list of
class 1, and empty central caches. -/
def ex_image : process_image :=
  { kPageShift := some 12,
    class_to_size_ := some [0, 32, 376],
    pagemap_ := some [some [some
      [none, none, none, none, none, none, none, none, none, none,
       some { start := 10, length := 1, next := 0, prev := 0, objects := 0, refcount := 0,
              sizeclass := 0, location := 0, sample := 0 },
       some { start := 11, length := 1, next := 0, prev := 0, objects := 0xB020, refcount := 0,
              sizeclass := 1, location := 0, sample := 0 },
       none], none], none],
    thread_heaps_ := some [[⟨0, 0⟩, ⟨1, 0xB040⟩, ⟨0, 0⟩]],
    central_cache_ := some [[⟨0, 0⟩], [⟨0, 0⟩], [⟨0, 0⟩]] }

/-- The same process seen without the symbols of the allocator: every lookup fails. -/
def ex_image_stripped : process_image :=
  { kPageShift := none, class_to_size_ := none, pagemap_ := none, thread_heaps_ := none,
    central_cache_ := none }

/-! ## Specification-side notions for the builders -/

/-- Nothing of the first state was discarded on the way to the second: the ready flag is
the same, and the span table and the cached-block array of the first state are still
there, at the front of those of the second. -/
def carried_over (st st1 : HeapState) : Prop :=
  st1.g_initialized = st.g_initialized ∧ st.g_spans <+: st1.g_spans ∧
    st.g_cached_blocks <+: st1.g_cached_blocks

/-- The nodes of a chain of cached blocks, at most `k` of them: from `head` along the
links stored at the nodes, up to and including the node `tail`, or up to the node whose
link is null (or cannot be read). A chain without tail, as in a thread cache, is the one
with `tail = 0`. -/
def chain_nodes (mem : Nat → Option Nat) (tail : Nat) : Nat → Nat → List Nat
  | 0, _ => []
  | k + 1, head =>
    if head = 0 then []
    else
      head ::
        (if head = tail then []
         else
           match mem head with
           | none => []
           | some next => chain_nodes mem tail k next)

/-- The links of the first `k` nodes of the chain can be read, as far as the chain goes
(the link of the node `tail` is not followed). -/
def links_readable (mem : Nat → Option Nat) (tail : Nat) : Nat → Nat → Bool
  | 0, _ => true
  | k + 1, head =>
    if head = 0 ∨ head = tail then true
    else
      match mem head with
      | none => false
      | some next => links_readable mem tail k next

/-- The state with further addresses behind the cached blocks. -/
def with_cached (st : HeapState) (nodes : List Nat) : HeapState :=
  { st with g_cached_blocks := st.g_cached_blocks ++ nodes }

/-- The nodes that `parse_thread_cache_lists` appends for one free list: the first
`length_ + 1` nodes of its chain at most. -/
def thread_list_nodes (mem : Nat → Option Nat) (fl : free_list_value) : List Nat :=
  chain_nodes mem 0 (fl.length_ + 1) fl.list_

/-- The span after `k` calls of `span_populate_free_bitmap` in a row. -/
def populate_times (st : HeapState) (mem : Nat → Option Nat) (fuel : Nat) :
    Nat → ca_span → Outcome ca_span
  | 0, s => Outcome.ret s
  | k + 1, s =>
    match span_populate_free_bitmap st mem fuel s with
    | Outcome.fault => Outcome.fault
    | Outcome.hang => Outcome.hang
    | Outcome.ret (s1, _) => populate_times st mem fuel k s1

/-! ## Further example heaps and processes -/

/-- A cached-block array with a duplicate, as two caches holding the same block leave it. -/
def ex_cached_dup : HeapState :=
  { g_initialized := true, g_config := ex_cfg, g_spans := [ex_span 11 1 0xB020 1 IN_USE],
    g_cached_blocks := [0xB040, 0xB060, 0xB060, 0xB080] }

/-- The state that `init_heap` leaves when it is run again on `ex_pair` against the same
process: every entry twice. -/
def ex_pair_twice : HeapState :=
  { g_initialized := true, g_config := ex_cfg,
    g_spans := [ex_span 10 1 0 0 IN_USE, ex_span 11 1 0xB020 1 IN_USE,
                ex_span 10 1 0 0 IN_USE, ex_span 11 1 0xB020 1 IN_USE],
    g_cached_blocks := [0xB040, 0xB040] }

/-- The state `ex_pair` after a query has built the bitmap of its second span. -/
def ex_pair_built : HeapState :=
  { g_initialized := true, g_config := ex_cfg,
    g_spans := [ex_span 10 1 0 0 IN_USE, ex_small_span_built], g_cached_blocks := [0xB040] }

/-- A process image with a chain of blocks 8 bytes apart: the word at every multiple of
8 from `0x1000` up to `0x2FF8` holds the address of the next multiple; no other word can
be read. From `0x1000` the chain reaches `0x2FF8` as its 1024th node and `0x3000` as its
1025th. -/
def ex_mem_long : Nat → Option Nat :=
  fun a => if 0x1000 ≤ a ∧ a < 0x3000 ∧ a % 8 = 0 then some (a + 8) else none

/-- A process image with the chain `0xB020`, `0xB040`: the word at `0xB020` holds
`0xB040`, the word at `0xB040` a null link; no other word can be read. -/
def ex_mem_chain : Nat → Option Nat :=
  fun a => if a = 0xB020 then some 0xB040 else if a = 0xB040 then some 0 else none

/-- The free lists of one thread cache: empty lists for the classes 0 and 2, and for
class 1 the recorded length 1 with the head `0xB020`. -/
def ex_free_lists : List free_list_value := [⟨0, 0⟩, ⟨1, 0xB020⟩, ⟨0, 0⟩]

/-- The globals after `parse_config` has run on the initial state. -/
def ex_configured : HeapState :=
  { g_initialized := false, g_config := ex_cfg, g_spans := [], g_cached_blocks := [] }

/-! ## The page-skip walk, repeated queries, and further examples -/

/-- The process of `ex_image` with the block `0xB040` also in a slot of the central
cache of class 1: the cached blocks hold it twice. -/
def ex_image_dup : process_image :=
  { ex_image with central_cache_ := some [[⟨0, 0⟩], [⟨0xB040, 0xB040⟩], [⟨0, 0⟩]] }

/-- The process of `ex_image` with the address `0xB041` in a slot of the central cache
of class 1: the cached blocks hold `0xB040` and its successor address. -/
def ex_image_adjacent : process_image :=
  { ex_image with central_cache_ := some [[⟨0, 0⟩], [⟨0xB041, 0xB041⟩], [⟨0, 0⟩]] }

/-- The table entry that `parse_span` makes of a span in memory that held the pair
`fresh` of a bitmap pointer and a count. -/
def span_entry (fresh : Option (List Nat) × Nat) (v : span_value) : ca_span :=
  { start := v.start, length := v.length, next := v.next, prev := v.prev,
    objects := v.objects, refcount := v.refcount, sizeclass := v.sizeclass,
    location := v.location, sample := v.sample, bitmap := fresh.1, count := fresh.2 }

/-- The table entries that `parse_span` makes of a list of spans, one after the other. -/
def table_entries : List (Option (List Nat) × Nat) → List span_value → List ca_span
  | _, [] => []
  | fresh, v :: rest =>
    span_entry (fresh.head?.getD (none, 0)) v :: table_entries fresh.tail rest

/-- The nine members of a table entry that come from the span in the process. -/
def span_members (s : ca_span) : span_value :=
  { start := s.start, length := s.length, next := s.next, prev := s.prev,
    objects := s.objects, refcount := s.refcount, sizeclass := s.sizeclass,
    location := s.location, sample := s.sample }

/-- The slots of one node of the page map in the order the builder walks them: the
`values` of every leaf there is. -/
def node_slots : List (Option (List (Option span_value))) → List (Option span_value)
  | [] => []
  | none :: rest => node_slots rest
  | some leaf :: rest => leaf ++ node_slots rest

/-- The slots of the page map in the order the builder walks them. -/
def page_slots :
    List (Option (List (Option (List (Option span_value))))) → List (Option span_value)
  | [] => []
  | none :: rest => page_slots rest
  | some node :: rest => node_slots node ++ page_slots rest

/-- The page-skip walk as the claim reads, over the slots of the page map in ascending
order, from a skip count and the position of the first slot: with a positive skip count a
slot is passed over unread; otherwise a null slot is passed over, and a slot with a span
gives one entry (with the position of the slot) and sets the skip count to the length of
the span less one, in `unsigned long` arithmetic. -/
def examined_slots : Nat → Nat → List (Option span_value) → List (Nat × span_value)
  | _, _, [] => []
  | skip, k, v :: rest =>
    if skip > 0 then examined_slots (skip - 1) (k + 1) rest
    else
      match v with
      | none => examined_slots 0 (k + 1) rest
      | some span => (k, span) :: examined_slots (sub64 span.length 1) (k + 1) rest

/-- The skip count that the walk of `examined_slots` leaves behind. -/
def skip_after : Nat → List (Option span_value) → Nat
  | skip, [] => skip
  | skip, v :: rest =>
    if skip > 0 then skip_after (skip - 1) rest
    else
      match v with
      | none => skip_after 0 rest
      | some span => skip_after (sub64 span.length 1) rest

/-- The slots of a page map that holds each span of a list at each of its covering
slots, behind a gap of null slots: for an entry `(gap, v)` there are `gap` null slots and
then `v.length` slots with `v`. -/
def slots_of_spans (spans : List (Nat × span_value)) : List (Option span_value) :=
  spans.flatMap (fun gv => List.replicate gv.1 none ++ List.replicate gv.2.length (some gv.2))

/-- The state after `parse_span` has made entries of a list of spans, with a new
page-skip counter. -/
def with_spans (st : HeapState) (spans : List span_value) (skip : Nat) : HeapState :=
  { st with g_spans := st.g_spans ++ table_entries st.fresh_span_memory spans,
            fresh_span_memory := st.fresh_span_memory.drop spans.length, skip_npage := skip }

/-- The root of a page map with one leaf of six slots for the pages 0 to 5: page 0 and
page 5 are unused, the span of the pages 1 to 3 stands at each of its three slots, the
span of page 4 at its one slot. -/
def ex_root_long : List (Option (List (Option (List (Option span_value))))) :=
  [some [some
    [none,
     some { start := 1, length := 3, next := 0, prev := 0, objects := 0, refcount := 0,
            sizeclass := 0, location := 0, sample := 0 },
     some { start := 1, length := 3, next := 0, prev := 0, objects := 0, refcount := 0,
            sizeclass := 0, location := 0, sample := 0 },
     some { start := 1, length := 3, next := 0, prev := 0, objects := 0, refcount := 0,
            sizeclass := 0, location := 0, sample := 0 },
     some { start := 4, length := 1, next := 0, prev := 0, objects := 0, refcount := 0,
            sizeclass := 0, location := 0, sample := 0 },
     none], none], none]

/-- The example process with the page map `ex_root_long`. -/
def ex_image_long : process_image := { ex_image with pagemap_ := some ex_root_long }

/-- A process image with a cyclic chain: the word at `0xB020` holds `0xB040` and the
word at `0xB040` holds `0xB020`; no other word can be read. -/
def ex_mem_cyclic : Nat → Option Nat :=
  fun a => if a = 0xB020 then some 0xB040 else if a = 0xB040 then some 0xB020 else none

/-- One in-use span of one page at `0x1000` cut into 376-byte blocks: 10 whole blocks
and a tail of 336 bytes from `0x1EB0` on. -/
def ex_short : HeapState :=
  { g_initialized := true, g_config := ex_cfg, g_spans := [ex_span 1 1 0 2 IN_USE],
    g_cached_blocks := [] }

/-- The state `ex_short` after a query has built the bitmap of its span. -/
def ex_short_built : HeapState :=
  { g_initialized := true, g_config := ex_cfg,
    g_spans := [{ ex_span 1 1 0 2 IN_USE with bitmap := some [0], count := 10 }],
    g_cached_blocks := [] }

/-- The blocks that `k` calls of `get_next_heap_block` in a row visit, each call fed the
address of the block before (and the state the call before left); the list stops at the
first call that does not return true. -/
def next_blocks (mem : Nat → Option Nat) (fuel : Nat) :
    Nat → HeapState → Nat → heap_block → List heap_block
  | 0, _, _, _ => []
  | k + 1, st, a, blk =>
    match get_next_heap_block mem fuel st a blk with
    | Outcome.ret r =>
      if r.ok = true then r.blk :: next_blocks mem fuel k r.st r.blk.addr r.blk else []
    | _ => []

/-- An inspected process whose page map holds one span of zero pages at page 10, not in
use; no cached blocks. -/
def ex_image_empty_span : process_image :=
  { kPageShift := some 12,
    class_to_size_ := some [0, 32, 376],
    pagemap_ := some [some [some
      [none, none, none, none, none, none, none, none, none, none,
       some { start := 10, length := 0, next := 0, prev := 0, objects := 0, refcount := 0,
              sizeclass := 0, location := 1, sample := 0 },
       none], none], none],
    thread_heaps_ := some [[⟨0, 0⟩, ⟨0, 0⟩, ⟨0, 0⟩]],
    central_cache_ := some [[⟨0, 0⟩], [⟨0, 0⟩], [⟨0, 0⟩]] }

/-- The globals that `init_heap` leaves for the process `ex_image_empty_span`. -/
def ex_empty_span : HeapState :=
  { g_initialized := true, g_config := ex_cfg, g_spans := [ex_span 10 0 0 0 1],
    g_cached_blocks := [], skip_npage := 18446744073709551614 }

/-- An inspected process with 4 KiB pages and one size class of 8 bytes, whose page map
holds one in-use span of `2^23 + 1` pages at page 16, cut into 8-byte blocks: `2^32 + 512`
blocks, none of them free. -/
def ex_image_huge : process_image :=
  { kPageShift := some 12,
    class_to_size_ := some [0, 8],
    pagemap_ := some [some [some
      [some { start := 16, length := 8388609, next := 0, prev := 0, objects := 0,
              refcount := 0, sizeclass := 1, location := 0, sample := 0 }]]],
    thread_heaps_ := some [[⟨0, 0⟩, ⟨0, 0⟩]],
    central_cache_ := some [[⟨0, 0⟩], [⟨0, 0⟩]] }

/-- The globals that `init_heap` leaves for the process `ex_image_huge`. -/
def ex_huge : HeapState :=
  { g_initialized := true,
    g_config := { kPageShift := 12, kNumClasses := 2, class_to_size := [0, 8] },
    g_spans := [ex_span 16 8388609 0 1 IN_USE], g_cached_blocks := [],
    skip_npage := 8388608 }

/-- The state `ex_huge` after a query has built the bitmap of its span: `count` is the
block count cut to 32 bits, 512, and the bitmap has 16 words. -/
def ex_huge_built : HeapState :=
  { g_initialized := true,
    g_config := { kPageShift := 12, kNumClasses := 2, class_to_size := [0, 8] },
    g_spans := [{ ex_span 16 8388609 0 1 IN_USE with
                  bitmap := some (List.replicate 16 0), count := 512 }],
    g_cached_blocks := [], skip_npage := 8388608 }

/-! ## Lemmas and theorems -/

/-! ### Span lookup: `bsearch` over a sorted table -/

theorem sorted_adjacent {spans : List ca_span} (h : spans_sorted spans) {i : Nat} {a b : ca_span}
    (ha : spans[i]? = some a) (hb : spans[i + 1]? = some b) : a.start + a.length ≤ b.start := by
  induction spans generalizing i with
  | nil => simp at ha
  | cons x xs ih =>
    cases xs with
    | nil => simp at hb
    | cons y ys =>
      have h2 := List.chain'_cons.mp h
      cases i with
      | zero =>
        simp at ha hb
        subst ha; subst hb; exact h2.1
      | succ k =>
        rw [List.getElem?_cons_succ] at ha hb
        exact ih h2.2 ha hb

theorem sorted_lt {spans : List ca_span} (h : spans_sorted spans) {i j : Nat} {a b : ca_span}
    (hij : i < j) (ha : spans[i]? = some a) (hb : spans[j]? = some b) :
    a.start + a.length ≤ b.start := by
  induction j generalizing b with
  | zero => omega
  | succ k ih =>
    by_cases hik : i = k
    · subst hik; exact sorted_adjacent h ha hb
    · have hk : k < spans.length := by
        have := (List.getElem?_eq_some_iff.mp hb).1
        omega
      have hc : spans[k]? = some spans[k] := List.getElem?_eq_getElem hk
      have h1 := ih (by omega) hc
      have h2 := sorted_adjacent h hc hb
      omega

theorem compare_neg {p : Nat} {s : ca_span} (hno : s.start + s.length < ULONG_MOD) :
    span_search_compare p s < 0 ↔ p < s.start := by
  unfold span_search_compare add64
  rw [Nat.mod_eq_of_lt hno]
  split <;> split <;> simp <;> omega

theorem compare_pos {p : Nat} {s : ca_span} (hno : s.start + s.length < ULONG_MOD) :
    span_search_compare p s > 0 ↔ s.start + s.length ≤ p := by
  unfold span_search_compare add64
  rw [Nat.mod_eq_of_lt hno]
  split <;> split <;> simp <;> omega

theorem bsearch_loop_sound {α : Type} (compar : α → Int) (base : List α) :
    ∀ (fuel l u i : Nat), bsearch_loop compar base fuel l u = some i →
      l ≤ i ∧ i < u ∧ ∃ p, base[i]? = some p ∧ compar p = 0 := by
  intro fuel
  induction fuel with
  | zero => intro l u i h; simp [bsearch_loop] at h
  | succ n ih =>
    intro l u i h
    unfold bsearch_loop at h
    split at h
    · rename_i hlu
      split at h
      · simp at h
      · rename_i p hp
        split at h
        · have := ih _ _ _ h
          refine ⟨this.1, by omega, this.2.2⟩
        · split at h
          · have := ih _ _ _ h
            refine ⟨by omega, this.2.1, this.2.2⟩
          · simp at h
            subst h
            refine ⟨by omega, by omega, p, hp, by omega⟩
    · simp at h

theorem bsearch_loop_complete {α : Type} (compar : α → Int) (base : List α) (t : Nat) (pt : α)
    (ht : base[t]? = some pt) (h0 : compar pt = 0)
    (hlo : ∀ i p, i < t → base[i]? = some p → compar p > 0)
    (hhi : ∀ i p, t < i → base[i]? = some p → compar p < 0) :
    ∀ (fuel l u : Nat), l ≤ t → t < u → u ≤ base.length → u - l ≤ fuel →
      bsearch_loop compar base fuel l u = some t := by
  intro fuel
  induction fuel with
  | zero => intro l u h1 h2 h3 h4; omega
  | succ n ih =>
    intro l u h1 h2 h3 h4
    unfold bsearch_loop
    have hlu : l < u := by omega
    rw [if_pos hlu]
    have hm : (l + u) / 2 < base.length := by omega
    rw [List.getElem?_eq_getElem hm]
    simp only
    rcases Nat.lt_trichotomy ((l + u) / 2) t with hlt | heq | hgt
    · have hc := hlo _ _ hlt (List.getElem?_eq_getElem hm)
      rw [if_neg (by omega), if_pos hc]
      exact ih _ _ (by omega) h2 h3 (by omega)
    · have hp : base[(l + u) / 2] = pt := by
        have h5 := List.getElem?_eq_getElem hm
        have h6 : base[(l + u) / 2]? = some pt := by rw [heq]; exact ht
        rw [h5] at h6
        exact Option.some.inj h6
      rw [hp, h0]
      simp [heq]
    · have hc := hhi _ _ hgt (List.getElem?_eq_getElem hm)
      rw [if_pos hc]
      exact ih _ _ h1 hgt (by omega) (by omega)

/-- The iteration bound of `bsearch_loop` never cuts the search short: any bound of at
least `u - l` gives the same result. -/
theorem bsearch_loop_fuel {α : Type} (compar : α → Int) (base : List α) :
    ∀ (fuel1 fuel2 l u : Nat), u - l ≤ fuel1 → u - l ≤ fuel2 →
      bsearch_loop compar base fuel1 l u = bsearch_loop compar base fuel2 l u := by
  intro fuel1
  induction fuel1 with
  | zero =>
    intro fuel2 l u h1 _
    cases fuel2 with
    | zero => rfl
    | succ m =>
      unfold bsearch_loop
      rw [if_neg (by omega)]
  | succ n ih =>
    intro fuel2 l u h1 h2
    cases fuel2 with
    | zero =>
      unfold bsearch_loop
      rw [if_neg (by omega)]
    | succ m =>
      unfold bsearch_loop
      split
      · cases base[(l + u) / 2]? with
        | none => rfl
        | some p =>
          simp only
          split
          · exact ih m l _ (by omega) (by omega)
          · split
            · exact ih m _ u (by omega) (by omega)
            · rfl
      · rfl

theorem span_get_spec (st : HeapState) (hs : spans_sorted st.g_spans)
    (hno : spans_no_overflow st.g_spans) (a : Nat) :
    (∀ i s, st.g_spans[i]? = some s → span_covers s (a >>> st.g_config.kPageShift) →
        span_get st a = some i) ∧
    ((∀ s ∈ st.g_spans, ¬ span_covers s (a >>> st.g_config.kPageShift)) →
        span_get st a = none) := by
  constructor
  · intro i s hi hc
    unfold span_get bsearch
    have hil := (List.getElem?_eq_some_iff.mp hi).1
    apply bsearch_loop_complete _ _ i s hi
    · have h1 := compare_neg (p := a >>> st.g_config.kPageShift) (hno s (List.getElem?_mem hi))
      have h2 := compare_pos (p := a >>> st.g_config.kPageShift) (hno s (List.getElem?_mem hi))
      unfold span_covers at hc
      omega
    · intro j p hj hp
      have := sorted_lt hs hj hp hi
      rw [gt_iff_lt, ← gt_iff_lt, compare_pos (hno p (List.getElem?_mem hp))]
      unfold span_covers at hc
      omega
    · intro j p hj hp
      have := sorted_lt hs hj hi hp
      rw [compare_neg (hno p (List.getElem?_mem hp))]
      unfold span_covers at hc
      omega
    · omega
    · exact hil
    · exact Nat.le_refl _
    · omega
  · intro hnone
    unfold span_get bsearch
    cases h : bsearch_loop (span_search_compare (a >>> st.g_config.kPageShift)) st.g_spans
        st.g_spans.length 0 st.g_spans.length with
    | none => rfl
    | some i =>
      exfalso
      obtain ⟨_, _, p, hp, hc⟩ := bsearch_loop_sound _ _ _ _ _ _ h
      have hmem := List.getElem?_mem hp
      apply hnone p hmem
      have h1 := compare_neg (p := a >>> st.g_config.kPageShift) (hno p hmem)
      have h2 := compare_pos (p := a >>> st.g_config.kPageShift) (hno p hmem)
      unfold span_covers
      omega

/-! ### Bitmap words -/

theorem and_two_pow_ne_zero (w b : Nat) : (w &&& 2 ^ b ≠ 0) ↔ w.testBit b = true := by
  constructor
  · intro h
    obtain ⟨i, hi⟩ := Nat.ne_zero_implies_bit_true h
    rw [Nat.testBit_and, Nat.testBit_two_pow] at hi
    simp only [Bool.and_eq_true, decide_eq_true_eq] at hi
    rw [hi.2]; exact hi.1
  · intro h h0
    have : (w &&& 2 ^ b).testBit b = true := by
      rw [Nat.testBit_and, Nat.testBit_two_pow, h]; simp
    rw [h0] at this
    simp at this

theorem bit_offset (index : Nat) : index - index / UINT_BITS * UINT_BITS = index % UINT_BITS := by
  unfold UINT_BITS; omega

theorem bitmap_test_eq (bm : List Nat) (k : Nat) (h : k / UINT_BITS < bm.length) :
    bitmap_test bm k = some (bitmap_bit bm k) := by
  unfold bitmap_test bitmap_bit
  rw [List.getElem?_eq_getElem h, bit_offset, Nat.one_shiftLeft]
  simp only [List.getD_eq_getElem?_getD, List.getElem?_eq_getElem h, Option.getD_some]
  congr 1
  have := and_two_pow_ne_zero bm[k / UINT_BITS] (k % UINT_BITS)
  by_cases hb : bm[k / UINT_BITS].testBit (k % UINT_BITS) = true
  · rw [hb]; exact decide_eq_true (this.mpr hb)
  · rw [Bool.not_eq_true] at hb
    rw [hb]; apply decide_eq_false; intro hne; rw [this] at hne; rw [hne] at hb; cases hb

theorem bitmap_test_none (bm : List Nat) (k : Nat) (h : bm.length ≤ k / UINT_BITS) :
    bitmap_test bm k = none := by
  unfold bitmap_test
  rw [List.getElem?_eq_none h]

theorem bitmap_set_some (bm : List Nat) (i : Nat) (h : i / UINT_BITS < bm.length) :
    ∃ bm1, bitmap_set bm i = some bm1 ∧ bm1.length = bm.length ∧
      ∀ k, bitmap_bit bm1 k = (bitmap_bit bm k || decide (i = k)) := by
  unfold bitmap_set
  rw [List.getElem?_eq_getElem h]
  refine ⟨_, rfl, by simp, ?_⟩
  intro k
  unfold bitmap_bit
  rw [bit_offset, Nat.one_shiftLeft]
  simp only [List.getD_eq_getElem?_getD]
  by_cases hk : k / UINT_BITS = i / UINT_BITS
  · rw [hk, List.getElem?_set_self h, List.getElem?_eq_getElem h]
    simp only [Option.getD_some, Nat.testBit_or, Nat.testBit_two_pow]
    congr 1
    have h1 := Nat.div_add_mod i UINT_BITS
    have h2 := Nat.div_add_mod k UINT_BITS
    rw [hk] at h2
    by_cases hm : i % UINT_BITS = k % UINT_BITS
    · rw [decide_eq_true hm]; symm; apply decide_eq_true; rw [hm] at h1; omega
    · rw [decide_eq_false hm]; symm; apply decide_eq_false; intro he; apply hm; rw [he]
  · rw [List.getElem?_set_ne (Ne.symm hk)]
    have : ¬ i = k := by intro he; apply hk; rw [he]
    rw [decide_eq_false this, Bool.or_false]

theorem bitmap_set_none (bm : List Nat) (i : Nat) (h : bm.length ≤ i / UINT_BITS) :
    bitmap_set bm i = none := by
  unfold bitmap_set
  rw [List.getElem?_eq_none h]

theorem bitmap_bit_replicate (n k : Nat) : bitmap_bit (List.replicate n 0) k = false := by
  unfold bitmap_bit
  simp only [List.getD_eq_getElem?_getD]
  by_cases h : k / UINT_BITS < n
  · rw [List.getElem?_replicate_of_lt h]; simp
  · rw [List.getElem?_eq_none (by simpa using h)]; simp


/-! ### Machine arithmetic without overflow -/

theorem ulong_mod_eq : ULONG_MOD = 18446744073709551616 := by decide
theorem uint_mod_eq : UINT_MOD = 4294967296 := by decide

theorem sub64_eq {a b : Nat} (hb : b ≤ a) (ha : a < ULONG_MOD) : sub64 a b = a - b := by
  unfold sub64
  rw [ulong_mod_eq] at *
  omega

theorem add64_eq {a b : Nat} (h : a + b < ULONG_MOD) : add64 a b = a + b := by
  unfold add64; exact Nat.mod_eq_of_lt h

theorem mul64_eq {a b : Nat} (h : a * b < ULONG_MOD) : mul64 a b = a * b := by
  unfold mul64; exact Nat.mod_eq_of_lt h

theorem block_index_eq {base B C c : Nat} (hB : 0 < B) (hC : C < UINT_MOD)
    (hE : base + C * B < ULONG_MOD) (h1 : base ≤ c) (h2 : c < base + C * B) :
    (sub64 c base / B) % UINT_MOD = (c - base) / B ∧ (c - base) / B < C := by
  rw [sub64_eq h1 (by omega)]
  have h3 : (c - base) / B < C := by
    rw [Nat.div_lt_iff_lt_mul hB]; omega
  exact ⟨Nat.mod_eq_of_lt (by omega), h3⟩

theorem block_aligned_iff {base B C c : Nat} (hB : 0 < B) (hC : C < UINT_MOD)
    (hE : base + C * B < ULONG_MOD) (h1 : base ≤ c) (h2 : c < base + C * B) :
    add64 base (mul64 ((sub64 c base / B) % UINT_MOD) B) = c ↔ (c - base) % B = 0 := by
  rw [(block_index_eq hB hC hE h1 h2).1]
  have h3 : (c - base) / B * B ≤ c - base := Nat.div_mul_le_self _ _
  rw [mul64_eq (by omega), add64_eq (by omega)]
  have h4 := Nat.div_add_mod (c - base) B
  rw [Nat.mul_comm] at h4
  omega

/-! ### The free-object list walk and the cached-block scan -/

theorem walk_objects_spec (mem : Nat → Option Nat) {base B C : Nat} (hB : 0 < B)
    (hC : C < UINT_MOD) (hE : base + C * B < ULONG_MOD) :
    ∀ (fuel cursor : Nat) (bm : List Nat), bm.length = (C + UINT_BITS - 1) / UINT_BITS →
      walk_objects mem base (add64 base (mul64 C B)) B fuel cursor bm = Outcome.hang ∨
      ∃ bm1, walk_objects mem base (add64 base (mul64 C B)) B fuel cursor bm = Outcome.ret bm1 ∧
        bm1.length = bm.length ∧
        ∀ k, (bitmap_bit bm1 k = true ↔ bitmap_bit bm k = true ∨
          base + k * B ∈ free_list_nodes mem base (base + C * B) B fuel cursor) := by
  have hend : add64 base (mul64 C B) = base + C * B := by
    rw [mul64_eq (by omega), add64_eq hE]
  rw [hend]
  intro fuel
  induction fuel with
  | zero => intro cursor bm _; left; rfl
  | succ n ih =>
    intro cursor bm hlen
    unfold walk_objects free_list_nodes
    by_cases h0 : cursor = 0
    · simp [h0]
    by_cases hr : cursor < base ∨ cursor ≥ base + C * B
    · rw [if_neg h0, if_pos hr]
      right
      refine ⟨bm, rfl, rfl, ?_⟩
      intro k
      have : (cursor = 0 ∨ cursor < base ∨ base + C * B ≤ cursor ∨ (cursor - base) % B ≠ 0) := by
        rcases hr with h | h
        · exact Or.inr (Or.inl h)
        · exact Or.inr (Or.inr (Or.inl h))
      rw [if_pos this]; simp
    have h1 : base ≤ cursor := by omega
    have h2 : cursor < base + C * B := by omega
    rw [if_neg h0, if_neg hr]
    have hal := block_aligned_iff hB hC hE h1 h2
    have hix := block_index_eq hB hC hE h1 h2
    by_cases ha : (cursor - base) % B = 0
    · rw [if_neg (by rw [ne_eq, not_not]; exact hal.mpr ha)]
      rw [if_neg (by
        intro h
        rcases h with h | h | h | h
        · exact h0 h
        · omega
        · omega
        · exact h ha)]
      rw [hix.1]
      have hin : (cursor - base) / B / UINT_BITS < bm.length := by
        rw [hlen]; have := hix.2; unfold UINT_BITS; omega
      obtain ⟨bm1, hset, hl1, hb1⟩ := bitmap_set_some bm _ hin
      rw [hset]
      have hcur : cursor = base + (cursor - base) / B * B := by
        have h4 := Nat.div_add_mod (cursor - base) B
        rw [Nat.mul_comm] at h4
        omega
      have hk : ∀ k, (cursor - base) / B = k ↔ base + k * B = cursor := by
        intro k
        constructor
        · intro h; rw [← h]; exact hcur.symm
        · intro h
          have : k * B = (cursor - base) / B * B := by omega
          exact (Nat.eq_of_mul_eq_mul_right hB this).symm
      cases hm : mem cursor with
      | none =>
        right
        refine ⟨bm1, rfl, hl1, ?_⟩
        intro k
        rw [hb1 k]
        simp only [Bool.or_eq_true, decide_eq_true_eq, List.mem_singleton]
        rw [hk k]
      | some next =>
        simp only
        rcases ih next bm1 (by rw [hl1, hlen]) with hh | ⟨bm2, hw, hl2, hb2⟩
        · left; exact hh
        · right
          refine ⟨bm2, hw, by rw [hl2, hl1], ?_⟩
          intro k
          rw [hb2 k, hb1 k]
          simp only [Bool.or_eq_true, decide_eq_true_eq, List.mem_cons]
          rw [hk k]
          tauto
    · rw [if_pos (by rw [ne_eq]; intro h; exact ha (hal.mp h))]
      right
      refine ⟨bm, rfl, rfl, ?_⟩
      intro k
      rw [if_pos (Or.inr (Or.inr (Or.inr ha)))]
      simp


theorem walk_objects_mono (mem : Nat → Option Nat) (base end_ B : Nat) :
    ∀ (n cursor : Nat) (bm : List Nat),
      walk_objects mem base end_ B n cursor bm ≠ Outcome.hang →
      ∀ fuel, n ≤ fuel →
        walk_objects mem base end_ B fuel cursor bm = walk_objects mem base end_ B n cursor bm := by
  intro n
  induction n with
  | zero => intro cursor bm h; exact absurd rfl h
  | succ n ih =>
    intro cursor bm h fuel hf
    obtain ⟨m, rfl⟩ : ∃ m, fuel = m + 1 := ⟨fuel - 1, by omega⟩
    unfold walk_objects at h ⊢
    split
    · rfl
    · rename_i h0
      rw [if_neg h0] at h
      split
      · rfl
      · rename_i hr
        rw [if_neg hr] at h
        split
        · rfl
        · rename_i ha
          rw [if_neg ha] at h
          cases hs : bitmap_set bm (sub64 cursor base / B % UINT_MOD) with
          | none => rfl
          | some bm1 =>
            rw [hs] at h
            cases hm : mem cursor with
            | none => rfl
            | some next =>
              rw [hm] at h
              simp only at h ⊢
              exact ih next bm1 h m (by omega)

theorem mark_cached_spec {base B C : Nat} (hB : 0 < B)
    (hC : C < UINT_MOD) (hE : base + C * B < ULONG_MOD) :
    ∀ (cached bm : List Nat), bm.length = (C + UINT_BITS - 1) / UINT_BITS →
      List.Sorted (· ≤ ·) cached →
      ∃ bm1, mark_cached base (add64 base (mul64 C B)) B cached bm = Outcome.ret bm1 ∧
        bm1.length = bm.length ∧
        ∀ k, (bitmap_bit bm1 k = true ↔ bitmap_bit bm k = true ∨
          ∃ c ∈ cached, base ≤ c ∧ c < base + C * B ∧ (c - base) / B = k) := by
  have hend : add64 base (mul64 C B) = base + C * B := by
    rw [mul64_eq (by omega), add64_eq hE]
  rw [hend]
  intro cached
  induction cached with
  | nil => intro bm _ _; exact ⟨bm, rfl, rfl, by simp⟩
  | cons addr rest ih =>
    intro bm hlen hs
    have hs2 := List.sorted_cons.mp hs
    unfold mark_cached
    by_cases h1 : addr < base
    · rw [if_pos h1]
      obtain ⟨bm1, hm, hl, hb⟩ := ih bm hlen hs2.2
      refine ⟨bm1, hm, hl, ?_⟩
      intro k
      rw [hb k]
      simp only [List.mem_cons, exists_eq_or_imp]
      constructor
      · rintro (h | h)
        · exact Or.inl h
        · exact Or.inr (Or.inr h)
      · rintro (h | h | h)
        · exact Or.inl h
        · omega
        · exact Or.inr h
    · rw [if_neg h1]
      by_cases h2 : addr ≥ base + C * B
      · rw [if_pos h2]
        refine ⟨bm, rfl, rfl, ?_⟩
        intro k
        constructor
        · intro h; exact Or.inl h
        · rintro (h | ⟨c, hc, hc1, hc2, _⟩)
          · exact h
          · rcases List.mem_cons.mp hc with rfl | hc
            · omega
            · have := hs2.1 c hc; omega
      · rw [if_neg h2]
        have hix := block_index_eq hB hC hE (by omega : base ≤ addr) (by omega)
        rw [hix.1]
        have hin : (addr - base) / B / UINT_BITS < bm.length := by
          rw [hlen]; have := hix.2; unfold UINT_BITS; omega
        obtain ⟨bm1, hset, hl1, hb1⟩ := bitmap_set_some bm _ hin
        rw [hset]
        simp only
        obtain ⟨bm2, hm, hl2, hb2⟩ := ih bm1 (by rw [hl1, hlen]) hs2.2
        refine ⟨bm2, hm, by rw [hl2, hl1], ?_⟩
        intro k
        rw [hb2 k, hb1 k]
        simp only [Bool.or_eq_true, decide_eq_true_eq, List.mem_cons, exists_eq_or_imp]
        constructor
        · rintro ((h | h) | h)
          · exact Or.inl h
          · exact Or.inr (Or.inl ⟨by omega, by omega, h⟩)
          · exact Or.inr (Or.inr h)
        · rintro (h | ⟨_, _, h⟩ | h)
          · exact Or.inl (Or.inl h)
          · exact Or.inl (Or.inr h)
          · exact Or.inr h


theorem mark_cached_total {base B C : Nat} (hB : 0 < B)
    (hC : C < UINT_MOD) (hE : base + C * B < ULONG_MOD) :
    ∀ (cached bm : List Nat), bm.length = (C + UINT_BITS - 1) / UINT_BITS →
      ∃ bm1, mark_cached base (add64 base (mul64 C B)) B cached bm = Outcome.ret bm1 ∧
        bm1.length = bm.length := by
  have hend : add64 base (mul64 C B) = base + C * B := by
    rw [mul64_eq (by omega), add64_eq hE]
  rw [hend]
  intro cached
  induction cached with
  | nil => intro bm _; exact ⟨bm, rfl, rfl⟩
  | cons addr rest ih =>
    intro bm hlen
    unfold mark_cached
    by_cases h1 : addr < base
    · rw [if_pos h1]; exact ih bm hlen
    · rw [if_neg h1]
      by_cases h2 : addr ≥ base + C * B
      · rw [if_pos h2]; exact ⟨bm, rfl, rfl⟩
      · rw [if_neg h2]
        have hix := block_index_eq hB hC hE (by omega : base ≤ addr) (by omega)
        rw [hix.1]
        have hin : (addr - base) / B / UINT_BITS < bm.length := by
          rw [hlen]; have := hix.2; unfold UINT_BITS; omega
        obtain ⟨bm1, hset, hl1, _⟩ := bitmap_set_some bm _ hin
        rw [hset]
        simp only
        obtain ⟨bm2, hm, hl2⟩ := ih bm1 (by rw [hl1, hlen])
        exact ⟨bm2, hm, by rw [hl2, hl1]⟩

/-! ### Well-formed spans and `span_populate_free_bitmap` -/

theorem shl64_eq {x s : Nat} (h : x * 2 ^ s < ULONG_MOD) : shl64 x s = x * 2 ^ s := by
  unfold shl64
  rw [Nat.shiftLeft_eq]
  exact Nat.mod_eq_of_lt h

theorem wf_base {cfg : ca_config} {s : ca_span} (h : span_wf cfg s) :
    shl64 s.start cfg.kPageShift = span_base cfg s ∧
    shl64 s.length cfg.kPageShift = span_bytes cfg s ∧
    add64 s.start s.length = s.start + s.length ∧
    span_base cfg s + span_bytes cfg s < ULONG_MOD ∧
    s.start + s.length < ULONG_MOD ∧ 0 < span_bytes cfg s := by
  obtain ⟨h1, h2, _⟩ := h
  have hp : 0 < 2 ^ cfg.kPageShift := Nat.two_pow_pos _
  have e : (s.start + s.length) * 2 ^ cfg.kPageShift
      = s.start * 2 ^ cfg.kPageShift + s.length * 2 ^ cfg.kPageShift := Nat.add_mul _ _ _
  have h3 : s.start + s.length ≤ (s.start + s.length) * 2 ^ cfg.kPageShift :=
    Nat.le_mul_of_pos_right _ hp
  have h4 : 0 < s.length * 2 ^ cfg.kPageShift := Nat.mul_pos (by omega) hp
  unfold span_base span_bytes
  refine ⟨shl64_eq (by omega), shl64_eq (by omega), add64_eq (by omega), by omega, by omega, h4⟩

theorem wf_class {cfg : ca_config} {s : ca_span} (h : span_wf cfg s)
    (hloc : s.location = IN_USE) (hcls : s.sizeclass ≠ 0) :
    cfg.class_to_size[s.sizeclass]? = some (class_size cfg s.sizeclass) ∧
    0 < class_size cfg s.sizeclass ∧ 1 ≤ block_count cfg s ∧ block_count cfg s < UINT_MOD ∧
    span_base cfg s + block_count cfg s * class_size cfg s.sizeclass
      ≤ span_base cfg s + span_bytes cfg s ∧
    span_base cfg s + block_count cfg s * class_size cfg s.sizeclass < ULONG_MOD := by
  have hb := wf_base h
  obtain ⟨_, _, h3⟩ := h
  obtain ⟨c1, c2, c3, c4, _⟩ := h3 hloc hcls
  have e1 : cfg.class_to_size[s.sizeclass]? = some (class_size cfg s.sizeclass) := by
    unfold class_size
    rw [List.getD_eq_getElem?_getD, List.getElem?_eq_getElem c1]; rfl
  have e2 : block_count cfg s * class_size cfg s.sizeclass ≤ span_bytes cfg s := by
    unfold block_count; exact Nat.div_mul_le_self _ _
  have e3 : 1 ≤ block_count cfg s := by
    unfold block_count
    exact (Nat.one_le_div_iff c2).mpr c3
  exact ⟨e1, c2, e3, c4, by omega, by omega⟩

theorem populate_noop (st : HeapState) (mem : Nat → Option Nat) (fuel : Nat) (s : ca_span)
    (h : s.bitmap ≠ none ∨ s.sizeclass = 0 ∨ s.location ≠ IN_USE) :
    span_populate_free_bitmap st mem fuel s = Outcome.ret (s, true) := by
  unfold span_populate_free_bitmap
  rw [if_pos h]

theorem populate_unfold (st : HeapState) (mem : Nat → Option Nat) (s : ca_span)
    (hwf : span_wf st.g_config s) (hloc : s.location = IN_USE) (hcls : s.sizeclass ≠ 0)
    (hbm : s.bitmap = none) (fuel : Nat) :
    span_populate_free_bitmap st mem fuel s =
      match walk_objects mem (span_base st.g_config s)
          (add64 (span_base st.g_config s)
            (mul64 (block_count st.g_config s) (class_size st.g_config s.sizeclass)))
          (class_size st.g_config s.sizeclass) fuel s.objects
          (List.replicate (bitmap_words st.g_config s) 0) with
      | Outcome.fault => Outcome.fault
      | Outcome.hang => Outcome.hang
      | Outcome.ret bm1 =>
        match mark_cached (span_base st.g_config s)
            (add64 (span_base st.g_config s)
              (mul64 (block_count st.g_config s) (class_size st.g_config s.sizeclass)))
            (class_size st.g_config s.sizeclass) st.g_cached_blocks bm1 with
        | Outcome.fault => Outcome.fault
        | Outcome.hang => Outcome.hang
        | Outcome.ret bm2 =>
          Outcome.ret ({ s with count := block_count st.g_config s, bitmap := some bm2 }, true) := by
  obtain ⟨b1, b2, _, _, _, _⟩ := wf_base hwf
  obtain ⟨c1, c2, c3, c4, c5, c6⟩ := wf_class hwf hloc hcls
  have hnot : ¬ (s.bitmap ≠ none ∨ s.sizeclass = 0 ∨ s.location ≠ IN_USE) := by
    rintro (h | h | h)
    · exact h hbm
    · exact hcls h
    · exact h hloc
  have hcnt : (span_bytes st.g_config s / class_size st.g_config s.sizeclass) % UINT_MOD
      = block_count st.g_config s := Nat.mod_eq_of_lt c4
  unfold span_populate_free_bitmap
  rw [if_neg hnot, c1]
  simp only
  rw [if_neg (by omega), b1, b2, hcnt]
  rfl

theorem walk_hang_nodes (mem : Nat → Option Nat) {base B C : Nat} (hB : 0 < B)
    (hC : C < UINT_MOD) (hE : base + C * B < ULONG_MOD) :
    ∀ (fuel cursor : Nat) (bm : List Nat),
      walk_objects mem base (add64 base (mul64 C B)) B fuel cursor bm = Outcome.hang →
      (free_list_nodes mem base (base + C * B) B fuel cursor).length = fuel := by
  have hend : add64 base (mul64 C B) = base + C * B := by
    rw [mul64_eq (by omega), add64_eq hE]
  rw [hend]
  intro fuel
  induction fuel with
  | zero => intro cursor bm _; rfl
  | succ n ih =>
    intro cursor bm h
    unfold walk_objects at h
    unfold free_list_nodes
    by_cases h0 : cursor = 0
    · rw [if_pos h0] at h; cases h
    rw [if_neg h0] at h
    by_cases hr : cursor < base ∨ cursor ≥ base + C * B
    · rw [if_pos hr] at h; cases h
    rw [if_neg hr] at h
    have h1 : base ≤ cursor := by omega
    have h2 : cursor < base + C * B := by omega
    have hal := block_aligned_iff hB hC hE h1 h2
    by_cases ha : (cursor - base) % B = 0
    · rw [if_neg (by rw [ne_eq, not_not]; exact hal.mpr ha)] at h
      rw [if_neg (by
        intro hc
        rcases hc with hc | hc | hc | hc
        · exact h0 hc
        · omega
        · omega
        · exact hc ha)]
      cases hs : bitmap_set bm (sub64 cursor base / B % UINT_MOD) with
      | none => rw [hs] at h; cases h
      | some bm1 =>
        rw [hs] at h
        cases hm : mem cursor with
        | none => rw [hm] at h; cases h
        | some next =>
          rw [hm] at h
          simp only at h ⊢
          rw [List.length_cons, ih next bm1 h]
    · rw [if_pos (by rw [ne_eq]; intro hc; exact ha (hal.mp hc))] at h
      cases h

theorem populate_build (st : HeapState) (mem : Nat → Option Nat) (n : Nat) (s : ca_span)
    (hwf : span_wf st.g_config s) (hloc : s.location = IN_USE) (hcls : s.sizeclass ≠ 0)
    (hbm : s.bitmap = none) (hend : span_populate_free_bitmap st mem n s ≠ Outcome.hang) :
    ∃ bm, bm.length = bitmap_words st.g_config s ∧
      (∀ fuel, n ≤ fuel → span_populate_free_bitmap st mem fuel s =
        Outcome.ret ({ s with count := block_count st.g_config s, bitmap := some bm }, true)) ∧
      (List.Sorted (· ≤ ·) st.g_cached_blocks →
        ∀ k, (bitmap_bit bm k = true ↔
          span_base st.g_config s + k * class_size st.g_config s.sizeclass ∈
            free_list_nodes mem (span_base st.g_config s)
              (span_base st.g_config s + block_count st.g_config s *
                class_size st.g_config s.sizeclass)
              (class_size st.g_config s.sizeclass) n s.objects ∨
          ∃ c ∈ st.g_cached_blocks, span_base st.g_config s ≤ c ∧
            c < span_base st.g_config s + block_count st.g_config s *
                class_size st.g_config s.sizeclass ∧
            (c - span_base st.g_config s) / class_size st.g_config s.sizeclass = k)) := by
  obtain ⟨b1, b2, _, _, _, _⟩ := wf_base hwf
  obtain ⟨c1, c2, c3, c4, c5, c6⟩ := wf_class hwf hloc hcls
  have hunf := populate_unfold st mem s hwf hloc hcls hbm
  have hlen0 : (List.replicate (bitmap_words st.g_config s) 0).length
      = (block_count st.g_config s + UINT_BITS - 1) / UINT_BITS := by
    rw [List.length_replicate]; rfl
  rcases walk_objects_spec mem c2 c4 c6 n s.objects _ hlen0 with hh | ⟨bm1, hw, hl1, hb1⟩
  · exfalso; apply hend; rw [hunf n, hh]
  · obtain ⟨bm2, hm, hl2⟩ := mark_cached_total c2 c4 c6 st.g_cached_blocks bm1 (by rw [hl1, hlen0])
    refine ⟨bm2, by rw [hl2, hl1, hlen0]; rfl, ?_, ?_⟩
    · intro fuel hf
      rw [hunf fuel, walk_objects_mono mem _ _ _ n s.objects _ (by rw [hw]; simp) fuel hf, hw]
      simp only
      rw [hm]
    · intro hs k
      obtain ⟨bm3, hm3, _, hb3⟩ := mark_cached_spec c2 c4 c6 st.g_cached_blocks bm1
        (by rw [hl1, hlen0]) hs
      rw [hm] at hm3
      cases hm3
      rw [hb3 k, hb1 k, bitmap_bit_replicate]
      simp


/-! ### `get_heap_block_info` -/

theorem set_same {α : Type} : ∀ (l : List α) (i : Nat) (x : α), l[i]? = some x → l.set i x = l := by
  intro l
  induction l with
  | nil => intro i x h; rfl
  | cons y ys ih =>
    intro i x h
    cases i with
    | zero => simp at h; subst h; rfl
    | succ k =>
      rw [List.getElem?_cons_succ] at h
      rw [List.set_cons_succ, ih k x h]

theorem ready_no_overflow {st : HeapState} (hr : Ready st) : spans_no_overflow st.g_spans := by
  intro s hs
  exact (wf_base (hr.2.2 s hs)).2.2.2.2.1

theorem ready_span_get {st : HeapState} (hr : Ready st) {a i : Nat} {s : ca_span}
    (hs : st.g_spans[i]? = some s) (hc : span_covers s (a >>> st.g_config.kPageShift)) :
    span_get st a = some i :=
  (span_get_spec st hr.2.1 (ready_no_overflow hr) a).1 i s hs hc

theorem covers_bounds {cfg : ca_config} {s : ca_span} {a : Nat}
    (hc : span_covers s (a >>> cfg.kPageShift)) :
    span_base cfg s ≤ a ∧ a < span_base cfg s + span_bytes cfg s := by
  unfold span_covers at hc
  rw [Nat.shiftRight_eq_div_pow] at hc
  have hp : 0 < 2 ^ cfg.kPageShift := Nat.two_pow_pos _
  unfold span_base span_bytes
  rw [← Nat.add_mul]
  exact ⟨(Nat.le_div_iff_mul_le hp).mp hc.1, (Nat.div_lt_iff_lt_mul hp).mp hc.2⟩

theorem info_whole_span (mem : Nat → Option Nat) (fuel : Nat) (st : HeapState)
    (hr : Ready st) (a : Nat) (blk : heap_block) :
    (∀ (i : Nat) (s : ca_span), st.g_spans[i]? = some s →
        span_covers s (a >>> st.g_config.kPageShift) →
      (s.location ≠ IN_USE →
        get_heap_block_info mem fuel st a blk = Outcome.ret
          ⟨st, { addr := shl64 s.start st.g_config.kPageShift,
                 size := shl64 s.length st.g_config.kPageShift, inuse := false }, true⟩) ∧
      (s.location = IN_USE → s.sizeclass = 0 →
        get_heap_block_info mem fuel st a blk = Outcome.ret
          ⟨st, { addr := shl64 s.start st.g_config.kPageShift,
                 size := shl64 s.length st.g_config.kPageShift, inuse := true }, true⟩)) ∧
    ((∀ s ∈ st.g_spans, ¬ span_covers s (a >>> st.g_config.kPageShift)) →
      get_heap_block_info mem fuel st a blk = Outcome.ret ⟨st, blk, false⟩) := by
  have hinit : ¬ (st.g_initialized = false) := by rw [hr.1]; simp
  constructor
  · intro i s hs hc
    have hget := ready_span_get hr hs hc
    constructor
    · intro hloc
      unfold get_heap_block_info
      rw [if_neg hinit, hget]
      simp only [hs]
      rw [if_pos hloc]
    · intro hloc hcls
      have hwf := hr.2.2 s (List.getElem?_mem hs)
      obtain ⟨b1, b2, _, b4, _, b6⟩ := wf_base hwf
      obtain ⟨k1, k2⟩ := covers_bounds hc
      unfold get_heap_block_info
      rw [if_neg hinit, hget]
      simp only [hs]
      rw [if_neg (by rw [hloc]; simp), if_neg (by rw [hcls]; simp)]
      simp only
      rw [if_neg (by rw [b2]; omega), populate_noop st mem fuel s (Or.inr (Or.inl hcls))]
      simp only
      have hfree : ∀ x, span_block_free st s x = Outcome.ret false := by
        intro x
        unfold span_block_free
        rw [if_neg (by rw [hloc]; simp), if_pos hcls]
      rw [hfree]
      simp only
      rw [set_same _ _ _ hs, b1, b2, sub64_eq k1 (by omega),
        Nat.mod_eq_of_lt (by omega : a - span_base st.g_config s < span_bytes st.g_config s),
        sub64_eq (by omega) (by omega)]
      have : a - (a - span_base st.g_config s) = span_base st.g_config s := by omega
      rw [this]
      rfl
  · intro hnone
    have hget := (span_get_spec st hr.2.1 (ready_no_overflow hr) a).2 hnone
    unfold get_heap_block_info
    rw [if_neg hinit, hget]


theorem populate_ready (st : HeapState) (mem : Nat → Option Nat) (n : Nat) (s : ca_span)
    (hwf : span_wf st.g_config s) (hloc : s.location = IN_USE) (hcls : s.sizeclass ≠ 0)
    (hend : span_populate_free_bitmap st mem n s ≠ Outcome.hang) :
    ∃ bm, bm.length = bitmap_words st.g_config s ∧ (s.bitmap = none ∨ s.bitmap = some bm) ∧
      ∀ fuel, n ≤ fuel → span_populate_free_bitmap st mem fuel s =
        Outcome.ret ({ s with count := block_count st.g_config s, bitmap := some bm }, true) := by
  cases hb : s.bitmap with
  | none =>
    obtain ⟨bm, h1, h2, _⟩ := populate_build st mem n s hwf hloc hcls hb hend
    exact ⟨bm, h1, Or.inl rfl, h2⟩
  | some bm0 =>
    obtain ⟨_, _, h3⟩ := hwf
    obtain ⟨_, _, _, _, h4⟩ := h3 hloc hcls
    rw [hb] at h4
    rcases h4 with h4 | ⟨h4, h5⟩
    · cases h4
    · simp only [Option.map_some', Option.some.injEq] at h5
      refine ⟨bm0, h5, Or.inr rfl, ?_⟩
      intro fuel _
      rw [populate_noop st mem fuel s (Or.inl (by rw [hb]; simp))]
      rw [← h4, ← hb]

theorem block_addr_index {base B a bytes : Nat} (hB : 0 < B) (h1 : base ≤ a)
    (h2 : a < base + bytes) (h3 : base + bytes < ULONG_MOD) (h4 : bytes / B < UINT_MOD) :
    sub64 a (sub64 a base % B) = a - (a - base) % B ∧
    (sub64 (a - (a - base) % B) base / B) % UINT_MOD = (a - base) / B := by
  have hm : (a - base) % B ≤ a - base := Nat.mod_le _ _
  have e1 : sub64 a base = a - base := sub64_eq h1 (by omega)
  have e2 : sub64 a ((a - base) % B) = a - (a - base) % B := sub64_eq (by omega) (by omega)
  have e3 : sub64 (a - (a - base) % B) base = a - (a - base) % B - base :=
    sub64_eq (by omega) (by omega)
  have e4 : a - (a - base) % B - base = B * ((a - base) / B) := by
    have := Nat.div_add_mod (a - base) B
    omega
  have e5 : (a - base) / B ≤ bytes / B := Nat.div_le_div_right (by omega)
  rw [e1, e2, e3, e4, Nat.mul_div_cancel_left _ hB]
  exact ⟨rfl, Nat.mod_eq_of_lt (by omega)⟩

theorem info_subdivided (mem : Nat → Option Nat) (n : Nat) (st : HeapState)
    (hr : Ready st) (i : Nat) (s : ca_span) (hs : st.g_spans[i]? = some s) (a : Nat)
    (hc : span_covers s (a >>> st.g_config.kPageShift))
    (hloc : s.location = IN_USE) (hcls : s.sizeclass ≠ 0)
    (hend : span_populate_free_bitmap st mem n s ≠ Outcome.hang)
    (hidx : (a - span_base st.g_config s) / class_size st.g_config s.sizeclass / UINT_BITS
      < bitmap_words st.g_config s) :
    ∃ bm, (s.bitmap = none ∨ s.bitmap = some bm) ∧
      (∀ fuel, n ≤ fuel → span_populate_free_bitmap st mem fuel s =
        Outcome.ret ({ s with count := block_count st.g_config s, bitmap := some bm }, true)) ∧
      ∀ fuel, n ≤ fuel → ∀ blk, get_heap_block_info mem fuel st a blk = Outcome.ret
        ⟨{ st with
            g_spans := st.g_spans.set i
              { s with count := block_count st.g_config s, bitmap := some bm } },
         { addr := a - (a - span_base st.g_config s) % class_size st.g_config s.sizeclass,
           size := class_size st.g_config s.sizeclass,
           inuse := !(bitmap_bit bm
             ((a - span_base st.g_config s) / class_size st.g_config s.sizeclass)) }, true⟩ := by
  have hinit : ¬ (st.g_initialized = false) := by rw [hr.1]; simp
  have hwf := hr.2.2 s (List.getElem?_mem hs)
  obtain ⟨b1, b2, _, b4, _, b6⟩ := wf_base hwf
  obtain ⟨c1, c2, c3, c4, c5, c6⟩ := wf_class hwf hloc hcls
  obtain ⟨k1, k2⟩ := covers_bounds hc
  obtain ⟨bm, hlen, hor, hpop⟩ := populate_ready st mem n s hwf hloc hcls hend
  refine ⟨bm, hor, hpop, ?_⟩
  intro fuel hf blk
  have hget := ready_span_get hr hs hc
  obtain ⟨e1, e2⟩ := block_addr_index c2 k1 k2 b4 c4
  unfold get_heap_block_info
  rw [if_neg hinit, hget]
  simp only [hs]
  rw [if_neg (by rw [hloc]; simp), if_pos hcls, c1]
  simp only
  rw [if_neg (by omega), hpop fuel hf]
  simp only
  unfold span_block_free
  simp only
  rw [if_neg (by rw [hloc]; simp), if_neg hcls, c1]
  simp only
  rw [if_neg (by omega), b1, e1, e2, bitmap_test_eq bm _ (by rw [hlen]; exact hidx)]


/-! ### Fuel and the ready invariant -/

theorem populate_mono (st : HeapState) (mem : Nat → Option Nat) (n : Nat) (s : ca_span)
    (h : span_populate_free_bitmap st mem n s ≠ Outcome.hang) (fuel : Nat) (hf : n ≤ fuel) :
    span_populate_free_bitmap st mem fuel s = span_populate_free_bitmap st mem n s := by
  unfold span_populate_free_bitmap at h ⊢
  split
  · rfl
  · rename_i hc
    rw [if_neg hc] at h
    cases hcl : st.g_config.class_to_size[s.sizeclass]? with
    | none => rfl
    | some B =>
      rw [hcl] at h
      simp only at h ⊢
      split
      · rfl
      · rename_i hB
        rw [if_neg hB] at h
        have hw : walk_objects mem (shl64 s.start st.g_config.kPageShift)
            (add64 (shl64 s.start st.g_config.kPageShift)
              (mul64 ((shl64 s.length st.g_config.kPageShift / B) % UINT_MOD) B))
            B n s.objects
            (List.replicate
              (((shl64 s.length st.g_config.kPageShift / B) % UINT_MOD + UINT_BITS - 1)
                / UINT_BITS) 0) ≠ Outcome.hang := by
          intro hh; rw [hh] at h; exact h rfl
        rw [walk_objects_mono mem _ _ _ n s.objects _ hw fuel hf]

theorem sorted_set {spans : List ca_span} (h : spans_sorted spans) {j : Nat} {sj s1 : ca_span}
    (hj : spans[j]? = some sj) (h1 : s1.start = sj.start) (h2 : s1.length = sj.length) :
    spans_sorted (spans.set j s1) := by
  unfold spans_sorted at h ⊢
  have key : ∀ l : List ca_span,
      List.Chain' (fun a b => a.start + a.length ≤ b.start) l ↔
      List.Chain' (fun (p q : Nat × Nat) => p.1 + p.2 ≤ q.1)
        (l.map (fun s => (s.start, s.length))) := by
    intro l
    rw [List.chain'_map]
  rw [key] at h ⊢
  rw [List.map_set, h1, h2]
  rw [set_same]
  · exact h
  · rw [List.getElem?_map, hj]; rfl

theorem ready_set {st : HeapState} (hr : Ready st) {j : Nat} {sj : ca_span}
    (hj : st.g_spans[j]? = some sj) (bm : List Nat)
    (hlen : bm.length = bitmap_words st.g_config sj) :
    Ready { st with
      g_spans := st.g_spans.set j
        { sj with count := block_count st.g_config sj, bitmap := some bm } } := by
  refine ⟨hr.1, sorted_set hr.2.1 hj rfl rfl, ?_⟩
  intro s hs
  rcases List.mem_or_eq_of_mem_set hs with h | h
  · exact hr.2.2 s h
  · have hwf := hr.2.2 sj (List.getElem?_mem hj)
    subst h
    obtain ⟨w1, w2, w3⟩ := hwf
    refine ⟨w1, w2, ?_⟩
    intro hloc hcls
    obtain ⟨c1, c2, c3, c4, _⟩ := w3 hloc hcls
    refine ⟨c1, c2, c3, c4, Or.inr ⟨rfl, ?_⟩⟩
    simp only [Option.map_some', Option.some.injEq]
    exact hlen


/-! ### The first block of a span and the page scan of `get_next_heap_block` -/

theorem and_one_ne_zero (w : Nat) : decide (w &&& 1 ≠ 0) = w.testBit 0 := by
  have h := and_two_pow_ne_zero w 0
  rw [Nat.pow_zero] at h
  by_cases hb : w.testBit 0 = true
  · rw [hb]; exact decide_eq_true (h.mpr hb)
  · rw [Bool.not_eq_true] at hb
    rw [hb]; apply decide_eq_false; intro hne; rw [h] at hne; rw [hne] at hb; cases hb

theorem first_block_free (mem : Nat → Option Nat) (fuel : Nat) (st : HeapState) (hr : Ready st)
    (j : Nat) (sj : ca_span) (hj : st.g_spans[j]? = some sj) (hloc : sj.location ≠ IN_USE)
    (blk : heap_block) :
    first_block_of_span mem fuel st j blk = Outcome.ret
      ⟨st, { addr := span_base st.g_config sj, size := span_bytes st.g_config sj,
             inuse := false }, true⟩ := by
  obtain ⟨b1, b2, _⟩ := wf_base (hr.2.2 sj (List.getElem?_mem hj))
  unfold first_block_of_span
  simp only [hj]
  rw [populate_noop st mem fuel sj (Or.inr (Or.inr hloc))]
  simp only
  rw [if_pos hloc, set_same _ _ _ hj, b1, b2]

theorem first_block_large (mem : Nat → Option Nat) (fuel : Nat) (st : HeapState) (hr : Ready st)
    (j : Nat) (sj : ca_span) (hj : st.g_spans[j]? = some sj) (hloc : sj.location = IN_USE)
    (hcls : sj.sizeclass = 0) (blk : heap_block) :
    first_block_of_span mem fuel st j blk = Outcome.ret
      ⟨st, { addr := span_base st.g_config sj, size := span_bytes st.g_config sj,
             inuse := true }, true⟩ := by
  obtain ⟨b1, b2, _⟩ := wf_base (hr.2.2 sj (List.getElem?_mem hj))
  unfold first_block_of_span
  simp only [hj]
  rw [populate_noop st mem fuel sj (Or.inr (Or.inl hcls))]
  simp only
  rw [if_neg (by rw [hloc]; simp), if_pos hcls, set_same _ _ _ hj, b1, b2]

theorem first_block_sub (mem : Nat → Option Nat) (n : Nat) (st : HeapState) (hr : Ready st)
    (j : Nat) (sj : ca_span) (hj : st.g_spans[j]? = some sj) (hloc : sj.location = IN_USE)
    (hcls : sj.sizeclass ≠ 0)
    (hend : span_populate_free_bitmap st mem n sj ≠ Outcome.hang) :
    ∃ bm, bm.length = bitmap_words st.g_config sj ∧ (sj.bitmap = none ∨ sj.bitmap = some bm) ∧
      (∀ fuel, n ≤ fuel → span_populate_free_bitmap st mem fuel sj =
        Outcome.ret ({ sj with count := block_count st.g_config sj, bitmap := some bm }, true)) ∧
      ∀ fuel, n ≤ fuel → ∀ blk, first_block_of_span mem fuel st j blk = Outcome.ret
        ⟨{ st with
            g_spans := st.g_spans.set j
              { sj with count := block_count st.g_config sj, bitmap := some bm } },
         { addr := span_base st.g_config sj, size := class_size st.g_config sj.sizeclass,
           inuse := !(bitmap_bit bm 0) }, true⟩ := by
  have hwf := hr.2.2 sj (List.getElem?_mem hj)
  obtain ⟨b1, b2, _⟩ := wf_base hwf
  obtain ⟨c1, c2, c3, c4, c5, c6⟩ := wf_class hwf hloc hcls
  obtain ⟨bm, hlen, hor, hpop⟩ := populate_ready st mem n sj hwf hloc hcls hend
  refine ⟨bm, hlen, hor, hpop, ?_⟩
  intro fuel hf blk
  have hw : 0 < bm.length := by
    rw [hlen]; unfold bitmap_words UINT_BITS; omega
  unfold first_block_of_span
  simp only [hj]
  rw [hpop fuel hf]
  simp only
  rw [if_neg (by rw [hloc]; simp), if_neg hcls, c1]
  simp only
  rw [List.getElem?_eq_getElem hw]
  simp only
  rw [b1, and_one_ne_zero]
  unfold bitmap_bit
  simp only [List.getD_eq_getElem?_getD]
  have : 0 / UINT_BITS = 0 := by unfold UINT_BITS; rfl
  rw [this, List.getElem?_eq_getElem hw]
  rfl

theorem shift_page {cfg : ca_config} {p : Nat} (h : p * 2 ^ cfg.kPageShift < ULONG_MOD) :
    shl64 p cfg.kPageShift >>> cfg.kPageShift = p := by
  rw [shl64_eq h, Nat.shiftRight_eq_div_pow]
  exact Nat.mul_div_cancel _ (Nat.two_pow_pos _)

/-- The iteration bound of `next_span_scan` never cuts the scan short when the start of
the last span is below `2^64 - 1`. -/
theorem next_span_scan_ends (st : HeapState) (last_start : Nat)
    (hl : last_start + 1 < ULONG_MOD) :
    ∀ (n p : Nat), last_start + 1 - p < n → next_span_scan st last_start n p ≠ Outcome.hang := by
  intro n
  induction n with
  | zero => intro p h; omega
  | succ n ih =>
    intro p h
    unfold next_span_scan
    split
    · rename_i hp
      cases span_get st (shl64 p st.g_config.kPageShift) with
      | some i => simp
      | none =>
        simp only
        rw [add64_eq (by omega)]
        exact ih (p + 1) (by omega)
    · simp

theorem scan_finds (st : HeapState) (hr : Ready st) (i : Nat) (s t : ca_span)
    (hs : st.g_spans[i]? = some s) (ht : st.g_spans[i + 1]? = some t) (last_start : Nat)
    (hl : t.start ≤ last_start) :
    ∀ (d p n : Nat), p + d = t.start → s.start + s.length ≤ p → d < n →
      next_span_scan st last_start n p = Outcome.ret (some (i + 1)) := by
  have hwt := hr.2.2 t (List.getElem?_mem ht)
  obtain ⟨_, _, _, t4, _, _⟩ := wf_base hwt
  have hp : 0 < 2 ^ st.g_config.kPageShift := Nat.two_pow_pos _
  have hbound : ∀ p, p ≤ t.start → p * 2 ^ st.g_config.kPageShift < ULONG_MOD := by
    intro p hp1
    have := Nat.mul_le_mul_right (2 ^ st.g_config.kPageShift) hp1
    unfold span_base at t4
    omega
  intro d
  induction d with
  | zero =>
    intro p n h1 h2 h3
    obtain ⟨m, rfl⟩ : ∃ m, n = m + 1 := ⟨n - 1, by omega⟩
    unfold next_span_scan
    rw [if_pos (by omega)]
    have hcov : span_covers t (shl64 p st.g_config.kPageShift >>> st.g_config.kPageShift) := by
      rw [shift_page (hbound p (by omega))]
      unfold span_covers
      have := hwt.1
      omega
    rw [ready_span_get hr ht hcov]
  | succ d ih =>
    intro p n h1 h2 h3
    obtain ⟨m, rfl⟩ : ∃ m, n = m + 1 := ⟨n - 1, by omega⟩
    unfold next_span_scan
    rw [if_pos (by omega)]
    have hnone : span_get st (shl64 p st.g_config.kPageShift) = none := by
      apply (span_get_spec st hr.2.1 (ready_no_overflow hr) _).2
      intro u hu
      rw [shift_page (hbound p (by omega))]
      obtain ⟨k, hk⟩ := List.mem_iff_getElem?.mp hu
      unfold span_covers
      intro hcov
      rcases Nat.lt_trichotomy k i with hlt | heq | hgt
      · have := sorted_lt hr.2.1 hlt hk hs
        have := (hr.2.2 s (List.getElem?_mem hs)).1
        omega
      · subst heq
        rw [hs] at hk
        cases hk
        omega
      · by_cases hk1 : k = i + 1
        · subst hk1
          rw [ht] at hk
          cases hk
          omega
        · have := sorted_lt hr.2.1 (by omega : i + 1 < k) ht hk
          have := hwt.1
          omega
    rw [hnone]
    simp only
    have hadd : add64 p 1 = p + 1 := by
      apply add64_eq
      have := hbound (p + 1) (by omega)
      have : p + 1 ≤ (p + 1) * 2 ^ st.g_config.kPageShift := Nat.le_mul_of_pos_right _ hp
      omega
    rw [hadd]
    exact ih (p + 1) m (by omega) (by omega) (by omega)

theorem last_span_start (st : HeapState) (hr : Ready st) (i : Nat) (s : ca_span)
    (hs : st.g_spans[i]? = some s) :
    ∃ last, st.g_spans[st.g_spans.length - 1]? = some last ∧
      (i + 1 = st.g_spans.length → last = s) ∧
      (∀ t, st.g_spans[i + 1]? = some t → t.start ≤ last.start) := by
  have hi := (List.getElem?_eq_some_iff.mp hs).1
  have hl : st.g_spans.length - 1 < st.g_spans.length := by omega
  obtain ⟨last, hlast⟩ : ∃ last, st.g_spans[st.g_spans.length - 1]? = some last :=
    ⟨_, List.getElem?_eq_getElem hl⟩
  refine ⟨last, hlast, ?_, ?_⟩
  · intro h
    have e : st.g_spans.length - 1 = i := by omega
    rw [e, hs] at hlast
    exact (Option.some.inj hlast).symm
  · intro t ht
    have hi1 := (List.getElem?_eq_some_iff.mp ht).1
    by_cases e : i + 1 = st.g_spans.length - 1
    · rw [← e, ht] at hlast
      cases hlast
      exact Nat.le_refl _
    · have := sorted_lt hr.2.1 (by omega : i + 1 < st.g_spans.length - 1) ht hlast
      omega

theorem next_span_of_spec (st : HeapState) (hr : Ready st) (i : Nat) (s : ca_span)
    (hs : st.g_spans[i]? = some s) :
    next_span_of st s = Outcome.ret (if i + 1 < st.g_spans.length then some (i + 1) else none) := by
  obtain ⟨last, hl1, hl2, hl3⟩ := last_span_start st hr i s hs
  have hi := (List.getElem?_eq_some_iff.mp hs).1
  obtain ⟨_, _, b3, _, _, _⟩ := wf_base (hr.2.2 s (List.getElem?_mem hs))
  unfold next_span_of
  rw [hl1]
  simp only
  rw [b3]
  by_cases hn : i + 1 < st.g_spans.length
  · rw [if_pos hn]
    have ht := List.getElem?_eq_getElem hn
    have h1 := hl3 _ ht
    have h2 := sorted_adjacent hr.2.1 hs ht
    exact scan_finds st hr i s _ hs ht last.start h1 (st.g_spans[i + 1].start - (s.start + s.length))
      (s.start + s.length) _ (by omega) (Nat.le_refl _) (by omega)
  · rw [if_neg hn]
    have := hl2 (by omega)
    subst this
    have := (hr.2.2 last (List.getElem?_mem hs)).1
    have e : last.start + 1 - (last.start + last.length) + 1 = 1 := by omega
    rw [e]
    unfold next_span_scan
    rw [if_neg (by omega)]


theorem populated_noop (st : HeapState) (mem : Nat → Option Nat) (n : Nat) (s : ca_span)
    (h : s.bitmap ≠ none ∨ s.sizeclass = 0 ∨ s.location ≠ IN_USE) :
    populated st mem n s = s := by
  unfold populated
  rw [populate_noop st mem n s h]

theorem populated_sub (st : HeapState) (mem : Nat → Option Nat) (n : Nat) (s : ca_span)
    (hwf : span_wf st.g_config s) (hloc : s.location = IN_USE) (hcls : s.sizeclass ≠ 0)
    (hend : span_populate_free_bitmap st mem n s ≠ Outcome.hang) :
    ∃ bm, bm.length = bitmap_words st.g_config s ∧ (s.bitmap = none ∨ s.bitmap = some bm) ∧
      populated st mem n s = { s with count := block_count st.g_config s, bitmap := some bm } := by
  obtain ⟨bm, h1, h2, h3⟩ := populate_ready st mem n s hwf hloc hcls hend
  refine ⟨bm, h1, h2, ?_⟩
  unfold populated
  rw [h3 n (Nat.le_refl _)]

theorem populate_eq_populated (st : HeapState) (mem : Nat → Option Nat) (n : Nat) (s : ca_span)
    (hwf : span_wf st.g_config s)
    (hend : span_populate_free_bitmap st mem n s ≠ Outcome.hang) (fuel : Nat) (hf : n ≤ fuel) :
    span_populate_free_bitmap st mem fuel s = Outcome.ret (populated st mem n s, true) := by
  by_cases h : s.bitmap ≠ none ∨ s.sizeclass = 0 ∨ s.location ≠ IN_USE
  · rw [populated_noop st mem n s h, populate_noop st mem fuel s h]
  · have hloc : s.location = IN_USE := by
      by_contra hc; exact h (Or.inr (Or.inr hc))
    have hcls : s.sizeclass ≠ 0 := fun hc => h (Or.inr (Or.inl hc))
    obtain ⟨bm, _, _, h3⟩ := populate_ready st mem n s hwf hloc hcls hend
    unfold populated
    rw [h3 n (Nat.le_refl _), h3 fuel hf]

theorem first_block_spec (mem : Nat → Option Nat) (n : Nat) (st : HeapState) (hr : Ready st)
    (j : Nat) (t : ca_span) (hj : st.g_spans[j]? = some t)
    (hend : span_populate_free_bitmap st mem n t ≠ Outcome.hang) (fuel : Nat) (hf : n ≤ fuel)
    (blk : heap_block) :
    first_block_of_span mem fuel st j blk = Outcome.ret
      ⟨attach st j (populated st mem n t), first_block st.g_config (populated st mem n t), true⟩ := by
  by_cases hloc : t.location ≠ IN_USE
  · rw [first_block_free mem fuel st hr j t hj hloc, populated_noop st mem n t (Or.inr (Or.inr hloc))]
    unfold attach first_block
    rw [set_same _ _ _ hj, if_pos hloc]
  · rw [ne_eq, not_not] at hloc
    by_cases hcls : t.sizeclass = 0
    · rw [first_block_large mem fuel st hr j t hj hloc hcls,
        populated_noop st mem n t (Or.inr (Or.inl hcls))]
      unfold attach first_block
      rw [set_same _ _ _ hj, if_neg (by rw [hloc]; simp), if_pos hcls]
    · obtain ⟨bm, _, _, hpop, hfb⟩ := first_block_sub mem n st hr j t hj hloc hcls hend
      rw [hfb fuel hf]
      have hp : populated st mem n t
          = { t with count := block_count st.g_config t, bitmap := some bm } := by
        unfold populated
        rw [hpop n (Nat.le_refl _)]
      rw [hp]
      unfold attach first_block
      simp only
      rw [if_neg (by rw [hloc]; simp), if_neg hcls]
      rfl

theorem next_zero_spec (mem : Nat → Option Nat) (n : Nat) (st : HeapState)
    (hr : Ready st) (hl : populate_returns st mem n) (fuel : Nat) (hf : n ≤ fuel) (blk : heap_block) :
    (st.g_spans = [] →
      get_next_heap_block mem fuel st 0 blk = Outcome.ret ⟨st, blk, false⟩) ∧
    (∀ s0, st.g_spans[0]? = some s0 →
      get_next_heap_block mem fuel st 0 blk = Outcome.ret
        ⟨attach st 0 (populated st mem n s0), first_block st.g_config (populated st mem n s0),
          true⟩) := by
  have hinit : ¬ (st.g_initialized = false) := by rw [hr.1]; simp
  constructor
  · intro he
    unfold get_next_heap_block
    rw [if_neg hinit, if_pos rfl, if_pos (by rw [he]; rfl)]
  · intro s0 hs
    have hlen := (List.getElem?_eq_some_iff.mp hs).1
    unfold get_next_heap_block
    rw [if_neg hinit, if_pos rfl, if_neg (by omega)]
    exact first_block_spec mem n st hr 0 s0 hs (hl s0 (List.getElem?_mem hs)) fuel hf blk

theorem next_to_next_span (mem : Nat → Option Nat) (n : Nat) (st : HeapState)
    (hr : Ready st) (hl : populate_returns st mem n) (fuel : Nat) (hf : n ≤ fuel) (blk : heap_block)
    (i : Nat) (s : ca_span) (hs : st.g_spans[i]? = some s) :
    ((match next_span_of st s with
      | Outcome.fault => Outcome.fault
      | Outcome.hang => Outcome.hang
      | Outcome.ret none => Outcome.ret ⟨st, blk, false⟩
      | Outcome.ret (some j) => first_block_of_span mem fuel st j blk) : Outcome query_result) =
    (match st.g_spans[i + 1]? with
      | none => Outcome.ret ⟨st, blk, false⟩
      | some t => Outcome.ret
          ⟨attach st (i + 1) (populated st mem n t), first_block st.g_config (populated st mem n t),
            true⟩) := by
  rw [next_span_of_spec st hr i s hs]
  by_cases hn : i + 1 < st.g_spans.length
  · rw [if_pos hn]
    have ht := List.getElem?_eq_getElem hn
    rw [ht]
    simp only
    exact first_block_spec mem n st hr (i + 1) _ ht (hl _ (List.getElem?_mem ht)) fuel hf blk
  · rw [if_neg hn, List.getElem?_eq_none (by omega)]

theorem next_span_spec (mem : Nat → Option Nat) (n : Nat) (st : HeapState)
    (hr : Ready st) (hl : populate_returns st mem n) (fuel : Nat) (hf : n ≤ fuel) (a : Nat)
    (ha : a ≠ 0) (blk : heap_block) :
    (∀ (i : Nat) (s : ca_span), st.g_spans[i]? = some s →
      span_covers s (a >>> st.g_config.kPageShift) →
      (s.location ≠ IN_USE ∨ s.sizeclass = 0 ∨
        (s.bitmap ≠ none ∧ block_count st.g_config s - 1 ≤
          (a - span_base st.g_config s) / class_size st.g_config s.sizeclass)) →
      (i + 1 = st.g_spans.length →
        get_next_heap_block mem fuel st a blk = Outcome.ret ⟨st, blk, false⟩) ∧
      (∀ t, st.g_spans[i + 1]? = some t →
        get_next_heap_block mem fuel st a blk = Outcome.ret
          ⟨attach st (i + 1) (populated st mem n t),
            first_block st.g_config (populated st mem n t), true⟩)) ∧
    ((∀ s ∈ st.g_spans, ¬ span_covers s (a >>> st.g_config.kPageShift)) →
      get_next_heap_block mem fuel st a blk = Outcome.ret ⟨st, blk, false⟩) := by
  have hinit : ¬ (st.g_initialized = false) := by rw [hr.1]; simp
  constructor
  · intro i s hs hc hcase
    have hget := ready_span_get hr hs hc
    have hi := (List.getElem?_eq_some_iff.mp hs).1
    have hwf := hr.2.2 s (List.getElem?_mem hs)
    have key : get_next_heap_block mem fuel st a blk =
        (match st.g_spans[i + 1]? with
          | none => Outcome.ret ⟨st, blk, false⟩
          | some t => Outcome.ret
              ⟨attach st (i + 1) (populated st mem n t),
                first_block st.g_config (populated st mem n t), true⟩) := by
      rw [← next_to_next_span mem n st hr hl fuel hf blk i s hs]
      unfold get_next_heap_block
      rw [if_neg hinit, if_neg ha, hget]
      simp only [hs]
      by_cases hsub : s.location = IN_USE ∧ s.sizeclass ≠ 0
      · rw [if_pos hsub]
        obtain ⟨c1, c2, c3, c4, c5, c6⟩ := wf_class hwf hsub.1 hsub.2
        obtain ⟨b1, b2, _, b4, _, b6⟩ := wf_base hwf
        obtain ⟨k1, k2⟩ := covers_bounds hc
        rcases hcase with h | h | ⟨h1, h2⟩
        · exact absurd hsub.1 h
        · exact absurd h hsub.2
        · rw [c1]
          simp only
          rw [if_neg (by omega)]
          have hcount : s.count = block_count st.g_config s := by
            rcases (hwf.2.2 hsub.1 hsub.2).2.2.2.2 with h | h
            · exact absurd h h1
            · exact h.1
          have e1 : sub64 a (shl64 s.start st.g_config.kPageShift) = a - span_base st.g_config s := by
            rw [b1]; exact sub64_eq k1 (by omega)
          have e5 : (a - span_base st.g_config s) / class_size st.g_config s.sizeclass
              ≤ span_bytes st.g_config s / class_size st.g_config s.sizeclass :=
            Nat.div_le_div_right (by omega)
          have e6 : span_bytes st.g_config s / class_size st.g_config s.sizeclass
              = block_count st.g_config s := rfl
          have e2 : (a - span_base st.g_config s) / class_size st.g_config s.sizeclass % UINT_MOD
              = (a - span_base st.g_config s) / class_size st.g_config s.sizeclass :=
            Nat.mod_eq_of_lt (by omega)
          have e3 : sub32 s.count 1 = block_count st.g_config s - 1 := by
            unfold sub32
            rw [hcount]
            rw [uint_mod_eq] at c4 ⊢
            omega
          rw [e1, e2, e3, if_neg (by omega)]
      · rw [if_neg hsub]
    constructor
    · intro hlast
      rw [key, List.getElem?_eq_none (by omega)]
    · intro t ht
      rw [key, ht]
  · intro hnone
    have hget := (span_get_spec st hr.2.1 (ready_no_overflow hr) a).2 hnone
    unfold get_next_heap_block
    rw [if_neg hinit, if_neg ha, hget]


/-! ### Agreement of `get_next_heap_block` and `get_heap_block_info` -/

theorem bounds_covers {cfg : ca_config} {s : ca_span} {a : Nat}
    (h1 : span_base cfg s ≤ a) (h2 : a < span_base cfg s + span_bytes cfg s) :
    span_covers s (a >>> cfg.kPageShift) := by
  unfold span_covers
  rw [Nat.shiftRight_eq_div_pow]
  have hp : 0 < 2 ^ cfg.kPageShift := Nat.two_pow_pos _
  unfold span_base at h1 h2
  unfold span_bytes at h2
  rw [← Nat.add_mul] at h2
  exact ⟨(Nat.le_div_iff_mul_le hp).mpr h1, (Nat.div_lt_iff_lt_mul hp).mpr h2⟩

theorem span_eq_of_bitmap {cfg : ca_config} {s : ca_span} {bm bm1 : List Nat}
    (hwf : span_wf cfg s) (hloc : s.location = IN_USE) (hcls : s.sizeclass ≠ 0)
    (hb : s.bitmap = some bm) (hor : s.bitmap = none ∨ s.bitmap = some bm1) :
    ({ s with count := block_count cfg s, bitmap := some bm1 } : ca_span) = s := by
  have hc : s.count = block_count cfg s := by
    rcases (hwf.2.2 hloc hcls).2.2.2.2 with h | h
    · rw [hb] at h; cases h
    · exact h.1
  have hb1 : s.bitmap = some bm1 := by
    rcases hor with h | h
    · rw [hb] at h; cases h
    · exact h
  rw [← hc, ← hb1]

theorem populate_existing (st : HeapState) (mem : Nat → Option Nat) (n : Nat) (s : ca_span)
    (bm : List Nat) (hb : s.bitmap = some bm) :
    span_populate_free_bitmap st mem n s ≠ Outcome.hang := by
  rw [populate_noop st mem n s (Or.inl (by rw [hb]; simp))]
  simp

theorem info_existing (mem : Nat → Option Nat) (st : HeapState) (hr : Ready st) (i : Nat)
    (s : ca_span) (hs : st.g_spans[i]? = some s) (hloc : s.location = IN_USE)
    (hcls : s.sizeclass ≠ 0) (bm : List Nat) (hb : s.bitmap = some bm) (k : Nat)
    (hk : k < block_count st.g_config s) (fuel : Nat) (blk : heap_block) :
    get_heap_block_info mem fuel st
      (span_base st.g_config s + k * class_size st.g_config s.sizeclass) blk = Outcome.ret
      ⟨st, { addr := span_base st.g_config s + k * class_size st.g_config s.sizeclass,
             size := class_size st.g_config s.sizeclass, inuse := !(bitmap_bit bm k) }, true⟩ := by
  have hwf := hr.2.2 s (List.getElem?_mem hs)
  obtain ⟨c1, c2, c3, c4, c5, c6⟩ := wf_class hwf hloc hcls
  have hlt : k * class_size st.g_config s.sizeclass
      < block_count st.g_config s * class_size st.g_config s.sizeclass :=
    Nat.mul_lt_mul_of_pos_right hk c2
  have hc : span_covers s
      ((span_base st.g_config s + k * class_size st.g_config s.sizeclass)
        >>> st.g_config.kPageShift) :=
    bounds_covers (by omega) (by omega)
  have e1 : span_base st.g_config s + k * class_size st.g_config s.sizeclass
      - span_base st.g_config s = k * class_size st.g_config s.sizeclass := by omega
  have e2 : k * class_size st.g_config s.sizeclass / class_size st.g_config s.sizeclass = k :=
    Nat.mul_div_cancel _ c2
  have e3 : k * class_size st.g_config s.sizeclass % class_size st.g_config s.sizeclass = 0 :=
    Nat.mul_mod_left _ _
  obtain ⟨bm1, hor, _, hinfo⟩ := info_subdivided mem 0 st hr i s hs _ hc hloc hcls
    (populate_existing st mem 0 s bm hb)
    (by rw [e1, e2]; unfold bitmap_words UINT_BITS; omega)
  rw [hinfo fuel (Nat.zero_le _) blk, span_eq_of_bitmap hwf hloc hcls hb hor, set_same _ _ _ hs,
    e1, e2, e3]
  have hb1 : bm1 = bm := by
    rcases hor with h | h
    · rw [hb] at h; cases h
    · rw [hb] at h; exact (Option.some.inj h).symm
  rw [hb1]
  rfl

theorem first_block_agree (mem : Nat → Option Nat) (n : Nat) (st : HeapState) (hr : Ready st)
    (j : Nat) (t : ca_span) (hj : st.g_spans[j]? = some t)
    (hend : span_populate_free_bitmap st mem n t ≠ Outcome.hang) (fuel2 : Nat)
    (blk2 : heap_block) :
    get_heap_block_info mem fuel2 (attach st j (populated st mem n t))
      (first_block st.g_config (populated st mem n t)).addr blk2 = Outcome.ret
      ⟨attach st j (populated st mem n t), first_block st.g_config (populated st mem n t), true⟩ := by
  have hwf := hr.2.2 t (List.getElem?_mem hj)
  obtain ⟨b1, b2, _, b4, _, b6⟩ := wf_base hwf
  have hcov : span_covers t (span_base st.g_config t >>> st.g_config.kPageShift) :=
    bounds_covers (Nat.le_refl _) (by omega)
  by_cases hloc : t.location ≠ IN_USE
  · rw [populated_noop st mem n t (Or.inr (Or.inr hloc))]
    unfold attach first_block
    rw [set_same _ _ _ hj, if_pos hloc]
    simp only
    rw [((info_whole_span mem fuel2 st hr _ blk2).1 j t hj hcov).1 hloc, b1, b2]
  · rw [ne_eq, not_not] at hloc
    by_cases hcls : t.sizeclass = 0
    · rw [populated_noop st mem n t (Or.inr (Or.inl hcls))]
      unfold attach first_block
      rw [set_same _ _ _ hj, if_neg (by rw [hloc]; simp), if_pos hcls]
      simp only
      rw [((info_whole_span mem fuel2 st hr _ blk2).1 j t hj hcov).2 hloc hcls,
        b1, b2]
    · obtain ⟨bm, hlen, _, hp⟩ := populated_sub st mem n t hwf hloc hcls hend
      obtain ⟨c1, c2, c3, c4, c5, c6⟩ := wf_class hwf hloc hcls
      rw [hp]
      have hr1 := ready_set hr hj bm hlen
      have hlt := (List.getElem?_eq_some_iff.mp hj).1
      have hj1 : (st.g_spans.set j
          { t with count := block_count st.g_config t, bitmap := some bm })[j]?
          = some { t with count := block_count st.g_config t, bitmap := some bm } :=
        List.getElem?_set_self hlt
      have := info_existing mem _ hr1 j _ hj1 hloc hcls bm rfl 0 c3 fuel2 blk2
      unfold attach first_block
      simp only
      rw [if_neg (by rw [hloc]; simp), if_neg hcls]
      simp only [Nat.zero_mul, Nat.add_zero] at this
      exact this


theorem span_get_sound {st : HeapState} (hr : Ready st) {a i : Nat}
    (h : span_get st a = some i) :
    ∃ s, st.g_spans[i]? = some s ∧ span_covers s (a >>> st.g_config.kPageShift) := by
  unfold span_get bsearch at h
  obtain ⟨_, _, p, hp, hc⟩ := bsearch_loop_sound _ _ _ _ _ _ h
  refine ⟨p, hp, ?_⟩
  have hno := ready_no_overflow hr p (List.getElem?_mem hp)
  have h1 := compare_neg (p := a >>> st.g_config.kPageShift) hno
  have h2 := compare_pos (p := a >>> st.g_config.kPageShift) hno
  unfold span_covers
  omega

theorem next_unfold (mem : Nat → Option Nat) (fuel : Nat) (st : HeapState) (hr : Ready st)
    (a : Nat) (ha : a ≠ 0) (blk : heap_block) (i : Nat) (s : ca_span)
    (hs : st.g_spans[i]? = some s) (hc : span_covers s (a >>> st.g_config.kPageShift)) :
    get_next_heap_block mem fuel st a blk =
      if s.location = IN_USE ∧ s.sizeclass ≠ 0 ∧
          (a - span_base st.g_config s) / class_size st.g_config s.sizeclass
            < sub32 s.count 1 then
        match s.bitmap with
        | none => Outcome.fault
        | some bm =>
          match bitmap_test bm
              ((a - span_base st.g_config s) / class_size st.g_config s.sizeclass + 1) with
          | none => Outcome.fault
          | some b => Outcome.ret
              ⟨st, { addr := span_base st.g_config s +
                        ((a - span_base st.g_config s) / class_size st.g_config s.sizeclass + 1)
                          * class_size st.g_config s.sizeclass,
                     size := class_size st.g_config s.sizeclass, inuse := !b }, true⟩
      else
        match st.g_spans[i + 1]? with
        | none => Outcome.ret ⟨st, blk, false⟩
        | some _ => first_block_of_span mem fuel st (i + 1) blk := by
  have hinit : ¬ (st.g_initialized = false) := by rw [hr.1]; simp
  have hget := ready_span_get hr hs hc
  have hi := (List.getElem?_eq_some_iff.mp hs).1
  have hwf := hr.2.2 s (List.getElem?_mem hs)
  have hnext : ((match next_span_of st s with
      | Outcome.fault => Outcome.fault
      | Outcome.hang => Outcome.hang
      | Outcome.ret none => Outcome.ret ⟨st, blk, false⟩
      | Outcome.ret (some j) => first_block_of_span mem fuel st j blk) : Outcome query_result) =
      (match st.g_spans[i + 1]? with
        | none => Outcome.ret ⟨st, blk, false⟩
        | some _ => first_block_of_span mem fuel st (i + 1) blk) := by
    rw [next_span_of_spec st hr i s hs]
    by_cases hn : i + 1 < st.g_spans.length
    · rw [if_pos hn, List.getElem?_eq_getElem hn]
    · rw [if_neg hn, List.getElem?_eq_none (by omega)]
  rw [← hnext]
  unfold get_next_heap_block
  rw [if_neg hinit, if_neg ha, hget]
  simp only [hs]
  by_cases hsub : s.location = IN_USE ∧ s.sizeclass ≠ 0
  · rw [if_pos hsub]
    obtain ⟨c1, c2, c3, c4, c5, c6⟩ := wf_class hwf hsub.1 hsub.2
    obtain ⟨b1, b2, _, b4, _, b6⟩ := wf_base hwf
    obtain ⟨k1, k2⟩ := covers_bounds hc
    rw [c1]
    simp only
    rw [if_neg (by omega)]
    have e1 : sub64 a (shl64 s.start st.g_config.kPageShift) = a - span_base st.g_config s := by
      rw [b1]; exact sub64_eq k1 (by omega)
    have e5 : (a - span_base st.g_config s) / class_size st.g_config s.sizeclass
        ≤ span_bytes st.g_config s / class_size st.g_config s.sizeclass :=
      Nat.div_le_div_right (by omega)
    have e6 : span_bytes st.g_config s / class_size st.g_config s.sizeclass
        = block_count st.g_config s := rfl
    have e2 : (a - span_base st.g_config s) / class_size st.g_config s.sizeclass % UINT_MOD
        = (a - span_base st.g_config s) / class_size st.g_config s.sizeclass :=
      Nat.mod_eq_of_lt (by omega)
    rw [e1, e2, b1]
    by_cases hlt : (a - span_base st.g_config s) / class_size st.g_config s.sizeclass
        < sub32 s.count 1
    · rw [if_pos hlt, if_pos ⟨hsub.1, hsub.2, hlt⟩]
      cases hb : s.bitmap with
      | none => rfl
      | some bm =>
        simp only
        cases hbt : bitmap_test bm
            ((a - span_base st.g_config s) / class_size st.g_config s.sizeclass + 1) with
        | none => rfl
        | some b =>
          simp only
          have hcount : s.count = block_count st.g_config s := by
            rcases (hwf.2.2 hsub.1 hsub.2).2.2.2.2 with h | h
            · rw [hb] at h; cases h
            · exact h.1
          have e3 : sub32 s.count 1 = block_count st.g_config s - 1 := by
            unfold sub32
            rw [hcount]
            rw [uint_mod_eq] at c4 ⊢
            omega
          have e7 : ((a - span_base st.g_config s) / class_size st.g_config s.sizeclass + 1)
              * class_size st.g_config s.sizeclass
              ≤ block_count st.g_config s * class_size st.g_config s.sizeclass :=
            Nat.mul_le_mul_right _ (by omega)
          rw [mul64_eq (by omega), add64_eq (by omega)]
    · rw [if_neg hlt, if_neg (fun h => hlt h.2.2)]
  · rw [if_neg hsub, if_neg (fun h => hsub ⟨h.1, h.2.1⟩)]

theorem first_block_ret_not_hang (mem : Nat → Option Nat) (fuel : Nat) (st : HeapState)
    (j : Nat) (t : ca_span) (hj : st.g_spans[j]? = some t) (blk : heap_block) (r : query_result)
    (h : first_block_of_span mem fuel st j blk = Outcome.ret r) :
    span_populate_free_bitmap st mem fuel t ≠ Outcome.hang := by
  intro hh
  unfold first_block_of_span at h
  simp only [hj] at h
  rw [hh] at h
  cases h

theorem next_info_agree_post (mem : Nat → Option Nat) (fuel : Nat) (st : HeapState)
    (hr : Ready st) (a : Nat) (blk : heap_block) (r : query_result)
    (h : get_next_heap_block mem fuel st a blk = Outcome.ret r) (hok : r.ok = true)
    (fuel2 : Nat) (blk2 : heap_block) :
    get_heap_block_info mem fuel2 r.st r.blk.addr blk2 = Outcome.ret ⟨r.st, r.blk, true⟩ := by
  have hinit : ¬ (st.g_initialized = false) := by rw [hr.1]; simp
  have hfirst : ∀ j t, st.g_spans[j]? = some t →
      first_block_of_span mem fuel st j blk = Outcome.ret r →
      get_heap_block_info mem fuel2 r.st r.blk.addr blk2 = Outcome.ret ⟨r.st, r.blk, true⟩ := by
    intro j t hj hfb
    have hend := first_block_ret_not_hang mem fuel st j t hj blk r hfb
    rw [first_block_spec mem fuel st hr j t hj hend fuel (Nat.le_refl _) blk] at hfb
    cases hfb
    exact first_block_agree mem fuel st hr j t hj hend fuel2 blk2
  by_cases ha : a = 0
  · subst ha
    unfold get_next_heap_block at h
    rw [if_neg hinit, if_pos rfl] at h
    by_cases he : st.g_spans.length = 0
    · rw [if_pos he] at h
      cases h
      cases hok
    · rw [if_neg he] at h
      exact hfirst 0 _ (List.getElem?_eq_getElem (by omega)) h
  · cases hget : span_get st a with
    | none =>
      unfold get_next_heap_block at h
      rw [if_neg hinit, if_neg ha, hget] at h
      cases h
      cases hok
    | some i =>
      obtain ⟨s, hs, hc⟩ := span_get_sound hr hget
      rw [next_unfold mem fuel st hr a ha blk i s hs hc] at h
      split at h
      · rename_i hcond
        obtain ⟨hloc, hcls, hlt⟩ := hcond
        have hwf := hr.2.2 s (List.getElem?_mem hs)
        obtain ⟨c1, c2, c3, c4, c5, c6⟩ := wf_class hwf hloc hcls
        cases hb : s.bitmap with
        | none => rw [hb] at h; cases h
        | some bm =>
          rw [hb] at h
          simp only at h
          have hcount : s.count = block_count st.g_config s := by
            rcases (hwf.2.2 hloc hcls).2.2.2.2 with h | h
            · rw [hb] at h; cases h
            · exact h.1
          have e3 : sub32 s.count 1 = block_count st.g_config s - 1 := by
            unfold sub32
            rw [hcount]
            rw [uint_mod_eq] at c4 ⊢
            omega
          rw [e3] at hlt
          have hlen : bm.length = bitmap_words st.g_config s := by
            rcases (hwf.2.2 hloc hcls).2.2.2.2 with h | h
            · rw [hb] at h; cases h
            · have := h.2
              rw [hb] at this
              simpa using this
          rw [bitmap_test_eq bm _ (by rw [hlen]; unfold bitmap_words UINT_BITS; omega)] at h
          simp only at h
          cases h
          exact info_existing mem st hr i s hs hloc hcls bm hb _ (by omega) fuel2 blk2
      · cases hn : st.g_spans[i + 1]? with
        | none =>
          rw [hn] at h
          cases h
          cases hok
        | some t =>
          rw [hn] at h
          exact hfirst (i + 1) t hn h


/-! ### `walk_inuse_blocks` -/

theorem span_inuse_blocks_spec {base B C : Nat} (hB : 0 < B) (hE : base + C * B < ULONG_MOD)
    (bm : List Nat) (hlen : bm.length = (C + UINT_BITS - 1) / UINT_BITS) :
    ∀ (k idx : Nat), idx + k ≤ C →
      span_inuse_blocks base B bm k idx = Outcome.ret
        (((List.range' idx k).filter (fun j => !(bitmap_bit bm j))).map
          (fun j => ({ addr := base + j * B, size := B } : inuse_block))) := by
  intro k
  induction k with
  | zero => intro idx _; rfl
  | succ k ih =>
    intro idx h
    unfold span_inuse_blocks
    rw [bitmap_test_eq bm idx (by rw [hlen]; unfold UINT_BITS; omega)]
    simp only
    rw [ih (idx + 1) (by omega)]
    simp only
    have hlt : idx * B < C * B := Nat.mul_lt_mul_of_pos_right (by omega) hB
    rw [mul64_eq (by omega), add64_eq (by omega), List.range'_succ, List.filter_cons]
    cases hb : bitmap_bit bm idx <;> simp

theorem populated_wf (st : HeapState) (mem : Nat → Option Nat) (n : Nat) (s : ca_span)
    (hwf : span_wf st.g_config s)
    (hend : span_populate_free_bitmap st mem n s ≠ Outcome.hang) :
    span_wf st.g_config (populated st mem n s) ∧
    (populated st mem n s).start = s.start ∧ (populated st mem n s).length = s.length := by
  by_cases h : s.bitmap ≠ none ∨ s.sizeclass = 0 ∨ s.location ≠ IN_USE
  · rw [populated_noop st mem n s h]
    exact ⟨hwf, rfl, rfl⟩
  · have hloc : s.location = IN_USE := by
      by_contra hc; exact h (Or.inr (Or.inr hc))
    have hcls : s.sizeclass ≠ 0 := fun hc => h (Or.inr (Or.inl hc))
    obtain ⟨bm, hlen, _, hp⟩ := populated_sub st mem n s hwf hloc hcls hend
    rw [hp]
    refine ⟨?_, rfl, rfl⟩
    obtain ⟨w1, w2, w3⟩ := hwf
    refine ⟨w1, w2, ?_⟩
    intro hl hc
    obtain ⟨c1, c2, c3, c4, _⟩ := w3 hloc hcls
    refine ⟨c1, c2, c3, c4, Or.inr ⟨rfl, ?_⟩⟩
    simp only [Option.map_some', Option.some.injEq]
    exact hlen

theorem span_entries_spec (st : HeapState) (mem : Nat → Option Nat) (n : Nat) (s : ca_span)
    (hwf : span_wf st.g_config s)
    (hend : span_populate_free_bitmap st mem n s ≠ Outcome.hang) :
    span_entries st (populated st mem n s) =
      Outcome.ret (expected_entries st.g_config (populated st mem n s)) := by
  obtain ⟨b1, b2, _⟩ := wf_base hwf
  by_cases hloc : s.location ≠ IN_USE
  · rw [populated_noop st mem n s (Or.inr (Or.inr hloc))]
    unfold span_entries expected_entries
    rw [if_pos hloc, if_pos hloc]
  · rw [ne_eq, not_not] at hloc
    by_cases hcls : s.sizeclass = 0
    · rw [populated_noop st mem n s (Or.inr (Or.inl hcls))]
      unfold span_entries expected_entries
      rw [if_neg (by rw [hloc]; simp), if_pos hcls, if_neg (by rw [hloc]; simp), if_pos hcls,
        b1, b2]
    · obtain ⟨bm, hlen, _, hp⟩ := populated_sub st mem n s hwf hloc hcls hend
      obtain ⟨c1, c2, c3, c4, c5, c6⟩ := wf_class hwf hloc hcls
      rw [hp]
      unfold span_entries expected_entries
      simp only
      rw [if_neg (by rw [hloc]; simp), if_neg hcls, if_neg (by rw [hloc]; simp), if_neg hcls, c1]
      simp only
      rw [b1, span_inuse_blocks_spec c2 c6 bm hlen _ 0 (by omega), List.range_eq_range']
      rfl

theorem walk_spans_spec (st : HeapState) (mem : Nat → Option Nat) (n fuel : Nat)
    (hf : n ≤ fuel) :
    ∀ (l : List ca_span), (∀ s ∈ l, span_wf st.g_config s) →
      (∀ s ∈ l, span_populate_free_bitmap st mem n s ≠ Outcome.hang) →
      walk_spans st mem fuel l = Outcome.ret
        (l.map (populated st mem n),
          (l.map (populated st mem n)).flatMap (expected_entries st.g_config)) := by
  intro l
  induction l with
  | nil => intro _ _; rfl
  | cons s rest ih =>
    intro hwf hend
    have hw := hwf s (List.mem_cons_self _ _)
    have he := hend s (List.mem_cons_self _ _)
    unfold walk_spans
    rw [populate_eq_populated st mem n s hw he fuel hf]
    simp only
    rw [span_entries_spec st mem n s hw he]
    simp only
    rw [ih (fun t ht => hwf t (List.mem_cons_of_mem _ ht))
      (fun t ht => hend t (List.mem_cons_of_mem _ ht))]
    simp only [List.map_cons, List.flatMap_cons]

theorem walk_exact (mem : Nat → Option Nat) (n : Nat) (st : HeapState)
    (hr : Ready st) (hl : populate_returns st mem n) (fuel : Nat) (hf : n ≤ fuel)
    (has_buffer : Bool) (opCount : Nat) :
    walk_inuse_blocks mem fuel st has_buffer opCount = Outcome.ret
      { st := { st with g_spans := st.g_spans.map (populated st mem n) },
        ok := true,
        opCount := ((st.g_spans.map (populated st mem n)).flatMap
          (expected_entries st.g_config)).length,
        written := if has_buffer then
            (st.g_spans.map (populated st mem n)).flatMap (expected_entries st.g_config)
          else [] } := by
  have hinit : ¬ (st.g_initialized = false) := by rw [hr.1]; simp
  unfold walk_inuse_blocks
  rw [if_neg hinit, walk_spans_spec st mem n fuel hf st.g_spans hr.2.2 hl]


theorem expected_bounds {cfg : ca_config} {s : ca_span} (hwf : span_wf cfg s) :
    ∀ e ∈ expected_entries cfg s,
      span_base cfg s ≤ e.addr ∧ e.addr < span_base cfg s + span_bytes cfg s := by
  intro e he
  obtain ⟨_, _, _, _, _, b6⟩ := wf_base hwf
  unfold expected_entries at he
  split at he
  · simp at he
  · rename_i hloc
    rw [ne_eq, not_not] at hloc
    split at he
    · simp only [List.mem_singleton] at he
      subst he
      simp only
      omega
    · rename_i hcls
      obtain ⟨c1, c2, c3, c4, c5, c6⟩ := wf_class hwf hloc hcls
      simp only [List.mem_map, List.mem_filter, List.mem_range] at he
      obtain ⟨k, ⟨hk, _⟩, rfl⟩ := he
      simp only
      have hlt : k * class_size cfg s.sizeclass < block_count cfg s * class_size cfg s.sizeclass :=
        Nat.mul_lt_mul_of_pos_right hk c2
      omega

theorem expected_sorted {cfg : ca_config} {s : ca_span} (hwf : span_wf cfg s) :
    List.Pairwise (· < ·) ((expected_entries cfg s).map inuse_block.addr) := by
  unfold expected_entries
  split
  · simp
  · rename_i hloc
    rw [ne_eq, not_not] at hloc
    split
    · simp
    · rename_i hcls
      obtain ⟨c1, c2, c3, c4, c5, c6⟩ := wf_class hwf hloc hcls
      rw [List.map_map, List.pairwise_map]
      apply List.Pairwise.imp _ ((List.pairwise_lt_range _).filter _)
      intro a b hab
      simp only [Function.comp]
      have : a * class_size cfg s.sizeclass < b * class_size cfg s.sizeclass :=
        Nat.mul_lt_mul_of_pos_right hab c2
      omega

theorem sorted_head {s : ca_span} {rest : List ca_span} (h : spans_sorted (s :: rest)) :
    ∀ t ∈ rest, s.start + s.length ≤ t.start := by
  intro t ht
  obtain ⟨k, hk⟩ := List.mem_iff_getElem?.mp ht
  exact sorted_lt h (Nat.succ_pos k) (by simp : (s :: rest)[0]? = some s)
    (by rw [List.getElem?_cons_succ]; exact hk)

theorem entries_sorted (cfg : ca_config) :
    ∀ (l : List ca_span), spans_sorted l → (∀ s ∈ l, span_wf cfg s) →
      List.Pairwise (· < ·) ((l.flatMap (expected_entries cfg)).map inuse_block.addr) := by
  intro l
  induction l with
  | nil => intro _ _; simp
  | cons s rest ih =>
    intro hs hwf
    have hw := hwf s (List.mem_cons_self _ _)
    have hrest : spans_sorted rest := List.Chain'.tail hs
    rw [List.flatMap_cons, List.map_append, List.pairwise_append]
    refine ⟨expected_sorted hw, ih hrest (fun t ht => hwf t (List.mem_cons_of_mem _ ht)), ?_⟩
    intro x hx y hy
    simp only [List.mem_map] at hx hy
    obtain ⟨e, he, rfl⟩ := hx
    obtain ⟨e2, he2, rfl⟩ := hy
    obtain ⟨t, ht, het⟩ := List.mem_flatMap.mp he2
    have h1 := (expected_bounds hw e he).2
    have h2 := (expected_bounds (hwf t (List.mem_cons_of_mem _ ht)) e2 het).1
    have h3 := sorted_head hs t ht
    have h4 : (s.start + s.length) * 2 ^ cfg.kPageShift ≤ t.start * 2 ^ cfg.kPageShift :=
      Nat.mul_le_mul_right _ h3
    unfold span_base span_bytes at h1
    unfold span_base at h2
    rw [Nat.add_mul] at h4
    omega

theorem populate_ret_fields (st : HeapState) (mem : Nat → Option Nat) (n : Nat)
    (s s1 : ca_span) (b : Bool) (h : span_populate_free_bitmap st mem n s = Outcome.ret (s1, b)) :
    s1.start = s.start ∧ s1.length = s.length := by
  unfold span_populate_free_bitmap at h
  split at h
  · cases h; exact ⟨rfl, rfl⟩
  · split at h
    · cases h
    · split at h
      · cases h
      · split at h
        · cases h
        · cases h
        · split at h
          · cases h
          · cases h
          · cases h; exact ⟨rfl, rfl⟩

theorem populated_start_length (st : HeapState) (mem : Nat → Option Nat) (n : Nat)
    (s : ca_span) :
    (populated st mem n s).start = s.start ∧ (populated st mem n s).length = s.length := by
  unfold populated
  split
  · rename_i s1 b heq
    exact populate_ret_fields st mem n s s1 b heq
  · exact ⟨rfl, rfl⟩

theorem populated_sorted (st : HeapState) (mem : Nat → Option Nat) (n : Nat)
    {l : List ca_span} (h : spans_sorted l) : spans_sorted (l.map (populated st mem n)) := by
  unfold spans_sorted at h ⊢
  rw [List.chain'_map]
  apply List.Chain'.imp _ h
  intro a b hab
  rw [(populated_start_length st mem n a).1, (populated_start_length st mem n a).2,
    (populated_start_length st mem n b).1]
  exact hab

theorem walk_ascending (mem : Nat → Option Nat) (n : Nat) (st : HeapState)
    (hr : Ready st) (hl : populate_returns st mem n) (fuel : Nat) (hf : n ≤ fuel)
    (has_buffer : Bool) (opCount : Nat) :
    ∃ r, walk_inuse_blocks mem fuel st has_buffer opCount = Outcome.ret r ∧ r.ok = true ∧
      List.Sorted (· < ·) (r.written.map inuse_block.addr) ∧
      (r.written.map inuse_block.addr).Nodup := by
  refine ⟨_, walk_exact mem n st hr hl fuel hf has_buffer opCount, rfl, ?_⟩
  have hs : List.Sorted (· < ·)
      (((st.g_spans.map (populated st mem n)).flatMap
        (expected_entries st.g_config)).map inuse_block.addr) := by
    apply entries_sorted st.g_config _ (populated_sorted st mem n hr.2.1)
    intro s hs
    obtain ⟨t, ht, rfl⟩ := List.mem_map.mp hs
    exact (populated_wf st mem n t (hr.2.2 t ht) (hl t ht)).1
  have key : List.Sorted (· < ·)
      ((if has_buffer then
          (st.g_spans.map (populated st mem n)).flatMap (expected_entries st.g_config)
        else []).map inuse_block.addr) := by
    cases has_buffer
    · simp
    · simpa using hs
  exact ⟨key, key.nodup⟩


/-! ### Fuel monotonicity of the queries -/

theorem info_mono (mem : Nat → Option Nat) (n : Nat) (st : HeapState) (a : Nat)
    (blk : heap_block) (h : get_heap_block_info mem n st a blk ≠ Outcome.hang)
    (fuel : Nat) (hf : n ≤ fuel) :
    get_heap_block_info mem fuel st a blk = get_heap_block_info mem n st a blk := by
  unfold get_heap_block_info at h ⊢
  split
  · rfl
  · rename_i h0
    rw [if_neg h0] at h
    cases hg : span_get st a with
    | none => rfl
    | some i =>
      rw [hg] at h
      simp only at h ⊢
      cases hs : st.g_spans[i]? with
      | none => rfl
      | some s =>
        rw [hs] at h
        simp only at h ⊢
        split
        · rfl
        · rename_i hloc
          rw [if_neg hloc] at h
          cases hsz : (if s.sizeclass ≠ 0 then st.g_config.class_to_size[s.sizeclass]?
                 else some (shl64 s.length st.g_config.kPageShift)) with
          | none => rfl
          | some size =>
            rw [hsz] at h
            simp only at h ⊢
            split
            · rfl
            · rename_i hz
              rw [if_neg hz] at h
              have hp : span_populate_free_bitmap st mem n s ≠ Outcome.hang := by
                intro hh; rw [hh] at h; exact h rfl
              rw [populate_mono st mem n s hp fuel hf]

theorem first_block_mono (mem : Nat → Option Nat) (n : Nat) (st : HeapState) (j : Nat)
    (blk : heap_block) (h : first_block_of_span mem n st j blk ≠ Outcome.hang)
    (fuel : Nat) (hf : n ≤ fuel) :
    first_block_of_span mem fuel st j blk = first_block_of_span mem n st j blk := by
  unfold first_block_of_span at h ⊢
  cases hs : st.g_spans[j]? with
  | none => rfl
  | some s =>
    rw [hs] at h
    simp only at h ⊢
    have hp : span_populate_free_bitmap st mem n s ≠ Outcome.hang := by
      intro hh; rw [hh] at h; exact h rfl
    rw [populate_mono st mem n s hp fuel hf]


theorem info_at_base (mem : Nat → Option Nat) (n : Nat) (st : HeapState) (hr : Ready st)
    (j : Nat) (t : ca_span) (hj : st.g_spans[j]? = some t)
    (hend : span_populate_free_bitmap st mem n t ≠ Outcome.hang) (fuel : Nat) (hf : n ≤ fuel)
    (blk : heap_block) :
    get_heap_block_info mem fuel st (span_base st.g_config t) blk = Outcome.ret
      ⟨attach st j (populated st mem n t), first_block st.g_config (populated st mem n t), true⟩ := by
  have hwf := hr.2.2 t (List.getElem?_mem hj)
  obtain ⟨b1, b2, _, b4, _, b6⟩ := wf_base hwf
  have hcov : span_covers t (span_base st.g_config t >>> st.g_config.kPageShift) :=
    bounds_covers (Nat.le_refl _) (by omega)
  by_cases hloc : t.location ≠ IN_USE
  · rw [populated_noop st mem n t (Or.inr (Or.inr hloc))]
    unfold attach first_block
    rw [set_same _ _ _ hj, if_pos hloc,
      ((info_whole_span mem fuel st hr _ blk).1 j t hj hcov).1 hloc, b1, b2]
  · rw [ne_eq, not_not] at hloc
    by_cases hcls : t.sizeclass = 0
    · rw [populated_noop st mem n t (Or.inr (Or.inl hcls))]
      unfold attach first_block
      rw [set_same _ _ _ hj, if_neg (by rw [hloc]; simp), if_pos hcls,
        ((info_whole_span mem fuel st hr _ blk).1 j t hj hcov).2 hloc hcls, b1, b2]
    · obtain ⟨c1, c2, c3, c4, c5, c6⟩ := wf_class hwf hloc hcls
      obtain ⟨bm, hor, hpop, hinfo⟩ := info_subdivided mem n st hr j t hj _ hcov hloc hcls hend
        (by rw [Nat.sub_self, Nat.zero_div]; unfold bitmap_words UINT_BITS; omega)
      rw [hinfo fuel hf blk]
      have hp : populated st mem n t
          = { t with count := block_count st.g_config t, bitmap := some bm } := by
        unfold populated
        rw [hpop n (Nat.le_refl _)]
      rw [hp]
      unfold attach first_block
      simp only
      rw [if_neg (by rw [hloc]; simp), if_neg hcls, Nat.sub_self, Nat.zero_div, Nat.zero_mod]
      rfl

theorem next_info_agree_pre (mem : Nat → Option Nat) (fuel : Nat) (st : HeapState)
    (hr : Ready st) (a : Nat) (blk : heap_block) (r : query_result)
    (h : get_next_heap_block mem fuel st a blk = Outcome.ret r) (hok : r.ok = true)
    (fuel2 : Nat) (hf : fuel ≤ fuel2) (blk2 : heap_block) :
    get_heap_block_info mem fuel2 st r.blk.addr blk2 = Outcome.ret ⟨r.st, r.blk, true⟩ := by
  have hinit : ¬ (st.g_initialized = false) := by rw [hr.1]; simp
  have hfirst : ∀ j t, st.g_spans[j]? = some t →
      first_block_of_span mem fuel st j blk = Outcome.ret r →
      get_heap_block_info mem fuel2 st r.blk.addr blk2 = Outcome.ret ⟨r.st, r.blk, true⟩ := by
    intro j t hj hfb
    have hend := first_block_ret_not_hang mem fuel st j t hj blk r hfb
    rw [first_block_spec mem fuel st hr j t hj hend fuel (Nat.le_refl _) blk] at hfb
    cases hfb
    have e : (first_block st.g_config (populated st mem fuel t)).addr = span_base st.g_config t := by
      have := (populated_start_length st mem fuel t).1
      unfold first_block
      split
      · unfold span_base; rw [this]
      · split
        · unfold span_base; rw [this]
        · unfold span_base; rw [this]
    simp only
    rw [e]
    exact info_at_base mem fuel st hr j t hj hend fuel2 hf blk2
  by_cases ha : a = 0
  · subst ha
    unfold get_next_heap_block at h
    rw [if_neg hinit, if_pos rfl] at h
    by_cases he : st.g_spans.length = 0
    · rw [if_pos he] at h
      cases h
      cases hok
    · rw [if_neg he] at h
      exact hfirst 0 _ (List.getElem?_eq_getElem (by omega)) h
  · cases hget : span_get st a with
    | none =>
      unfold get_next_heap_block at h
      rw [if_neg hinit, if_neg ha, hget] at h
      cases h
      cases hok
    | some i =>
      obtain ⟨s, hs, hc⟩ := span_get_sound hr hget
      have hpost := next_info_agree_post mem fuel st hr a blk r h hok fuel2 blk2
      rw [next_unfold mem fuel st hr a ha blk i s hs hc] at h
      split at h
      · cases hb : s.bitmap with
        | none => rw [hb] at h; cases h
        | some bm =>
          rw [hb] at h
          simp only at h
          split at h
          · cases h
          · cases h
            exact hpost
      · cases hn : st.g_spans[i + 1]? with
        | none =>
          rw [hn] at h
          cases h
          cases hok
        | some t =>
          rw [hn] at h
          exact hfirst (i + 1) t hn h


theorem walk_spans_ret_ends (st : HeapState) (mem : Nat → Option Nat) (fuel : Nat) :
    ∀ (l : List ca_span) (x : List ca_span × List inuse_block),
      walk_spans st mem fuel l = Outcome.ret x →
      ∀ s ∈ l, span_populate_free_bitmap st mem fuel s ≠ Outcome.hang := by
  intro l
  induction l with
  | nil => intro x _ s hs; cases hs
  | cons t rest ih =>
    intro x h s hs
    unfold walk_spans at h
    cases hp : span_populate_free_bitmap st mem fuel t with
    | fault => rw [hp] at h; cases h
    | hang => rw [hp] at h; cases h
    | ret p =>
      rw [hp] at h
      simp only at h
      cases he : span_entries st p.1 with
      | fault => rw [he] at h; cases h
      | hang => rw [he] at h; cases h
      | ret es =>
        rw [he] at h
        simp only at h
        cases hw : walk_spans st mem fuel rest with
        | fault => rw [hw] at h; cases h
        | hang => rw [hw] at h; cases h
        | ret y =>
          rcases List.mem_cons.mp hs with rfl | hs
          · rw [hp]; simp
          · exact ih y hw s hs

theorem walk_ret_populate_returns (mem : Nat → Option Nat) (fuel : Nat) (st : HeapState)
    (hr : Ready st) (has_buffer : Bool) (opCount : Nat) (r : walk_result)
    (h : walk_inuse_blocks mem fuel st has_buffer opCount = Outcome.ret r) :
    populate_returns st mem fuel := by
  have hinit : ¬ (st.g_initialized = false) := by rw [hr.1]; simp
  unfold walk_inuse_blocks at h
  rw [if_neg hinit] at h
  cases hw : walk_spans st mem fuel st.g_spans with
  | fault => rw [hw] at h; cases h
  | hang => rw [hw] at h; cases h
  | ret y => exact walk_spans_ret_ends st mem fuel st.g_spans y hw


/-! ### Free-object lists that end -/

theorem list_ends_not_hang (st : HeapState) (mem : Nat → Option Nat) (n : Nat) (s : ca_span)
    (hwf : span_wf st.g_config s) (hloc : s.location = IN_USE) (hcls : s.sizeclass ≠ 0)
    (hl : list_ends st.g_config mem n s) :
    span_populate_free_bitmap st mem n s ≠ Outcome.hang := by
  cases hb : s.bitmap with
  | some bm => exact populate_existing st mem n s bm hb
  | none =>
    obtain ⟨c1, c2, c3, c4, c5, c6⟩ := wf_class hwf hloc hcls
    intro hh
    rw [populate_unfold st mem s hwf hloc hcls hb n] at hh
    have hlen0 : (List.replicate (bitmap_words st.g_config s) 0).length
        = (block_count st.g_config s + UINT_BITS - 1) / UINT_BITS := by
      rw [List.length_replicate]; rfl
    rcases walk_objects_spec mem c2 c4 c6 n s.objects _ hlen0 with hw | ⟨bm1, hw, hl1, _⟩
    · have := walk_hang_nodes mem c2 c4 c6 n s.objects _ hw
      unfold list_ends at hl
      omega
    · rw [hw] at hh
      simp only at hh
      obtain ⟨bm2, hm, _⟩ :=
        mark_cached_total c2 c4 c6 st.g_cached_blocks bm1 (by rw [hl1, hlen0])
      rw [hm] at hh
      cases hh

theorem span_ends_not_hang (st : HeapState) (mem : Nat → Option Nat) (n : Nat) (s : ca_span)
    (hwf : span_wf st.g_config s)
    (hl : s.location = IN_USE → s.sizeclass ≠ 0 → list_ends st.g_config mem n s) :
    span_populate_free_bitmap st mem n s ≠ Outcome.hang := by
  by_cases h : s.sizeclass = 0 ∨ s.location ≠ IN_USE
  · rw [populate_noop st mem n s (Or.inr h)]
    simp
  · have hloc : s.location = IN_USE := by
      by_contra hc; exact h (Or.inr hc)
    have hcls : s.sizeclass ≠ 0 := fun hc => h (Or.inl hc)
    exact list_ends_not_hang st mem n s hwf hloc hcls (hl hloc hcls)

theorem lists_end_populate_returns (st : HeapState) (mem : Nat → Option Nat) (n : Nat)
    (hr : Ready st) (hl : lists_end st mem n) : populate_returns st mem n := by
  intro s hs
  exact span_ends_not_hang st mem n s (hr.2.2 s hs) (hl s hs)

/-! ### A never-queried span with any value left in `count` -/

theorem ready_count {st : HeapState} (hr : Ready st) {j : Nat} {sj : ca_span}
    (hj : st.g_spans[j]? = some sj) (hb : sj.bitmap = none) (c : Nat) :
    Ready (attach st j { sj with count := c }) := by
  refine ⟨hr.1, sorted_set hr.2.1 hj rfl rfl, ?_⟩
  intro s hs
  rcases List.mem_or_eq_of_mem_set hs with h | h
  · exact hr.2.2 s h
  · have hwf := hr.2.2 sj (List.getElem?_mem hj)
    subst h
    obtain ⟨w1, w2, w3⟩ := hwf
    refine ⟨w1, w2, ?_⟩
    intro hloc hcls
    obtain ⟨c1, c2, c3, c4, _⟩ := w3 hloc hcls
    exact ⟨c1, c2, c3, c4, Or.inl hb⟩

theorem ex_fresh_count_ready (c : Nat) : Ready (ex_fresh_count c) :=
  ready_count (by decide : Ready ex_fresh)
    (by decide : ex_fresh.g_spans[0]? = some (ex_span 11 1 0 1 IN_USE)) rfl c

theorem next_unbuilt_any_count (c fuel : Nat) (blk : heap_block) :
    get_next_heap_block ex_mem fuel (ex_fresh_count c) 0xB000 blk = Outcome.fault ∨
    get_next_heap_block ex_mem fuel (ex_fresh_count c) 0xB000 blk = Outcome.ret
      ⟨ex_fresh_count c, { addr := 0xC000, size := 0x1000, inuse := false }, true⟩ := by
  have hr := ex_fresh_count_ready c
  have hcov : span_covers (ex_span 11 1 0 1 IN_USE) (0xB000 >>> 12) := by decide
  rw [next_unfold ex_mem fuel (ex_fresh_count c) hr 0xB000 (by decide) blk 0
    { ex_span 11 1 0 1 IN_USE with count := c } rfl hcov]
  by_cases h : (0xB000 - span_base (ex_fresh_count c).g_config
      { ex_span 11 1 0 1 IN_USE with count := c }) /
      class_size (ex_fresh_count c).g_config
        ({ ex_span 11 1 0 1 IN_USE with count := c } : ca_span).sizeclass < sub32 c 1
  · left
    rw [if_pos ⟨rfl, (by decide : (1 : Nat) ≠ 0), h⟩]
    rfl
  · right
    rw [if_neg (fun hc => h hc.2.2)]
    have h1 : (ex_fresh_count c).g_spans[0 + 1]? = some (ex_span 12 1 0 0 1) := rfl
    rw [h1]
    simp only
    rw [first_block_free ex_mem fuel (ex_fresh_count c) hr 1 (ex_span 12 1 0 0 1) rfl
      (by decide) blk]
    rfl

/-! ### The cached-block index: `bsearch` over a sorted array with duplicates -/

theorem bsearch_loop_finds {α : Type} (compar : α → Int) (base : List α)
    (hmono : ∀ (i j : Nat) (p q : α), i ≤ j → base[i]? = some p → base[j]? = some q →
      (compar p < 0 → compar q < 0) ∧ (compar q > 0 → compar p > 0))
    (t : Nat) (pt : α) (ht : base[t]? = some pt) (h0 : compar pt = 0) :
    ∀ (fuel l u : Nat), l ≤ t → t < u → u ≤ base.length → u - l ≤ fuel →
      (bsearch_loop compar base fuel l u).isSome = true := by
  intro fuel
  induction fuel with
  | zero => intro l u h1 h2 h3 h4; omega
  | succ n ih =>
    intro l u h1 h2 h3 h4
    unfold bsearch_loop
    have hlu : l < u := by omega
    rw [if_pos hlu]
    have hm : (l + u) / 2 < base.length := by omega
    have hmid := List.getElem?_eq_getElem hm
    rw [hmid]
    simp only
    by_cases hneg : compar base[(l + u) / 2] < 0
    · rw [if_pos hneg]
      have htm : t < (l + u) / 2 := by
        by_contra hc
        have := (hmono _ _ _ _ (Nat.le_of_not_lt hc) hmid ht).1 hneg
        omega
      exact ih _ _ h1 htm (by omega) (by omega)
    · rw [if_neg hneg]
      by_cases hpos : compar base[(l + u) / 2] > 0
      · rw [if_pos hpos]
        have htm : (l + u) / 2 < t := by
          by_contra hc
          have := (hmono _ _ _ _ (Nat.le_of_not_lt hc) ht hmid).2 hpos
          omega
        exact ih _ _ (by omega) h2 h3 (by omega)
      · rw [if_neg hpos]
        rfl

theorem cached_compare_zero (a c : Nat) : cached_block_search_compare a c = 0 ↔ a = c := by
  unfold cached_block_search_compare
  split <;> split <;> simp <;> omega

theorem cached_compare_neg (a c : Nat) : cached_block_search_compare a c < 0 ↔ a < c := by
  unfold cached_block_search_compare
  split <;> split <;> simp <;> omega

theorem cached_compare_pos (a c : Nat) : cached_block_search_compare a c > 0 ↔ c < a := by
  unfold cached_block_search_compare
  split <;> split <;> simp <;> omega

theorem sorted_le_index {l : List Nat} (hs : List.Sorted (· ≤ ·) l) {i j : Nat} {p q : Nat}
    (hij : i ≤ j) (hp : l[i]? = some p) (hq : l[j]? = some q) : p ≤ q := by
  rcases Nat.eq_or_lt_of_le hij with h | h
  · subst h
    rw [hp] at hq
    exact Nat.le_of_eq (Option.some.inj hq)
  · obtain ⟨hi, hpe⟩ := List.getElem?_eq_some_iff.mp hp
    obtain ⟨hj, hqe⟩ := List.getElem?_eq_some_iff.mp hq
    have := List.pairwise_iff_getElem.mp hs i j hi hj h
    rw [hpe, hqe] at this
    exact this

theorem is_block_cached_spec (st : HeapState) (hs : List.Sorted (· ≤ ·) st.g_cached_blocks)
    (x : Nat) : is_block_cached st x = true ↔ x ∈ st.g_cached_blocks := by
  unfold is_block_cached bsearch
  constructor
  · intro h
    obtain ⟨i, hi⟩ := Option.isSome_iff_exists.mp h
    obtain ⟨_, _, p, hp, hc⟩ := bsearch_loop_sound _ _ _ _ _ _ hi
    have := (cached_compare_zero x p).mp hc
    subst this
    exact List.getElem?_mem hp
  · intro h
    obtain ⟨t, ht, hte⟩ := List.getElem_of_mem h
    have ht2 : st.g_cached_blocks[t]? = some x := by
      rw [List.getElem?_eq_getElem ht, hte]
    refine bsearch_loop_finds _ _ ?_ t x ht2 ((cached_compare_zero x x).mpr rfl) _ _ _
      (Nat.zero_le _) ht (Nat.le_refl _) (by omega)
    intro i j p q hij hp hq
    have hpq := sorted_le_index hs hij hp hq
    rw [cached_compare_neg, cached_compare_neg]
    refine ⟨fun h1 => by omega, fun h1 => ?_⟩
    have h2 := (cached_compare_pos x q).mp h1
    exact (cached_compare_pos x p).mpr (by omega)

/-! ### `verify_sorted_spans` and a successful `init_heap` -/

theorem span_order_sorted : ∀ (spans : List ca_span), spans_no_overflow spans →
    span_order_check spans = true → spans_sorted spans := by
  intro spans
  induction spans with
  | nil => intro _ _; exact List.chain'_nil
  | cons a rest ih =>
    intro hno h
    cases rest with
    | nil => exact List.chain'_singleton a
    | cons b rest =>
      unfold span_order_check at h
      have ha : a.start + a.length < ULONG_MOD := hno a (List.mem_cons_self _ _)
      rw [add64_eq ha] at h
      split at h
      · simp at h
      · rename_i hle
        refine List.chain'_cons.mpr ⟨by omega, ?_⟩
        exact ih (fun s hs => hno s (List.mem_cons_of_mem _ hs)) h

theorem verify_spans_sorted (st : HeapState) (hno : spans_no_overflow st.g_spans)
    (h : verify_sorted_spans st = true) : spans_sorted st.g_spans := by
  unfold verify_sorted_spans at h
  split at h
  · rename_i hlen
    match hs : st.g_spans with
    | [] => exact List.chain'_nil
    | [a] => exact List.chain'_singleton a
    | a :: b :: rest =>
      rw [hs] at hlen
      simp only [List.length_cons] at hlen
      omega
  · split at h
    · simp at h
    · rename_i hc
      exact span_order_sorted _ hno (by simpa using hc)

theorem span_pages_check_congr (st1 st2 : HeapState) (hc : st1.g_config = st2.g_config)
    (hs : st1.g_spans = st2.g_spans) (span : ca_span) :
    ∀ (k l : Nat), span_pages_check st1 span k l = span_pages_check st2 span k l := by
  intro k
  induction k with
  | zero => intro l; rfl
  | succ n ih =>
    intro l
    unfold span_pages_check span_get
    rw [hc, hs, ih]

theorem span_query_check_congr (st1 st2 : HeapState) (hc : st1.g_config = st2.g_config)
    (hs : st1.g_spans = st2.g_spans) :
    ∀ (spans : List ca_span), span_query_check st1 spans = span_query_check st2 spans := by
  intro spans
  induction spans with
  | nil => rfl
  | cons a rest ih =>
    unfold span_query_check
    rw [span_pages_check_congr st1 st2 hc hs, ih]

theorem verify_sorted_spans_congr (st1 st2 : HeapState) (hc : st1.g_config = st2.g_config)
    (hs : st1.g_spans = st2.g_spans) : verify_sorted_spans st1 = verify_sorted_spans st2 := by
  unfold verify_sorted_spans
  rw [span_query_check_congr st1 st2 hc hs, hs]

theorem init_heap_true (img : process_image) (mem : Nat → Option Nat) (fuel : Nat)
    (st0 st : HeapState) (h : init_heap img mem fuel st0 = Outcome.ret (st, true)) :
    ∃ st4 : HeapState,
      st = { st4 with g_cached_blocks := qsort_cached_blocks st4.g_cached_blocks,
                      g_initialized := true } ∧
      verify_sorted_cached_blocks
        { st4 with g_cached_blocks := qsort_cached_blocks st4.g_cached_blocks } = true ∧
      verify_sorted_spans
        { st4 with g_cached_blocks := qsort_cached_blocks st4.g_cached_blocks } = true := by
  unfold init_heap at h
  split at h
  · simp at h
  · split at h
    · simp at h
    · split at h
      · simp at h
      · simp at h
      · simp at h
      · split at h
        · simp at h
        · simp at h
        · simp at h
        · rename_i st4 _
          split at h
          · simp at h
          · rename_i hv
            simp only [not_or, Bool.not_eq_false] at hv
            simp only [Outcome.ret.injEq, Prod.mk.injEq, and_true] at h
            exact ⟨st4, h.symm, hv.1, hv.2⟩

theorem init_heap_verified (img : process_image) (mem : Nat → Option Nat) (fuel : Nat)
    (st0 st : HeapState) (h : init_heap img mem fuel st0 = Outcome.ret (st, true)) :
    st.g_initialized = true ∧ verify_sorted_spans st = true := by
  obtain ⟨st4, hst, _, hv⟩ := init_heap_true img mem fuel st0 st h
  subst hst
  exact ⟨rfl, by rw [← hv]; exact verify_sorted_spans_congr _ _ rfl rfl⟩

/-! ### What the builders of `init_heap` leave in place -/

theorem carried_refl (st : HeapState) : carried_over st st :=
  ⟨rfl, List.prefix_refl _, List.prefix_refl _⟩

theorem carried_trans {a b c : HeapState} (h1 : carried_over a b) (h2 : carried_over b c) :
    carried_over a c :=
  ⟨h2.1.trans h1.1, h1.2.1.trans h2.2.1, h1.2.2.trans h2.2.2⟩

theorem parse_config_carried (img : process_image) (st : HeapState) :
    carried_over st (parse_config img st).1 := by
  unfold parse_config
  split
  · exact carried_refl st
  · split <;> exact ⟨rfl, List.prefix_refl _, List.prefix_refl _⟩

theorem parse_span_carried (st : HeapState) (span : span_value) :
    carried_over st (parse_span st span).1 :=
  ⟨rfl, List.prefix_append _ _, List.prefix_refl _⟩

theorem parse_leaf_carried : ∀ (leaf : List (Option span_value)) (st : HeapState),
    carried_over st (parse_leaf st leaf).1 := by
  intro leaf
  induction leaf with
  | nil => intro st; exact carried_refl st
  | cons v rest ih =>
    intro st
    unfold parse_leaf
    split
    · exact carried_trans ⟨rfl, List.prefix_refl _, List.prefix_refl _⟩ (ih _)
    · split
      · exact ih st
      · rename_i span
        have h1 := parse_span_carried st span
        split
        · rename_i st1 heq
          rw [heq] at h1
          exact h1
        · rename_i st1 heq
          rw [heq] at h1
          exact carried_trans h1 (ih st1)

theorem parse_pagemap_node_carried : ∀ (node : List (Option (List (Option span_value))))
    (st : HeapState), carried_over st (parse_pagemap_node st node).1 := by
  intro node
  induction node with
  | nil => intro st; exact carried_refl st
  | cons v rest ih =>
    intro st
    cases v with
    | none => unfold parse_pagemap_node; exact ih st
    | some leaf =>
      unfold parse_pagemap_node
      have h1 := parse_leaf_carried leaf st
      split
      · rename_i st1 heq
        rw [heq] at h1
        exact h1
      · rename_i st1 heq
        rw [heq] at h1
        exact carried_trans h1 (ih st1)

theorem parse_pagemap_root_carried :
    ∀ (root : List (Option (List (Option (List (Option span_value)))))) (st : HeapState),
      carried_over st (parse_pagemap_root st root).1 := by
  intro root
  induction root with
  | nil => intro st; exact carried_refl st
  | cons v rest ih =>
    intro st
    cases v with
    | none => unfold parse_pagemap_root; exact ih st
    | some node =>
      unfold parse_pagemap_root
      have h1 := parse_pagemap_node_carried node st
      split
      · rename_i st1 heq
        rw [heq] at h1
        exact h1
      · rename_i st1 heq
        rw [heq] at h1
        exact carried_trans h1 (ih st1)

theorem parse_pagemap_carried (img : process_image) (st : HeapState) :
    carried_over st (parse_pagemap img st).1 := by
  unfold parse_pagemap
  split
  · exact carried_refl st
  · exact parse_pagemap_root_carried _ st

theorem cached_block_add_carried (st : HeapState) (addr : Nat) :
    carried_over st (cached_block_add st addr).1 :=
  ⟨rfl, List.prefix_refl _, List.prefix_append _ _⟩

theorem thread_cache_chain_carried (mem : Nat → Option Nat) (len : Nat) :
    ∀ (fuel count list : Nat) (st st1 : HeapState) (b : Bool),
      thread_cache_chain mem len fuel count list st = Outcome.ret (st1, b) →
      carried_over st st1 := by
  intro fuel
  induction fuel with
  | zero => intro count list st st1 b h; simp [thread_cache_chain] at h
  | succ n ih =>
    intro count list st st1 b h
    unfold thread_cache_chain at h
    split at h
    · simp only [Outcome.ret.injEq, Prod.mk.injEq] at h
      rw [← h.1]; exact carried_refl st
    · have h1 := cached_block_add_carried st list
      split at h
      · rename_i st2 heq
        rw [heq] at h1
        simp only [Outcome.ret.injEq, Prod.mk.injEq] at h
        rw [← h.1]; exact h1
      · rename_i st2 heq
        rw [heq] at h1
        split at h
        · simp only [Outcome.ret.injEq, Prod.mk.injEq] at h
          rw [← h.1]; exact h1
        · split at h
          · simp at h
          · exact carried_trans h1 (ih _ _ _ _ _ h)

theorem thread_cache_lists_from_carried (mem : Nat → Option Nat) (fuel : Nat)
    (lists : List free_list_value) :
    ∀ (k index : Nat) (st st1 : HeapState) (b : Bool),
      thread_cache_lists_from mem fuel lists k index st = Outcome.ret (st1, b) →
      carried_over st st1 := by
  intro k
  induction k with
  | zero =>
    intro index st st1 b h
    simp only [thread_cache_lists_from, Outcome.ret.injEq, Prod.mk.injEq] at h
    rw [← h.1]; exact carried_refl st
  | succ n ih =>
    intro index st st1 b h
    unfold thread_cache_lists_from at h
    split at h
    · simp at h
    · split at h
      · simp at h
      · simp at h
      · rename_i st2 heq
        simp only [Outcome.ret.injEq, Prod.mk.injEq] at h
        rw [← h.1]; exact thread_cache_chain_carried _ _ _ _ _ _ _ _ heq
      · rename_i st2 heq
        exact carried_trans (thread_cache_chain_carried _ _ _ _ _ _ _ _ heq) (ih _ _ _ _ h)

theorem class_count_carried (st : HeapState) (n : Nat) :
    carried_over st
      (if st.g_config.kNumClasses = 0 then
        { st with g_config := { st.g_config with kNumClasses := n } }
       else st) := by
  split
  · exact ⟨rfl, List.prefix_refl _, List.prefix_refl _⟩
  · exact carried_refl st

theorem parse_thread_caches_carried (mem : Nat → Option Nat) (fuel : Nat) :
    ∀ (caches : List (List free_list_value)) (st st1 : HeapState) (b : Bool),
      parse_thread_caches mem fuel caches st = Outcome.ret (st1, b) → carried_over st st1 := by
  intro caches
  induction caches with
  | nil =>
    intro st st1 b h
    simp only [parse_thread_caches, Outcome.ret.injEq, Prod.mk.injEq] at h
    rw [← h.1]; exact carried_refl st
  | cons lists rest ih =>
    intro st st1 b h
    unfold parse_thread_caches at h
    split at h
    · simp only [Outcome.ret.injEq, Prod.mk.injEq] at h
      rw [← h.1]; exact carried_refl st
    · have h0 := class_count_carried st lists.length
      split at h
      · simp at h
      · simp at h
      · rename_i st2 heq
        simp only [Outcome.ret.injEq, Prod.mk.injEq] at h
        rw [← h.1]
        exact carried_trans h0 (thread_cache_lists_from_carried _ _ _ _ _ _ _ _ heq)
      · rename_i st2 heq
        exact carried_trans
          (carried_trans h0 (thread_cache_lists_from_carried _ _ _ _ _ _ _ _ heq)) (ih _ _ _ h)

theorem parse_thread_cache_carried (img : process_image) (mem : Nat → Option Nat)
    (fuel : Nat) (st st1 : HeapState) (b : Bool)
    (h : parse_thread_cache img mem fuel st = Outcome.ret (st1, b)) : carried_over st st1 := by
  unfold parse_thread_cache at h
  split at h
  · simp only [Outcome.ret.injEq, Prod.mk.injEq] at h
    rw [← h.1]; exact carried_refl st
  · exact parse_thread_caches_carried _ _ _ _ _ _ h

theorem tcentry_chain_carried (mem : Nat → Option Nat) (tail : Nat) :
    ∀ (fuel count head : Nat) (st st1 : HeapState) (c : Nat) (b : Bool),
      tcentry_chain mem tail fuel count head st = Outcome.ret (st1, c, b) →
      carried_over st st1 := by
  intro fuel
  induction fuel with
  | zero => intro count head st st1 c b h; simp [tcentry_chain] at h
  | succ n ih =>
    intro count head st st1 c b h
    unfold tcentry_chain at h
    split at h
    · simp only [Outcome.ret.injEq, Prod.mk.injEq] at h
      rw [← h.1]; exact carried_refl st
    · have h1 := cached_block_add_carried st head
      split at h
      · rename_i st2 heq
        rw [heq] at h1
        simp only [Outcome.ret.injEq, Prod.mk.injEq] at h
        rw [← h.1]; exact h1
      · rename_i st2 heq
        rw [heq] at h1
        split at h
        · simp only [Outcome.ret.injEq, Prod.mk.injEq] at h
          rw [← h.1]; exact h1
        · split at h
          · simp only [Outcome.ret.injEq, Prod.mk.injEq] at h
            rw [← h.1]; exact h1
          · split at h
            · simp at h
            · exact carried_trans h1 (ih _ _ _ _ _ _ h)

theorem parse_tcentry_carried (mem : Nat → Option Nat) (tcentry : tc_entry_value)
    (e : Bool) (st st1 : HeapState) (e1 b : Bool)
    (h : parse_central_freelist_tcentry mem tcentry e st = Outcome.ret (st1, e1, b)) :
    carried_over st st1 := by
  unfold parse_central_freelist_tcentry at h
  split at h
  · simp at h
  · simp at h
  · rename_i st2 _ heq
    simp only [Outcome.ret.injEq, Prod.mk.injEq] at h
    rw [← h.1]; exact tcentry_chain_carried _ _ _ _ _ _ _ _ _ heq
  · rename_i st2 _ heq
    simp only [Outcome.ret.injEq, Prod.mk.injEq] at h
    rw [← h.1]; exact tcentry_chain_carried _ _ _ _ _ _ _ _ _ heq

theorem parse_central_freelist_carried (mem : Nat → Option Nat) :
    ∀ (slots : List tc_entry_value) (st st1 : HeapState) (b : Bool),
      parse_central_freelist mem slots st = Outcome.ret (st1, b) → carried_over st st1 := by
  intro slots
  induction slots with
  | nil =>
    intro st st1 b h
    simp only [parse_central_freelist, Outcome.ret.injEq, Prod.mk.injEq] at h
    rw [← h.1]; exact carried_refl st
  | cons tcentry rest ih =>
    intro st st1 b h
    unfold parse_central_freelist at h
    split at h
    · simp at h
    · simp at h
    · rename_i st2 _ heq
      simp only [Outcome.ret.injEq, Prod.mk.injEq] at h
      rw [← h.1]; exact parse_tcentry_carried _ _ _ _ _ _ _ heq
    · rename_i st2 _ heq
      exact carried_trans (parse_tcentry_carried _ _ _ _ _ _ _ heq) (ih _ _ _ h)

theorem parse_central_freelists_carried (mem : Nat → Option Nat) :
    ∀ (cache : List (List tc_entry_value)) (st st1 : HeapState) (b : Bool),
      parse_central_freelists mem cache st = Outcome.ret (st1, b) → carried_over st st1 := by
  intro cache
  induction cache with
  | nil =>
    intro st st1 b h
    simp only [parse_central_freelists, Outcome.ret.injEq, Prod.mk.injEq] at h
    rw [← h.1]; exact carried_refl st
  | cons cfl rest ih =>
    intro st st1 b h
    unfold parse_central_freelists at h
    split at h
    · simp at h
    · simp at h
    · rename_i st2 heq
      simp only [Outcome.ret.injEq, Prod.mk.injEq] at h
      rw [← h.1]; exact parse_central_freelist_carried _ _ _ _ _ heq
    · rename_i st2 heq
      exact carried_trans (parse_central_freelist_carried _ _ _ _ _ heq) (ih _ _ _ h)

theorem parse_central_cache_carried (img : process_image) (mem : Nat → Option Nat)
    (st st1 : HeapState) (b : Bool)
    (h : parse_central_cache img mem st = Outcome.ret (st1, b)) : carried_over st st1 := by
  unfold parse_central_cache at h
  split at h
  · simp only [Outcome.ret.injEq, Prod.mk.injEq] at h
    rw [← h.1]; exact carried_refl st
  · rename_i cache _
    split at h
    · simp only [Outcome.ret.injEq, Prod.mk.injEq] at h
      rw [← h.1]; exact carried_refl st
    · exact carried_trans (class_count_carried st cache.length)
        (parse_central_freelists_carried _ _ _ _ _ h)

/-- Whatever `init_heap` returns, the span table it found is still at the front of the
table it leaves, the cached blocks it found are still among those it leaves, and the
ready flag is as before unless the call returns true. -/
theorem init_heap_carried (img : process_image) (mem : Nat → Option Nat) (fuel : Nat)
    (st st1 : HeapState) (b : Bool) (h : init_heap img mem fuel st = Outcome.ret (st1, b)) :
    (b = false → st1.g_initialized = st.g_initialized) ∧ st.g_spans <+: st1.g_spans ∧
      List.Subperm st.g_cached_blocks st1.g_cached_blocks := by
  unfold init_heap at h
  have h1 := parse_config_carried img st
  split at h
  · rename_i st1a heq
    rw [heq] at h1
    simp only [Outcome.ret.injEq, Prod.mk.injEq] at h
    rw [← h.1]
    exact ⟨fun _ => h1.1, h1.2.1, h1.2.2.sublist.subperm⟩
  · rename_i st1a heq
    rw [heq] at h1
    have h2 := parse_pagemap_carried img st1a
    split at h
    · rename_i st2 heq2
      rw [heq2] at h2
      have h12 := carried_trans h1 h2
      simp only [Outcome.ret.injEq, Prod.mk.injEq] at h
      rw [← h.1]
      exact ⟨fun _ => h12.1, h12.2.1, h12.2.2.sublist.subperm⟩
    · rename_i st2 heq2
      rw [heq2] at h2
      have h12 := carried_trans h1 h2
      split at h
      · simp at h
      · simp at h
      · rename_i st3 heq3
        have h13 := carried_trans h12 (parse_thread_cache_carried _ _ _ _ _ _ heq3)
        simp only [Outcome.ret.injEq, Prod.mk.injEq] at h
        rw [← h.1]
        exact ⟨fun _ => h13.1, h13.2.1, h13.2.2.sublist.subperm⟩
      · rename_i st3 heq3
        have h13 := carried_trans h12 (parse_thread_cache_carried _ _ _ _ _ _ heq3)
        split at h
        · simp at h
        · simp at h
        · rename_i st4 heq4
          have h14 := carried_trans h13 (parse_central_cache_carried _ _ _ _ _ heq4)
          simp only [Outcome.ret.injEq, Prod.mk.injEq] at h
          rw [← h.1]
          exact ⟨fun _ => h14.1, h14.2.1, h14.2.2.sublist.subperm⟩
        · rename_i st4 heq4
          have h14 := carried_trans h13 (parse_central_cache_carried _ _ _ _ _ heq4)
          have hp : List.Subperm st.g_cached_blocks (qsort_cached_blocks st4.g_cached_blocks) :=
            h14.2.2.sublist.subperm.trans (List.perm_insertionSort _ _).symm.subperm
          split at h
          · simp only [Outcome.ret.injEq, Prod.mk.injEq] at h
            rw [← h.1]
            exact ⟨fun _ => h14.1, h14.2.1, hp⟩
          · simp only [Outcome.ret.injEq, Prod.mk.injEq] at h
            rw [← h.1]
            exact ⟨fun hb => by rw [hb] at h; simp at h, h14.2.1, hp⟩

/-! ### Calling `span_populate_free_bitmap` and `walk_inuse_blocks` again -/

/-- A span that `span_populate_free_bitmap` has returned is one the function leaves
alone: it has a bitmap, or it is not subdivided, or it is not in use. -/
theorem populate_result_settled (st : HeapState) (mem : Nat → Option Nat) (fuel : Nat)
    (s s1 : ca_span) (b : Bool)
    (h : span_populate_free_bitmap st mem fuel s = Outcome.ret (s1, b)) :
    s1.bitmap ≠ none ∨ s1.sizeclass = 0 ∨ s1.location ≠ IN_USE := by
  unfold span_populate_free_bitmap at h
  split at h
  · rename_i hc
    simp only [Outcome.ret.injEq, Prod.mk.injEq] at h
    rw [← h.1]; exact hc
  · split at h
    · simp at h
    · split at h
      · simp at h
      · split at h
        · simp at h
        · simp at h
        · split at h
          · simp at h
          · simp at h
          · simp only [Outcome.ret.injEq, Prod.mk.injEq] at h
            rw [← h.1]
            exact Or.inl (by simp)

theorem populate_again (st : HeapState) (mem : Nat → Option Nat) (fuel : Nat)
    (s s1 : ca_span) (b : Bool)
    (h : span_populate_free_bitmap st mem fuel s = Outcome.ret (s1, b))
    (st2 : HeapState) (mem2 : Nat → Option Nat) (fuel2 : Nat) :
    span_populate_free_bitmap st2 mem2 fuel2 s1 = Outcome.ret (s1, true) :=
  populate_noop st2 mem2 fuel2 s1 (populate_result_settled st mem fuel s s1 b h)

theorem span_entries_congr (st st2 : HeapState) (hc : st2.g_config = st.g_config)
    (s : ca_span) : span_entries st2 s = span_entries st s := by
  unfold span_entries
  rw [hc]

theorem walk_spans_again (st : HeapState) (mem : Nat → Option Nat) (fuel : Nat)
    (st2 : HeapState) (hc : st2.g_config = st.g_config) (mem2 : Nat → Option Nat)
    (fuel2 : Nat) :
    ∀ (spans spans1 : List ca_span) (es : List inuse_block),
      walk_spans st mem fuel spans = Outcome.ret (spans1, es) →
      walk_spans st2 mem2 fuel2 spans1 = Outcome.ret (spans1, es) := by
  intro spans
  induction spans with
  | nil =>
    intro spans1 es h
    simp only [walk_spans, Outcome.ret.injEq, Prod.mk.injEq] at h
    rw [← h.1, ← h.2]
    rfl
  | cons span rest ih =>
    intro spans1 es h
    unfold walk_spans at h
    split at h
    · simp at h
    · simp at h
    · rename_i span1 b hp
      split at h
      · simp at h
      · simp at h
      · rename_i es0 he
        split at h
        · simp at h
        · simp at h
        · rename_i rest1 es1 hw
          simp only [Outcome.ret.injEq, Prod.mk.injEq] at h
          rw [← h.1, ← h.2]
          unfold walk_spans
          rw [populate_again st mem fuel span span1 b hp st2 mem2 fuel2]
          simp only
          rw [span_entries_congr st st2 hc, he]
          simp only
          rw [ih rest1 es1 hw]

theorem populate_times_settled (st : HeapState) (mem : Nat → Option Nat) (fuel : Nat)
    (s : ca_span) (h : s.bitmap ≠ none ∨ s.sizeclass = 0 ∨ s.location ≠ IN_USE) :
    ∀ k : Nat, populate_times st mem fuel k s = Outcome.ret s := by
  intro k
  induction k with
  | zero => rfl
  | succ n ih =>
    unfold populate_times
    rw [populate_noop st mem fuel s h]
    exact ih

/-! ### Chains of cached blocks -/

theorem with_cached_nil (st : HeapState) : with_cached st [] = st := by
  unfold with_cached
  simp

theorem chain_nodes_length (mem : Nat → Option Nat) (tail : Nat) :
    ∀ (k head : Nat), (chain_nodes mem tail k head).length ≤ k := by
  intro k
  induction k with
  | zero => intro head; simp [chain_nodes]
  | succ n ih =>
    intro head
    unfold chain_nodes
    split
    · simp
    · split
      · simp
      · split
        · simp
        · rename_i next _
          have := ih next
          simp only [List.length_cons]
          omega

theorem chain_nodes_one (mem : Nat → Option Nat) (tail head : Nat) (h0 : head ≠ 0) :
    chain_nodes mem tail 1 head = [head] := by
  unfold chain_nodes
  rw [if_neg h0]
  split
  · rfl
  · split
    · rfl
    · unfold chain_nodes; rfl

/-- The loop of `parse_central_freelist_tcentry` with `r` more nodes admissible: it
appends the first `r + 1` nodes of the chain at most, and fails exactly when there are
that many. -/
theorem tcentry_chain_spec (mem : Nat → Option Nat) (tail : Nat) :
    ∀ (r fuel count head : Nat) (st : HeapState), count + r = 1024 → r < fuel →
      links_readable mem tail r head = true →
      tcentry_chain mem tail fuel count head st =
        Outcome.ret (with_cached st (chain_nodes mem tail (r + 1) head),
          count + (chain_nodes mem tail (r + 1) head).length,
          decide ((chain_nodes mem tail (r + 1) head).length ≤ r)) := by
  intro r
  induction r with
  | zero =>
    intro fuel count head st hc hf _
    obtain ⟨f, rfl⟩ : ∃ f, fuel = f + 1 := ⟨fuel - 1, by omega⟩
    by_cases h0 : head = 0
    · unfold tcentry_chain chain_nodes
      rw [if_pos h0, if_pos h0, with_cached_nil]
      rfl
    · rw [chain_nodes_one mem tail head h0]
      unfold tcentry_chain
      rw [if_neg h0]
      simp only [cached_block_add]
      rw [if_pos (by omega)]
      rfl
  | succ n ih =>
    intro fuel count head st hc hf hr
    obtain ⟨f, rfl⟩ : ∃ f, fuel = f + 1 := ⟨fuel - 1, by omega⟩
    by_cases h0 : head = 0
    · unfold tcentry_chain chain_nodes
      rw [if_pos h0, if_pos h0, with_cached_nil]
      rfl
    · unfold links_readable at hr
      unfold tcentry_chain chain_nodes
      rw [if_neg h0, if_neg h0]
      simp only [cached_block_add]
      rw [if_neg (by omega)]
      by_cases ht : head = tail
      · rw [if_pos ht, if_pos ht]
        simp [with_cached]
      · rw [if_neg ht, if_neg ht]
        rw [if_neg (by simp [h0, ht])] at hr
        cases hm : mem head with
        | none => rw [hm] at hr; simp at hr
        | some next =>
          rw [hm] at hr
          simp only at hr ⊢
          rw [ih f (count + 1) next _ (by omega) (by omega) hr]
          simp [with_cached]
          omega

/-- A chain that ends within the bound is the same under every larger bound. -/
theorem chain_nodes_stable (mem : Nat → Option Nat) (tail : Nat) :
    ∀ (k head : Nat), (chain_nodes mem tail k head).length < k →
      ∀ k2 : Nat, k ≤ k2 → chain_nodes mem tail k2 head = chain_nodes mem tail k head := by
  intro k
  induction k with
  | zero => intro head h; simp at h
  | succ n ih =>
    intro head h k2 hk
    obtain ⟨m, rfl⟩ : ∃ m, k2 = m + 1 := ⟨k2 - 1, by omega⟩
    unfold chain_nodes at h ⊢
    split
    · rfl
    · rename_i h0
      rw [if_neg h0] at h
      split
      · rfl
      · rename_i ht
        rw [if_neg ht] at h
        cases hm : mem head with
        | none => rfl
        | some next =>
          rw [hm] at h
          simp only [List.length_cons] at h
          simp only
          rw [ih next (by omega) m (by omega)]

/-- The chain under a smaller bound is the front of the chain under a larger one. -/
theorem chain_nodes_take (mem : Nat → Option Nat) (tail : Nat) :
    ∀ (k j head : Nat), (chain_nodes mem tail k head).take j =
      chain_nodes mem tail (min k j) head := by
  intro k
  induction k with
  | zero => intro j head; simp [chain_nodes]
  | succ n ih =>
    intro j head
    cases j with
    | zero => simp [chain_nodes]
    | succ m =>
      rw [Nat.succ_min_succ]
      unfold chain_nodes
      split
      · rfl
      · split
        · simp
        · cases hm : mem head with
          | none => simp
          | some next =>
            simp only [List.take_succ_cons]
            rw [ih m next]

/-- From any of its nodes on, a chain is the chain that starts at that node. -/
theorem chain_nodes_from_member (mem : Nat → Option Nat) (tail : Nat) :
    ∀ (k head x : Nat), x ∈ chain_nodes mem tail k head →
      ∃ pre : List Nat, pre.length < k ∧
        chain_nodes mem tail k head = pre ++ chain_nodes mem tail (k - pre.length) x := by
  intro k
  induction k with
  | zero => intro head x h; simp [chain_nodes] at h
  | succ n ih =>
    intro head x h
    by_cases hx : x = head
    · subst hx
      exact ⟨[], by simp, by simp⟩
    · unfold chain_nodes at h
      split at h
      · simp at h
      · rename_i h0
        split at h
        · simp [hx] at h
        · rename_i ht
          cases hm : mem head with
          | none => rw [hm] at h; simp [hx] at h
          | some next =>
            rw [hm] at h
            simp only [List.mem_cons, hx, false_or] at h
            obtain ⟨pre, hp, he⟩ := ih next x h
            refine ⟨head :: pre, by simp only [List.length_cons]; omega, ?_⟩
            conv => lhs; unfold chain_nodes
            rw [if_neg h0, if_neg ht, hm]
            simp only [List.length_cons, List.cons_append, Nat.add_sub_add_right]
            rw [← he]

/-- A chain that ends within the bound visits no node twice. -/
theorem chain_nodes_nodup (mem : Nat → Option Nat) (tail : Nat) :
    ∀ (k head : Nat), (chain_nodes mem tail k head).length < k →
      (chain_nodes mem tail k head).Nodup := by
  intro k
  induction k with
  | zero => intro head h; simp at h
  | succ n ih =>
    intro head h
    unfold chain_nodes at h ⊢
    split
    · exact List.nodup_nil
    · rename_i h0
      rw [if_neg h0] at h
      split
      · simp
      · rename_i ht
        rw [if_neg ht] at h
        cases hm : mem head with
        | none => simp
        | some next =>
          rw [hm] at h
          simp only [List.length_cons] at h
          simp only
          have hlen : (chain_nodes mem tail n next).length < n := by omega
          refine List.nodup_cons.mpr ⟨?_, ih next hlen⟩
          intro hin
          obtain ⟨pre, hp, he⟩ := chain_nodes_from_member mem tail n next head hin
          have hl1 : (chain_nodes mem tail n next).length =
              pre.length + (chain_nodes mem tail (n - pre.length) head).length := by
            conv => lhs; rw [he]
            rw [List.length_append]
          have hl2 : (chain_nodes mem tail (n - pre.length) head).length < n - pre.length := by
            omega
          have h3 := chain_nodes_stable mem tail (n - pre.length) head hl2 (n + 1) (by omega)
          have h4 : (chain_nodes mem tail (n + 1) head).length
              = (chain_nodes mem tail n next).length + 1 := by
            conv => lhs; unfold chain_nodes
            rw [if_neg h0, if_neg ht, hm]
            rfl
          rw [h3] at h4
          omega

/-- The loop of `parse_thread_cache_lists` over one free list, with `r` more nodes to
go before the count passes the recorded length: it appends the first `r + 1` nodes of the
chain at most. -/
theorem thread_cache_chain_spec (mem : Nat → Option Nat) (len : Nat)
    (hlen : len + 1 < UINT_MOD) :
    ∀ (r fuel count list : Nat) (st : HeapState), count + r = len → r < fuel →
      links_readable mem 0 r list = true →
      thread_cache_chain mem len fuel count list st =
        Outcome.ret (with_cached st (chain_nodes mem 0 (r + 1) list), true) := by
  intro r
  induction r with
  | zero =>
    intro fuel count list st hc hf _
    obtain ⟨f, rfl⟩ : ∃ f, fuel = f + 1 := ⟨fuel - 1, by omega⟩
    by_cases h0 : list = 0
    · unfold thread_cache_chain chain_nodes
      rw [if_pos h0, if_pos h0, with_cached_nil]
    · rw [chain_nodes_one mem 0 list h0]
      unfold thread_cache_chain
      rw [if_neg h0]
      simp only [cached_block_add]
      rw [Nat.mod_eq_of_lt (by omega), if_pos (by omega)]
      rfl
  | succ n ih =>
    intro fuel count list st hc hf hr
    obtain ⟨f, rfl⟩ : ∃ f, fuel = f + 1 := ⟨fuel - 1, by omega⟩
    by_cases h0 : list = 0
    · unfold thread_cache_chain chain_nodes
      rw [if_pos h0, if_pos h0, with_cached_nil]
    · unfold links_readable at hr
      unfold thread_cache_chain chain_nodes
      rw [if_neg h0, if_neg h0, if_neg h0]
      simp only [cached_block_add]
      rw [Nat.mod_eq_of_lt (by omega), if_neg (by omega)]
      rw [if_neg (by simp [h0])] at hr
      cases hm : mem list with
      | none => rw [hm] at hr; simp at hr
      | some next =>
        rw [hm] at hr
        simp only at hr ⊢
        rw [ih f (count + 1) next _ (by omega) (by omega) hr]
        simp [with_cached]

theorem with_cached_append (st : HeapState) (a b : List Nat) :
    with_cached (with_cached st a) b = with_cached st (a ++ b) := by
  unfold with_cached
  simp

theorem thread_cache_lists_from_spec (mem : Nat → Option Nat) (fuel : Nat)
    (lists : List free_list_value)
    (hl : ∀ fl ∈ lists, fl.length_ + 1 < UINT_MOD)
    (hr : ∀ fl ∈ lists, links_readable mem 0 fl.length_ fl.list_ = true)
    (hf : ∀ fl ∈ lists, fl.length_ < fuel) :
    ∀ (k index : Nat) (st : HeapState), index + k = lists.length →
      thread_cache_lists_from mem fuel lists k index st =
        Outcome.ret
          (with_cached st ((lists.drop index).flatMap (thread_list_nodes mem)), true) := by
  intro k
  induction k with
  | zero =>
    intro index st hi
    unfold thread_cache_lists_from
    rw [List.drop_of_length_le (by omega)]
    simp [with_cached_nil]
  | succ n ih =>
    intro index st hi
    have hlt : index < lists.length := by omega
    unfold thread_cache_lists_from
    rw [List.getElem?_eq_getElem hlt]
    have hmem : lists[index] ∈ lists := List.getElem_mem hlt
    have hmod : lists[index].length_ % UINT_MOD = lists[index].length_ :=
      Nat.mod_eq_of_lt (by have := hl _ hmem; omega)
    simp only
    rw [hmod, thread_cache_chain_spec mem _ (hl _ hmem) lists[index].length_ fuel 0
      lists[index].list_ st (by omega) (hf _ hmem) (hr _ hmem)]
    simp only
    rw [ih (index + 1) _ (by omega), with_cached_append]
    rw [List.drop_eq_getElem_cons hlt, List.flatMap_cons]
    rfl

/-! ### The check of the cached blocks -/

theorem cached_block_compare_le (la ra : Nat) : cached_block_compare la ra ≤ 0 ↔ la ≤ ra := by
  unfold cached_block_compare
  split <;> split <;> simp <;> omega

theorem qsort_cached_blocks_perm (l : List Nat) : (qsort_cached_blocks l).Perm l :=
  List.perm_insertionSort _ l

theorem qsort_cached_blocks_sorted (l : List Nat) :
    List.Sorted (· ≤ ·) (qsort_cached_blocks l) := by
  have htotal : IsTotal Nat (fun la ra => cached_block_compare la ra ≤ 0) :=
    ⟨fun a b => by
      simp only [cached_block_compare_le]
      exact Nat.le_total a b⟩
  have htrans : IsTrans Nat (fun la ra => cached_block_compare la ra ≤ 0) :=
    ⟨fun a b c => by
      simp only [cached_block_compare_le]
      exact Nat.le_trans⟩
  have h := List.sorted_insertionSort (fun la ra => cached_block_compare la ra ≤ 0) l
  exact List.Pairwise.imp (fun {a b} hab => (cached_block_compare_le a b).mp hab) h

theorem cached_order_check_sorted : ∀ (l : List Nat), List.Sorted (· ≤ ·) l →
    cached_order_check l = true := by
  intro l
  induction l with
  | nil => intro _; rfl
  | cons a rest ih =>
    intro h
    cases rest with
    | nil => rfl
    | cons b rest =>
      have h2 := List.sorted_cons.mp h
      unfold cached_order_check
      rw [if_neg (by have := h2.1 b (List.mem_cons_self _ _); omega)]
      exact ih h2.2

theorem cached_query_check_iff (st : HeapState) : ∀ (l : List Nat),
    cached_query_check st l = true ↔
      ∀ a ∈ l, is_block_cached st a = true ∧ is_block_cached st (add64 a 1) = false := by
  intro l
  induction l with
  | nil => simp [cached_query_check]
  | cons x rest ih =>
    unfold cached_query_check
    cases h1 : is_block_cached st x with
    | false =>
      rw [if_pos rfl]
      constructor
      · intro h; cases h
      · intro h
        have := (h x (List.mem_cons_self _ _)).1
        rw [h1] at this
        cases this
    | true =>
      rw [if_neg (by simp)]
      cases h2 : is_block_cached st (add64 x 1) with
      | true =>
        rw [if_pos rfl]
        constructor
        · intro h; cases h
        · intro h
          have := (h x (List.mem_cons_self _ _)).2
          rw [h2] at this
          cases this
      | false =>
        rw [if_neg (by simp), ih]
        constructor
        · intro h a ha
          rcases List.mem_cons.mp ha with e | e
          · subst e; exact ⟨h1, h2⟩
          · exact h a e
        · intro h a ha
          exact h a (List.mem_cons_of_mem _ ha)

theorem add64_one_ne (a : Nat) : add64 a 1 ≠ a := by
  unfold add64
  rw [ulong_mod_eq]
  omega

/-- The cached blocks are accepted after the sort exactly when no cached address has its
successor address cached as well. -/
theorem verify_cached_iff (st : HeapState) (l : List Nat) :
    verify_sorted_cached_blocks { st with g_cached_blocks := qsort_cached_blocks l } = true ↔
      ∀ a ∈ l, add64 a 1 ∉ l := by
  have hs := qsort_cached_blocks_sorted l
  have hp := qsort_cached_blocks_perm l
  have hspec := is_block_cached_spec
    { st with g_cached_blocks := qsort_cached_blocks l } hs
  have hq : cached_query_check { st with g_cached_blocks := qsort_cached_blocks l }
      (qsort_cached_blocks l) = true ↔ ∀ a ∈ l, add64 a 1 ∉ l := by
    rw [cached_query_check_iff]
    constructor
    · intro h a ha hn
      have h1 := (h a (hp.mem_iff.mpr ha)).2
      have h2 := (hspec (add64 a 1)).mpr (hp.mem_iff.mpr hn)
      rw [h1] at h2
      cases h2
    · intro h a ha
      refine ⟨(hspec a).mpr ha, ?_⟩
      cases h2 : is_block_cached { st with g_cached_blocks := qsort_cached_blocks l }
          (add64 a 1) with
      | false => rfl
      | true =>
        exact absurd (hp.mem_iff.mp ((hspec _).mp h2)) (h a (hp.mem_iff.mp ha))
  unfold verify_sorted_cached_blocks
  simp only
  split
  · rename_i hlen
    simp only [true_iff]
    rw [hp.length_eq] at hlen
    match l, hlen with
    | [], _ => simp
    | [x], _ =>
      intro a ha
      simp only [List.mem_singleton] at ha ⊢
      subst ha
      exact add64_one_ne a
  · rw [if_neg (by rw [cached_order_check_sorted _ hs]; simp)]
    exact hq

theorem init_heap_after_builders (img : process_image) (mem : Nat → Option Nat) (fuel : Nat)
    (st st1 st2 st3 st4 : HeapState) (h1 : parse_config img st = (st1, true))
    (h2 : parse_pagemap img st1 = (st2, true))
    (h3 : parse_thread_cache img mem fuel st2 = Outcome.ret (st3, true))
    (h4 : parse_central_cache img mem st3 = Outcome.ret (st4, true)) :
    init_heap img mem fuel st =
      if verify_sorted_cached_blocks
            { st4 with g_cached_blocks := qsort_cached_blocks st4.g_cached_blocks } = false ∨
          verify_sorted_spans
            { st4 with g_cached_blocks := qsort_cached_blocks st4.g_cached_blocks } = false then
        Outcome.ret
          ({ st4 with g_cached_blocks := qsort_cached_blocks st4.g_cached_blocks }, false)
      else
        Outcome.ret
          ({ st4 with g_cached_blocks := qsort_cached_blocks st4.g_cached_blocks,
                      g_initialized := true }, true) := by
  unfold init_heap
  rw [h1]
  simp only
  rw [h2]
  simp only
  rw [h3]
  simp only
  rw [h4]

/-! ### The page-skip walk of the page map -/

theorem table_entries_append : ∀ (a b : List span_value)
    (fresh : List (Option (List Nat) × Nat)),
    table_entries fresh (a ++ b) =
      table_entries fresh a ++ table_entries (fresh.drop a.length) b := by
  intro a
  induction a with
  | nil => intro b fresh; simp [table_entries]
  | cons v rest ih =>
    intro b fresh
    rw [List.cons_append, table_entries, table_entries, ih, List.cons_append]
    cases fresh with
    | nil => simp
    | cons f fs => simp

theorem table_entries_members : ∀ (vs : List span_value)
    (fresh : List (Option (List Nat) × Nat)),
    (table_entries fresh vs).map span_members = vs := by
  intro vs
  induction vs with
  | nil => intro fresh; rfl
  | cons v rest ih =>
    intro fresh
    rw [table_entries, List.map_cons, ih]
    rfl

theorem members_start (s : ca_span) : (span_members s).start = s.start := rfl

theorem members_length (s : ca_span) : (span_members s).length = s.length := rfl

theorem with_spans_with_spans (st : HeapState) (a b : List span_value) (s1 s2 : Nat) :
    with_spans (with_spans st a s1) b s2 = with_spans st (a ++ b) s2 := by
  simp only [with_spans, table_entries_append, List.append_assoc, List.drop_drop,
    List.length_append]

theorem with_spans_nil (st : HeapState) : with_spans st [] st.skip_npage = st := by
  simp only [with_spans, table_entries, List.append_nil, List.length_nil, List.drop_zero]

theorem with_spans_skip (st : HeapState) (a : List span_value) (s1 s2 : Nat) :
    with_spans { st with skip_npage := s1 } a s2 = with_spans st a s2 := rfl

theorem parse_span_spec (st : HeapState) (span : span_value) :
    parse_span st span = (with_spans st [span] (sub64 span.length 1), true) := by
  unfold parse_span with_spans
  simp only [table_entries, span_entry, List.length_singleton, List.drop_one]

theorem examined_cons (skip k : Nat) (v : Option span_value)
    (rest : List (Option span_value)) :
    examined_slots skip k (v :: rest) =
      if skip > 0 then examined_slots (skip - 1) (k + 1) rest
      else
        match v with
        | none => examined_slots 0 (k + 1) rest
        | some span => (k, span) :: examined_slots (sub64 span.length 1) (k + 1) rest := by
  conv_lhs => unfold examined_slots

theorem skip_after_cons (skip : Nat) (v : Option span_value)
    (rest : List (Option span_value)) :
    skip_after skip (v :: rest) =
      if skip > 0 then skip_after (skip - 1) rest
      else
        match v with
        | none => skip_after 0 rest
        | some span => skip_after (sub64 span.length 1) rest := by
  conv_lhs => unfold skip_after

theorem examined_append : ∀ (a b : List (Option span_value)) (skip k : Nat),
    examined_slots skip k (a ++ b) =
      examined_slots skip k a ++ examined_slots (skip_after skip a) (k + a.length) b := by
  intro a
  induction a with
  | nil => intro b skip k; simp [examined_slots, skip_after]
  | cons v rest ih =>
    intro b skip k
    have hk : k + 1 + rest.length = k + (rest.length + 1) := by omega
    rw [List.cons_append, examined_cons, examined_cons, skip_after_cons]
    by_cases hsk : skip > 0
    · rw [if_pos hsk, if_pos hsk, if_pos hsk, ih, List.length_cons, hk]
    · rw [if_neg hsk, if_neg hsk, if_neg hsk]
      cases v with
      | none => simp only; rw [ih, List.length_cons, hk]
      | some span => simp only; rw [ih, List.length_cons, hk, List.cons_append]

theorem skip_after_append : ∀ (a b : List (Option span_value)) (skip : Nat),
    skip_after skip (a ++ b) = skip_after (skip_after skip a) b := by
  intro a
  induction a with
  | nil => intro b skip; simp [skip_after]
  | cons v rest ih =>
    intro b skip
    rw [List.cons_append, skip_after_cons, skip_after_cons]
    by_cases hsk : skip > 0
    · rw [if_pos hsk, if_pos hsk, ih]
    · rw [if_neg hsk, if_neg hsk]
      cases v with
      | none => simp only; rw [ih]
      | some span => simp only; rw [ih]

theorem parse_leaf_spec : ∀ (slots : List (Option span_value)) (st : HeapState) (k : Nat),
    parse_leaf st slots =
      (with_spans st ((examined_slots st.skip_npage k slots).map (fun e => e.2))
        (skip_after st.skip_npage slots), true) := by
  intro slots
  induction slots with
  | nil =>
    intro st k
    simp only [parse_leaf, examined_slots, skip_after, List.map_nil, with_spans_nil]
  | cons v rest ih =>
    intro st k
    rw [examined_cons, skip_after_cons]
    unfold parse_leaf
    by_cases hsk : st.skip_npage > 0
    · rw [if_pos hsk, if_pos hsk, if_pos hsk, ih _ (k + 1)]
      rfl
    · rw [if_neg hsk, if_neg hsk, if_neg hsk]
      have h0 : st.skip_npage = 0 := by omega
      cases v with
      | none =>
        simp only
        rw [ih st (k + 1), h0]
      | some span =>
        simp only
        rw [parse_span_spec]
        simp only
        rw [ih _ (k + 1), with_spans_with_spans]
        rfl

theorem parse_pagemap_node_spec :
    ∀ (node : List (Option (List (Option span_value)))) (st : HeapState) (k : Nat),
    parse_pagemap_node st node =
      (with_spans st
        ((examined_slots st.skip_npage k (node_slots node)).map (fun e => e.2))
        (skip_after st.skip_npage (node_slots node)), true) := by
  intro node
  induction node with
  | nil =>
    intro st k
    simp only [parse_pagemap_node, node_slots, examined_slots, skip_after, List.map_nil,
      with_spans_nil]
  | cons leaf rest ih =>
    intro st k
    cases leaf with
    | none => simp only [parse_pagemap_node, node_slots]; exact ih st k
    | some leaf =>
      simp only [parse_pagemap_node, node_slots]
      rw [parse_leaf_spec leaf st k]
      simp only
      rw [ih _ (k + leaf.length), with_spans_with_spans, examined_append, skip_after_append,
        List.map_append]
      rfl

theorem parse_pagemap_root_spec :
    ∀ (root : List (Option (List (Option (List (Option span_value)))))) (st : HeapState)
      (k : Nat),
    parse_pagemap_root st root =
      (with_spans st
        ((examined_slots st.skip_npage k (page_slots root)).map (fun e => e.2))
        (skip_after st.skip_npage (page_slots root)), true) := by
  intro root
  induction root with
  | nil =>
    intro st k
    simp only [parse_pagemap_root, page_slots, examined_slots, skip_after, List.map_nil,
      with_spans_nil]
  | cons node rest ih =>
    intro st k
    cases node with
    | none => simp only [parse_pagemap_root, page_slots]; exact ih st k
    | some node =>
      simp only [parse_pagemap_root, page_slots]
      rw [parse_pagemap_node_spec node st k]
      simp only
      rw [ih _ (k + (node_slots node).length), with_spans_with_spans, examined_append,
        skip_after_append, List.map_append]
      rfl

theorem examined_lower : ∀ (slots : List (Option span_value)) (skip k : Nat),
    ∀ e ∈ examined_slots skip k slots, k + skip ≤ e.1 := by
  intro slots
  induction slots with
  | nil => intro skip k e he; simp [examined_slots] at he
  | cons v rest ih =>
    intro skip k e he
    unfold examined_slots at he
    by_cases hsk : skip > 0
    · rw [if_pos hsk] at he
      have := ih _ _ e he
      omega
    · rw [if_neg hsk] at he
      cases v with
      | none =>
        simp only at he
        have := ih _ _ e he
        omega
      | some span =>
        simp only [List.mem_cons] at he
        rcases he with he | he
        · rw [he]; simp only; omega
        · have := ih _ _ e he
          omega

theorem examined_pairwise : ∀ (slots : List (Option span_value)) (skip k : Nat),
    (∀ e ∈ examined_slots skip k slots, 1 ≤ e.2.length ∧ e.2.length < ULONG_MOD) →
    List.Pairwise (fun a b => a.1 + a.2.length ≤ b.1) (examined_slots skip k slots) := by
  intro slots
  induction slots with
  | nil => intro skip k _; simp [examined_slots]
  | cons v rest ih =>
    intro skip k h
    unfold examined_slots at h ⊢
    by_cases hsk : skip > 0
    · rw [if_pos hsk] at h ⊢
      exact ih _ _ h
    · rw [if_neg hsk] at h ⊢
      cases v with
      | none => simp only at h ⊢; exact ih _ _ h
      | some span =>
        simp only at h ⊢
        have hv := h (k, span) (List.mem_cons_self _ _)
        simp only at hv
        rw [List.pairwise_cons]
        refine ⟨?_, ih _ _ (fun e he => h e (List.mem_cons_of_mem _ he))⟩
        intro e he
        have := examined_lower rest _ _ e he
        rw [sub64_eq hv.1 hv.2] at this
        simp only
        omega

theorem strictMono_add_le {pid : Nat → Nat} (hp : StrictMono pid) (k m : Nat) :
    pid k + m ≤ pid (k + m) := by
  induction m with
  | zero => simp
  | succ m ih =>
    have := hp (show k + m < k + (m + 1) by omega)
    omega

theorem examined_entries {pid : Nat → Nat} (hp : StrictMono pid)
    (slots : List (Option span_value)) (skip k : Nat)
    (h : ∀ e ∈ examined_slots skip k slots,
      e.2.start = pid e.1 ∧ 1 ≤ e.2.length ∧ e.2.length < ULONG_MOD)
    (fresh : List (Option (List Nat) × Nat)) :
    List.Pairwise (fun a b : ca_span => a.start + a.length ≤ b.start)
      (table_entries fresh ((examined_slots skip k slots).map (fun e => e.2))) := by
  have hm : List.Pairwise (fun a b : span_value => a.start + a.length ≤ b.start)
      ((table_entries fresh ((examined_slots skip k slots).map (fun e => e.2))).map
        span_members) := by
    rw [table_entries_members, List.pairwise_map]
    refine List.Pairwise.imp_of_mem ?_
      (examined_pairwise slots skip k (fun e he => (h e he).2))
    intro a b ha hb hab
    rw [(h a ha).1, (h b hb).1]
    have h1 := strictMono_add_le hp a.1 a.2.length
    have h2 := hp.monotone hab
    omega
  rw [List.pairwise_map] at hm
  exact hm

theorem disjoint_sorted {l : List ca_span}
    (h : List.Pairwise (fun a b : ca_span => a.start + a.length ≤ b.start) l)
    (hl : ∀ s ∈ l, 1 ≤ s.length) :
    List.Sorted (· < ·) (l.map ca_span.start) ∧ spans_sorted l ∧
      (l.map span_members).Nodup := by
  refine ⟨?_, ?_, ?_⟩
  · unfold List.Sorted
    rw [List.pairwise_map]
    refine List.Pairwise.imp_of_mem ?_ h
    intro a b ha _ hab
    have := hl a ha
    omega
  · exact List.Pairwise.chain' h
  · unfold List.Nodup
    rw [List.pairwise_map]
    refine List.Pairwise.imp_of_mem ?_ h
    intro a b ha _ hab heq
    have := hl a ha
    have h1 := congrArg span_value.start heq
    rw [members_start, members_start] at h1
    omega

theorem examined_window (slots : List (Option span_value)) (skip k : Nat)
    (h : ∀ e ∈ examined_slots skip k slots, 1 ≤ e.2.length ∧ e.2.length < ULONG_MOD)
    (e : Nat × span_value) (he : e ∈ examined_slots skip k slots) :
    (examined_slots skip k slots).filter
      (fun x => decide (e.1 ≤ x.1 ∧ x.1 < e.1 + e.2.length)) = [e] := by
  have hp := examined_pairwise slots skip k h
  obtain ⟨l1, l2, hl⟩ := List.append_of_mem he
  rw [hl] at hp h ⊢
  rw [List.pairwise_append] at hp
  obtain ⟨_, hp2, hp3⟩ := hp
  rw [List.pairwise_cons] at hp2
  have he1 := (h e (by simp)).1
  rw [List.filter_append, List.filter_cons_of_pos (by simp; omega)]
  have h1 : l1.filter (fun x => decide (e.1 ≤ x.1 ∧ x.1 < e.1 + e.2.length)) = [] := by
    rw [List.filter_eq_nil_iff]
    intro x hx
    have := hp3 x hx e (List.mem_cons_self _ _)
    have := (h x (by simp [hx])).1
    simp only [decide_eq_true_eq]
    omega
  have h2 : l2.filter (fun x => decide (e.1 ≤ x.1 ∧ x.1 < e.1 + e.2.length)) = [] := by
    rw [List.filter_eq_nil_iff]
    intro x hx
    have := hp2.1 x hx
    simp only [decide_eq_true_eq]
    omega
  rw [h1, h2]
  rfl

theorem examined_skipped : ∀ (m k : Nat) (x : Option span_value)
    (post : List (Option span_value)),
    examined_slots m k (List.replicate m x ++ post) = examined_slots 0 (k + m) post := by
  intro m
  induction m with
  | zero => intro k x post; rfl
  | succ m ih =>
    intro k x post
    rw [List.replicate_succ, List.cons_append, examined_cons, if_pos (by omega),
      Nat.add_sub_cancel, ih]
    congr 1
    omega

theorem examined_gap : ∀ (g k : Nat) (post : List (Option span_value)),
    examined_slots 0 k (List.replicate g none ++ post) = examined_slots 0 (k + g) post := by
  intro g
  induction g with
  | zero => intro k post; rfl
  | succ g ih =>
    intro k post
    rw [List.replicate_succ, List.cons_append, examined_cons, if_neg (by omega)]
    simp only
    rw [ih]
    congr 1
    omega

theorem examined_run (k : Nat) (v : span_value) (post : List (Option span_value))
    (hv : 1 ≤ v.length ∧ v.length < ULONG_MOD) :
    examined_slots 0 k (List.replicate v.length (some v) ++ post) =
      (k, v) :: examined_slots 0 (k + v.length) post := by
  obtain ⟨n, hn⟩ : ∃ n, v.length = n + 1 := ⟨v.length - 1, by omega⟩
  have hs : sub64 v.length 1 = n := by rw [sub64_eq hv.1 hv.2]; omega
  rw [hn] at hs ⊢
  rw [List.replicate_succ, List.cons_append, examined_cons, if_neg (by omega)]
  simp only
  rw [hn, hs, examined_skipped]
  have hk : k + 1 + n = k + (n + 1) := by omega
  rw [hk]

theorem examined_tiling : ∀ (spans : List (Nat × span_value)) (k : Nat),
    (∀ gv ∈ spans, 1 ≤ gv.2.length ∧ gv.2.length < ULONG_MOD) →
    (examined_slots 0 k (slots_of_spans spans)).map (fun e => e.2) =
      spans.map (fun gv => gv.2) := by
  intro spans
  induction spans with
  | nil => intro k _; rfl
  | cons gv rest ih =>
    intro k h
    have hv := h gv (List.mem_cons_self _ _)
    have hr : slots_of_spans (gv :: rest) =
        List.replicate gv.1 none ++ (List.replicate gv.2.length (some gv.2) ++
          slots_of_spans rest) := by
      simp only [slots_of_spans, List.flatMap_cons, List.append_assoc]
    rw [hr, examined_gap, examined_run _ _ _ hv, List.map_cons, List.map_cons,
      ih _ (fun x hx => h x (List.mem_cons_of_mem _ hx))]

theorem parse_pagemap_spec (img : process_image)
    (root : List (Option (List (Option (List (Option span_value))))))
    (himg : img.pagemap_ = some root) (st : HeapState) :
    parse_pagemap img st =
      (with_spans st
        ((examined_slots st.skip_npage 0 (page_slots root)).map (fun e => e.2))
        (skip_after st.skip_npage (page_slots root)), true) := by
  unfold parse_pagemap
  rw [himg]
  exact parse_pagemap_root_spec root st 0

/-! ### A cyclic free-object list -/

/-- On the two-node cycle inside the span at `0xB000` the list walk uses up any fuel. -/
theorem walk_objects_cycle :
    ∀ (fuel cursor : Nat) (bm : List Nat), cursor = 0xB020 ∨ cursor = 0xB040 → bm.length = 4 →
      walk_objects ex_mem_cyclic 0xB000 0xC000 32 fuel cursor bm = Outcome.hang := by
  intro fuel
  induction fuel with
  | zero => intro cursor bm _ _; rfl
  | succ n ih =>
    intro cursor bm hc hl
    rcases hc with h | h
    · subst h
      obtain ⟨bm1, h1, h2, _⟩ := bitmap_set_some bm 1 (by rw [hl]; decide)
      unfold walk_objects
      rw [if_neg (by decide), if_neg (by decide), if_neg (by decide)]
      have e : (sub64 0xB020 0xB000 / 32) % UINT_MOD = 1 := by decide
      rw [e, h1]
      have hm : ex_mem_cyclic 0xB020 = some 0xB040 := by decide
      simp only [hm]
      exact ih _ _ (Or.inr rfl) (by rw [h2, hl])
    · subst h
      obtain ⟨bm1, h1, h2, _⟩ := bitmap_set_some bm 2 (by rw [hl]; decide)
      unfold walk_objects
      rw [if_neg (by decide), if_neg (by decide), if_neg (by decide)]
      have e : (sub64 0xB040 0xB000 / 32) % UINT_MOD = 2 := by decide
      rw [e, h1]
      have hm : ex_mem_cyclic 0xB040 = some 0xB020 := by decide
      simp only [hm]
      exact ih _ _ (Or.inl rfl) (by rw [h2, hl])

theorem populate_cycle (fuel : Nat) :
    span_populate_free_bitmap ex_nolink ex_mem_cyclic fuel (ex_span 11 1 0xB020 1 IN_USE) =
      Outcome.hang := by
  rw [populate_unfold ex_nolink ex_mem_cyclic (ex_span 11 1 0xB020 1 IN_USE) (by decide)
    (by decide) (by decide) rfl fuel]
  have h := walk_objects_cycle fuel 0xB020 (List.replicate 4 0) (Or.inl rfl) (by decide)
  have e1 : span_base ex_nolink.g_config (ex_span 11 1 0xB020 1 IN_USE) = 0xB000 := by decide
  have e2 : add64 (span_base ex_nolink.g_config (ex_span 11 1 0xB020 1 IN_USE))
      (mul64 (block_count ex_nolink.g_config (ex_span 11 1 0xB020 1 IN_USE))
        (class_size ex_nolink.g_config (ex_span 11 1 0xB020 1 IN_USE).sizeclass)) = 0xC000 := by
    decide
  have e3 : class_size ex_nolink.g_config (ex_span 11 1 0xB020 1 IN_USE).sizeclass = 32 := by
    decide
  have e4 : bitmap_words ex_nolink.g_config (ex_span 11 1 0xB020 1 IN_USE) = 4 := by decide
  have e5 : (ex_span 11 1 0xB020 1 IN_USE).objects = 0xB020 := rfl
  rw [e2, e1, e3, e4, e5, h]

theorem info_cycle (fuel : Nat) (blk : heap_block) :
    get_heap_block_info ex_mem_cyclic fuel ex_nolink 0xB000 blk = Outcome.hang := by
  have hg : span_get ex_nolink 0xB000 = some 0 := by decide
  unfold get_heap_block_info
  rw [if_neg (by decide), hg]
  have h0 : ex_nolink.g_spans[0]? = some (ex_span 11 1 0xB020 1 IN_USE) := by decide
  simp only [h0]
  rw [if_neg (by decide)]
  have hc : (if (ex_span 11 1 0xB020 1 IN_USE).sizeclass ≠ 0 then
      ex_nolink.g_config.class_to_size[(ex_span 11 1 0xB020 1 IN_USE).sizeclass]?
      else some (shl64 (ex_span 11 1 0xB020 1 IN_USE).length ex_nolink.g_config.kPageShift))
      = some 32 := by decide
  simp only [hc]
  rw [if_neg (by decide), populate_cycle]

theorem first_block_cycle (fuel : Nat) (blk : heap_block) :
    first_block_of_span ex_mem_cyclic fuel ex_nolink 0 blk = Outcome.hang := by
  unfold first_block_of_span
  have h0 : ex_nolink.g_spans[0]? = some (ex_span 11 1 0xB020 1 IN_USE) := by decide
  simp only [h0]
  rw [populate_cycle]

theorem next_cycle (fuel : Nat) (blk : heap_block) :
    get_next_heap_block ex_mem_cyclic fuel ex_nolink 0 blk = Outcome.hang := by
  unfold get_next_heap_block
  rw [if_neg (by decide), if_pos rfl, if_neg (by decide)]
  exact first_block_cycle fuel blk

theorem walk_cycle (fuel : Nat) (has_buffer : Bool) (opCount : Nat) :
    walk_inuse_blocks ex_mem_cyclic fuel ex_nolink has_buffer opCount = Outcome.hang := by
  unfold walk_inuse_blocks
  rw [if_neg (by decide)]
  have h0 : ex_nolink.g_spans = [ex_span 11 1 0xB020 1 IN_USE] := rfl
  rw [h0]
  unfold walk_spans
  rw [populate_cycle]

theorem tcentry_cycle (e : Bool) (st : HeapState) :
    ∃ (st1 : HeapState) (e1 : Bool),
      parse_central_freelist_tcentry ex_mem_cyclic ⟨0xB020, 0⟩ e st =
        Outcome.ret (st1, e1, false) := by
  have h := tcentry_chain_spec ex_mem_cyclic 0 1024 1025 0 0xB020 st (by omega) (by omega)
    (by decide)
  have hl : (chain_nodes ex_mem_cyclic 0 1025 0xB020).length = 1025 := by decide
  unfold parse_central_freelist_tcentry
  simp only
  rw [h, hl]
  exact ⟨_, _, rfl⟩

/-! ### The block of an address -/

/-- In a ready state, for an address covered by an in-use subdivided span: a run of
`get_heap_block_info` that returns has built or found the bitmap, has found the bit of the
block index in one of its words, and returns the block at that index. -/
theorem info_ret_sub (mem : Nat → Option Nat) (n : Nat) (st : HeapState)
    (hr : Ready st) (i : Nat) (s : ca_span) (hs : st.g_spans[i]? = some s) (a : Nat)
    (hc : span_covers s (a >>> st.g_config.kPageShift))
    (hloc : s.location = IN_USE) (hcls : s.sizeclass ≠ 0) (blk : heap_block)
    (r : query_result) (h : get_heap_block_info mem n st a blk = Outcome.ret r) :
    span_populate_free_bitmap st mem n s ≠ Outcome.hang ∧
    (a - span_base st.g_config s) / class_size st.g_config s.sizeclass / UINT_BITS
      < bitmap_words st.g_config s := by
  have hinit : ¬ (st.g_initialized = false) := by rw [hr.1]; simp
  have hwf := hr.2.2 s (List.getElem?_mem hs)
  obtain ⟨b1, b2, _, b4, _, b6⟩ := wf_base hwf
  obtain ⟨c1, c2, c3, c4, c5, c6⟩ := wf_class hwf hloc hcls
  obtain ⟨k1, k2⟩ := covers_bounds hc
  have hget := ready_span_get hr hs hc
  obtain ⟨e1, e2⟩ := block_addr_index c2 k1 k2 b4 c4
  unfold get_heap_block_info at h
  rw [if_neg hinit, hget] at h
  simp only [hs] at h
  rw [if_neg (by rw [hloc]; simp), if_pos hcls, c1] at h
  simp only at h
  rw [if_neg (by omega)] at h
  have hend : span_populate_free_bitmap st mem n s ≠ Outcome.hang := by
    intro hh
    rw [hh] at h
    cases h
  refine ⟨hend, ?_⟩
  obtain ⟨bm, hlen, hor, hpop⟩ := populate_ready st mem n s hwf hloc hcls hend
  rw [hpop n (Nat.le_refl _)] at h
  simp only at h
  unfold span_block_free at h
  simp only at h
  rw [if_neg (by rw [hloc]; simp), if_neg hcls, c1] at h
  simp only at h
  rw [if_neg (by omega), b1, e1, e2] at h
  by_contra hidx
  rw [bitmap_test_none bm _ (by rw [hlen]; omega)] at h
  cases h

/-- In a ready state, at an address covered by an in-use subdivided span that has its
bitmap, `get_heap_block_info` returns the block of the address for every fuel and leaves
the state as it is, provided the bit of the block index lies in a word of the bitmap. -/
theorem info_settled (mem : Nat → Option Nat) (st : HeapState) (hr : Ready st) (i : Nat)
    (s : ca_span) (hs : st.g_spans[i]? = some s) (a : Nat)
    (hc : span_covers s (a >>> st.g_config.kPageShift))
    (hloc : s.location = IN_USE) (hcls : s.sizeclass ≠ 0) (bm : List Nat)
    (hb : s.bitmap = some bm)
    (hidx : (a - span_base st.g_config s) / class_size st.g_config s.sizeclass / UINT_BITS
      < bitmap_words st.g_config s) (fuel : Nat) (blk : heap_block) :
    get_heap_block_info mem fuel st a blk = Outcome.ret
      ⟨st, { addr := a - (a - span_base st.g_config s) % class_size st.g_config s.sizeclass,
             size := class_size st.g_config s.sizeclass,
             inuse := !(bitmap_bit bm
               ((a - span_base st.g_config s) / class_size st.g_config s.sizeclass)) },
        true⟩ := by
  have hwf := hr.2.2 s (List.getElem?_mem hs)
  obtain ⟨bm1, hor, _, hinfo⟩ := info_subdivided mem 0 st hr i s hs a hc hloc hcls
    (populate_existing st mem 0 s bm hb) hidx
  have hbm : bm1 = bm := by
    rcases hor with h3 | h3
    · rw [hb] at h3; cases h3
    · rw [hb] at h3
      exact (Option.some.inj h3).symm
  subst hbm
  rw [hinfo fuel (Nat.zero_le _) blk, span_eq_of_bitmap hwf hloc hcls hb (Or.inr hb),
    set_same _ _ _ hs]

theorem block_of_offset {base B a a2 : Nat} (hB : 0 < B) (h1 : base ≤ a)
    (h2 : a - (a - base) % B ≤ a2) (h3 : a2 < a - (a - base) % B + B) :
    (a2 - base) / B = (a - base) / B ∧ a2 - (a2 - base) % B = a - (a - base) % B ∧
      base ≤ a2 := by
  have hm := Nat.mod_add_div (a - base) B
  have hlt := Nat.mod_lt (a - base) hB
  have e : a - (a - base) % B = base + B * ((a - base) / B) := by omega
  rw [e] at h2 h3
  have hb : base ≤ a2 := by omega
  have hq : (a2 - base) / B = (a - base) / B := by
    apply Nat.div_eq_of_lt_le
    · rw [Nat.mul_comm]; omega
    · rw [Nat.succ_mul, Nat.mul_comm]; omega
  have hm2 := Nat.mod_add_div (a2 - base) B
  rw [hq] at hm2
  refine ⟨hq, ?_, hb⟩
  omega

/-- In a ready state, a run of `get_heap_block_info` that returns at a covered address
returns true with a block that holds the address and starts a whole number of blocks
above the base of the span; it leaves a ready state; and at every covered address of that
block the call returns the same, on the state before (with the same fuel) and on the
state after (with any fuel). -/
theorem info_block (mem : Nat → Option Nat) (n : Nat) (st : HeapState)
    (hr : Ready st) (i : Nat) (s : ca_span) (hs : st.g_spans[i]? = some s) (a : Nat)
    (hc : span_covers s (a >>> st.g_config.kPageShift)) (blk : heap_block)
    (r : query_result) (h : get_heap_block_info mem n st a blk = Outcome.ret r) :
    r.ok = true ∧ r.blk.addr ≤ a ∧ a < r.blk.addr + r.blk.size ∧
    (r.blk.addr - span_base st.g_config s) % r.blk.size = 0 ∧
    ∀ (a2 : Nat) (blk2 : heap_block), r.blk.addr ≤ a2 → a2 < r.blk.addr + r.blk.size →
      span_covers s (a2 >>> st.g_config.kPageShift) →
      get_heap_block_info mem n st a2 blk2 = Outcome.ret r ∧
      ∀ fuel2 : Nat, get_heap_block_info mem fuel2 r.st a2 blk2 = Outcome.ret r := by
  have hwf := hr.2.2 s (List.getElem?_mem hs)
  obtain ⟨b1, b2, _, b4, _, b6⟩ := wf_base hwf
  obtain ⟨k1, k2⟩ := covers_bounds hc
  by_cases hloc : s.location ≠ IN_USE
  · rw [((info_whole_span mem n st hr a blk).1 i s hs hc).1 hloc, b1, b2] at h
    cases h
    refine ⟨rfl, k1, k2, by simp, ?_⟩
    intro a2 blk2 _ _ hc2
    refine ⟨?_, fun fuel2 => ?_⟩
    · rw [((info_whole_span mem n st hr a2 blk2).1 i s hs hc2).1 hloc, b1, b2]
    · rw [((info_whole_span mem fuel2 st hr a2 blk2).1 i s hs hc2).1 hloc, b1, b2]
  · rw [ne_eq, not_not] at hloc
    by_cases hcls : s.sizeclass = 0
    · rw [((info_whole_span mem n st hr a blk).1 i s hs hc).2 hloc hcls, b1, b2] at h
      cases h
      refine ⟨rfl, k1, k2, by simp, ?_⟩
      intro a2 blk2 _ _ hc2
      refine ⟨?_, fun fuel2 => ?_⟩
      · rw [((info_whole_span mem n st hr a2 blk2).1 i s hs hc2).2 hloc hcls, b1, b2]
      · rw [((info_whole_span mem fuel2 st hr a2 blk2).1 i s hs hc2).2 hloc hcls, b1, b2]
    · obtain ⟨c1, c2, c3, c4, c5, c6⟩ := wf_class hwf hloc hcls
      obtain ⟨hend, hidx⟩ := info_ret_sub mem n st hr i s hs a hc hloc hcls blk r h
      obtain ⟨bm, hlen, hor, hpop⟩ := populate_ready st mem n s hwf hloc hcls hend
      obtain ⟨bm1, _, hpop1, hinfo1⟩ := info_subdivided mem n st hr i s hs a hc hloc hcls hend hidx
      have hbm : bm1 = bm := by
        have e := hpop1 n (Nat.le_refl _)
        rw [hpop n (Nat.le_refl _)] at e
        simp only [Outcome.ret.injEq, Prod.mk.injEq, and_true] at e
        have := congrArg ca_span.bitmap e
        simp only [Option.some.injEq] at this
        exact this.symm
      subst hbm
      rw [hinfo1 n (Nat.le_refl _) blk] at h
      cases h
      have hml := Nat.mod_le (a - span_base st.g_config s) (class_size st.g_config s.sizeclass)
      have hmlt := Nat.mod_lt (a - span_base st.g_config s) c2
      have hmd := Nat.mod_add_div (a - span_base st.g_config s)
        (class_size st.g_config s.sizeclass)
      refine ⟨rfl, by simp only; omega, by simp only; omega, ?_, ?_⟩
      · simp only
        have e : a - (a - span_base st.g_config s) % class_size st.g_config s.sizeclass
            - span_base st.g_config s
            = class_size st.g_config s.sizeclass *
              ((a - span_base st.g_config s) / class_size st.g_config s.sizeclass) := by omega
        rw [e]
        exact Nat.mul_mod_right _ _
      · intro a2 blk2 h1 h2 hc2
        simp only at h1 h2
        obtain ⟨q1, q2, _⟩ := block_of_offset c2 k1 h1 h2
        constructor
        · obtain ⟨bm2, _, hpop2, hinfo2⟩ := info_subdivided mem n st hr i s hs a2 hc2 hloc hcls
            hend (by rw [q1]; exact hidx)
          have hbm2 : bm2 = bm1 := by
            have e := hpop2 n (Nat.le_refl _)
            rw [hpop1 n (Nat.le_refl _)] at e
            simp only [Outcome.ret.injEq, Prod.mk.injEq, and_true] at e
            have := congrArg ca_span.bitmap e
            simp only [Option.some.injEq] at this
            exact this.symm
          subst hbm2
          rw [hinfo2 n (Nat.le_refl _) blk2, q1, q2]
        · intro fuel2
          have hr1 := ready_set hr hs bm1 hlen
          have hlt := (List.getElem?_eq_some_iff.mp hs).1
          have hs1 : (st.g_spans.set i
              { s with count := block_count st.g_config s, bitmap := some bm1 })[i]?
              = some { s with count := block_count st.g_config s, bitmap := some bm1 } :=
            List.getElem?_set_self hlt
          have hidx2 : (a2 - span_base st.g_config s) / class_size st.g_config s.sizeclass
              / UINT_BITS < bitmap_words st.g_config s := by rw [q1]; exact hidx
          have key := info_settled mem _ hr1 i _ hs1 a2 hc2 hloc hcls bm1 rfl hidx2 fuel2 blk2
          rw [key]
          have e1 : a2 - (a2 - span_base st.g_config s) % class_size st.g_config s.sizeclass
              = a - (a - span_base st.g_config s) % class_size st.g_config s.sizeclass := q2
          have e2 : (a2 - span_base st.g_config s) / class_size st.g_config s.sizeclass
              = (a - span_base st.g_config s) / class_size st.g_config s.sizeclass := q1
          show Outcome.ret
            (⟨{ st with
                g_spans := st.g_spans.set i
                  { s with count := block_count st.g_config s, bitmap := some bm1 } },
              { addr := a2 - (a2 - span_base st.g_config s) %
                  class_size st.g_config s.sizeclass,
                size := class_size st.g_config s.sizeclass,
                inuse := !(bitmap_bit bm1
                  ((a2 - span_base st.g_config s) / class_size st.g_config s.sizeclass)) },
              true⟩ : query_result) = _
          rw [e1, e2]

/-- In a ready state, for an address in the tail of an in-use subdivided span, behind the
last whole block: a run of `get_heap_block_info` that returns reports the block at the
index `block_count`, which ends behind the span. -/
theorem info_tail (mem : Nat → Option Nat) (n : Nat) (st : HeapState)
    (hr : Ready st) (i : Nat) (s : ca_span) (hs : st.g_spans[i]? = some s) (a : Nat)
    (hc : span_covers s (a >>> st.g_config.kPageShift))
    (hloc : s.location = IN_USE) (hcls : s.sizeclass ≠ 0)
    (htail : span_base st.g_config s +
      block_count st.g_config s * class_size st.g_config s.sizeclass ≤ a)
    (blk : heap_block) (r : query_result)
    (h : get_heap_block_info mem n st a blk = Outcome.ret r) :
    (a - span_base st.g_config s) / class_size st.g_config s.sizeclass
      = block_count st.g_config s ∧
    r.blk.addr = span_base st.g_config s +
      block_count st.g_config s * class_size st.g_config s.sizeclass ∧
    r.blk.size = class_size st.g_config s.sizeclass ∧
    span_base st.g_config s + span_bytes st.g_config s < r.blk.addr + r.blk.size := by
  have hwf := hr.2.2 s (List.getElem?_mem hs)
  obtain ⟨c1, c2, c3, c4, c5, c6⟩ := wf_class hwf hloc hcls
  obtain ⟨k1, k2⟩ := covers_bounds hc
  obtain ⟨hend, hidx⟩ := info_ret_sub mem n st hr i s hs a hc hloc hcls blk r h
  obtain ⟨bm1, _, _, hinfo1⟩ := info_subdivided mem n st hr i s hs a hc hloc hcls hend hidx
  rw [hinfo1 n (Nat.le_refl _) blk] at h
  cases h
  have hlt : span_bytes st.g_config s
      < (block_count st.g_config s + 1) * class_size st.g_config s.sizeclass := by
    unfold block_count
    have := Nat.lt_div_mul_add (a := span_bytes st.g_config s) c2
    rw [Nat.add_mul, Nat.one_mul]
    exact this
  rw [Nat.add_mul, Nat.one_mul] at hlt
  have hq : (a - span_base st.g_config s) / class_size st.g_config s.sizeclass
      = block_count st.g_config s := by
    apply Nat.div_eq_of_lt_le
    · omega
    · rw [Nat.succ_mul]; omega
  have hmd := Nat.mod_add_div (a - span_base st.g_config s)
    (class_size st.g_config s.sizeclass)
  rw [hq, Nat.mul_comm] at hmd
  refine ⟨hq, ?_, rfl, ?_⟩
  · simp only; omega
  · simp only; omega

/-! ### Repeated calls of the next-block query -/

theorem ready_attach_populated (st : HeapState) (mem : Nat → Option Nat) (n : Nat)
    (hr : Ready st) (j : Nat) (t : ca_span) (hj : st.g_spans[j]? = some t)
    (hend : span_populate_free_bitmap st mem n t ≠ Outcome.hang) :
    Ready (attach st j (populated st mem n t)) := by
  have hwf := hr.2.2 t (List.getElem?_mem hj)
  by_cases h : t.sizeclass = 0 ∨ t.location ≠ IN_USE
  · rw [populated_noop st mem n t (Or.inr h)]
    unfold attach
    rw [set_same _ _ _ hj]
    exact hr
  · have hloc : t.location = IN_USE := by
      by_contra hc; exact h (Or.inr hc)
    have hcls : t.sizeclass ≠ 0 := fun hc => h (Or.inl hc)
    obtain ⟨bm, hlen, _, hp⟩ := populated_sub st mem n t hwf hloc hcls hend
    rw [hp]
    exact ready_set hr hj bm hlen

/-- In a ready state a successful `get_next_heap_block` at a nonzero address leaves a
ready state and returns a block above the address. -/
theorem next_above (mem : Nat → Option Nat) (fuel : Nat) (st : HeapState)
    (hr : Ready st) (a : Nat) (ha : a ≠ 0) (blk : heap_block) (r : query_result)
    (h : get_next_heap_block mem fuel st a blk = Outcome.ret r) (hok : r.ok = true) :
    a < r.blk.addr ∧ Ready r.st := by
  have hinit : ¬ (st.g_initialized = false) := by rw [hr.1]; simp
  cases hget : span_get st a with
  | none =>
    unfold get_next_heap_block at h
    rw [if_neg hinit, if_neg ha, hget] at h
    cases h
    cases hok
  | some i =>
    obtain ⟨s, hs, hc⟩ := span_get_sound hr hget
    have hwf := hr.2.2 s (List.getElem?_mem hs)
    obtain ⟨hb1, hb2⟩ := covers_bounds hc
    rw [next_unfold mem fuel st hr a ha blk i s hs hc] at h
    split at h
    · rename_i hcond
      obtain ⟨hloc, hcls, hlt⟩ := hcond
      obtain ⟨c1, c2, c3, c4, c5, c6⟩ := wf_class hwf hloc hcls
      cases hb : s.bitmap with
      | none => rw [hb] at h; cases h
      | some bm =>
        rw [hb] at h
        simp only at h
        split at h
        · cases h
        · cases h
          refine ⟨?_, hr⟩
          simp only
          have := Nat.lt_div_mul_add (a := a - span_base st.g_config s) c2
          rw [Nat.add_mul, Nat.one_mul]
          omega
    · cases hn : st.g_spans[i + 1]? with
      | none =>
        rw [hn] at h
        cases h
        cases hok
      | some t =>
        rw [hn] at h
        simp only at h
        have hend := first_block_ret_not_hang mem fuel st (i + 1) t hn blk r h
        rw [first_block_spec mem fuel st hr (i + 1) t hn hend fuel (Nat.le_refl _) blk] at h
        cases h
        refine ⟨?_, ready_attach_populated st mem fuel hr (i + 1) t hn hend⟩
        simp only
        have hadj := sorted_adjacent hr.2.1 hs hn
        have hst := (populated_start_length st mem fuel t).1
        have haddr : (first_block st.g_config (populated st mem fuel t)).addr
            = span_base st.g_config t := by
          unfold first_block span_base
          rw [← hst]
          split
          · rfl
          · split <;> rfl
        rw [haddr]
        unfold span_base span_bytes at hb2
        unfold span_base
        have : (s.start + s.length) * 2 ^ st.g_config.kPageShift
            ≤ t.start * 2 ^ st.g_config.kPageShift := Nat.mul_le_mul_right _ hadj
        rw [Nat.add_mul] at this
        omega

theorem next_blocks_chain (mem : Nat → Option Nat) (fuel : Nat) :
    ∀ (k : Nat) (st : HeapState) (a : Nat) (blk : heap_block), Ready st → a ≠ 0 →
      List.Chain (· < ·) a ((next_blocks mem fuel k st a blk).map heap_block.addr) := by
  intro k
  induction k with
  | zero => intro st a blk _ _; exact List.Chain.nil
  | succ n ih =>
    intro st a blk hr ha
    unfold next_blocks
    split
    · rename_i r h
      split
      · rename_i hok
        obtain ⟨h1, h2⟩ := next_above mem fuel st hr a ha blk r h hok
        rw [List.map_cons]
        exact List.Chain.cons h1 (ih r.st r.blk.addr r.blk h2 (by omega))
      · exact List.Chain.nil
    · exact List.Chain.nil

/-! ### Block queries up to the end of the bitmap -/

theorem info_subdivided_populated (mem : Nat → Option Nat) (n : Nat) (st : HeapState)
    (hr : Ready st) (i : Nat) (s : ca_span) (hs : st.g_spans[i]? = some s) (a : Nat)
    (hc : span_covers s (a >>> st.g_config.kPageShift))
    (hloc : s.location = IN_USE) (hcls : s.sizeclass ≠ 0)
    (hend : list_ends st.g_config mem n s)
    (hidx : (a - span_base st.g_config s) / class_size st.g_config s.sizeclass / UINT_BITS
      < bitmap_words st.g_config s)
    (fuel : Nat) (hf : n ≤ fuel) (blk : heap_block) :
    span_populate_free_bitmap st mem fuel s = Outcome.ret (populated st mem n s, true) ∧
    (s.bitmap ≠ none → populated st mem n s = s) ∧
    get_heap_block_info mem fuel st a blk = Outcome.ret
      ⟨attach st i (populated st mem n s),
       { addr := a - (a - span_base st.g_config s) % class_size st.g_config s.sizeclass,
         size := class_size st.g_config s.sizeclass,
         inuse := !(bitmap_bit ((populated st mem n s).bitmap.getD [])
           ((a - span_base st.g_config s) / class_size st.g_config s.sizeclass)) }, true⟩ := by
  obtain ⟨bm, _, hpop, hinfo⟩ := info_subdivided mem n st hr i s hs a hc hloc hcls
    (list_ends_not_hang st mem n s (hr.2.2 s (List.getElem?_mem hs)) hloc hcls hend) hidx
  have hp : populated st mem n s
      = { s with count := block_count st.g_config s, bitmap := some bm } := by
    unfold populated
    rw [hpop n (Nat.le_refl _)]
  refine ⟨?_, fun hb => populated_noop st mem n s (Or.inl hb), ?_⟩
  · rw [hpop fuel hf, hp]
  · rw [hinfo fuel hf blk, hp]
    rfl

theorem info_tail_never_returns (a : Nat)
    (hc : span_covers (ex_span 1 3 0 2 IN_USE) (a >>> ex_tail.g_config.kPageShift))
    (hidx : ¬ (a - span_base ex_tail.g_config (ex_span 1 3 0 2 IN_USE)) /
      class_size ex_tail.g_config (ex_span 1 3 0 2 IN_USE).sizeclass / UINT_BITS
        < bitmap_words ex_tail.g_config (ex_span 1 3 0 2 IN_USE))
    (fuel : Nat) (blk : heap_block) :
    ¬ ∃ r, get_heap_block_info ex_mem fuel ex_tail a blk = Outcome.ret r := by
  rintro ⟨r, h⟩
  exact hidx (info_ret_sub ex_mem fuel ex_tail (by decide) 0 (ex_span 1 3 0 2 IN_USE)
    (by decide) a hc (by decide) (by decide) blk r h).2

/-! ### The next-block query with a premise on one free-object list -/

theorem next_span_at (mem : Nat → Option Nat) (n : Nat) (st : HeapState) (hr : Ready st)
    (a : Nat) (ha : a ≠ 0) (i : Nat) (s : ca_span) (hs : st.g_spans[i]? = some s)
    (hc : span_covers s (a >>> st.g_config.kPageShift))
    (hcase : s.location ≠ IN_USE ∨ s.sizeclass = 0 ∨
      (s.bitmap ≠ none ∧ block_count st.g_config s - 1 ≤
        (a - span_base st.g_config s) / class_size st.g_config s.sizeclass))
    (fuel : Nat) (blk : heap_block) :
    (i + 1 = st.g_spans.length →
      get_next_heap_block mem fuel st a blk = Outcome.ret ⟨st, blk, false⟩) ∧
    (∀ t, st.g_spans[i + 1]? = some t →
      (t.location = IN_USE → t.sizeclass ≠ 0 → list_ends st.g_config mem n t) → n ≤ fuel →
      get_next_heap_block mem fuel st a blk = Outcome.ret
        ⟨attach st (i + 1) (populated st mem n t),
          first_block st.g_config (populated st mem n t), true⟩) := by
  have hwf := hr.2.2 s (List.getElem?_mem hs)
  have hcond : ¬ (s.location = IN_USE ∧ s.sizeclass ≠ 0 ∧
      (a - span_base st.g_config s) / class_size st.g_config s.sizeclass
        < sub32 s.count 1) := by
    rintro ⟨h1, h2, h3⟩
    rcases hcase with h | h | ⟨hb, hle⟩
    · exact h h1
    · exact h2 h
    · obtain ⟨_, _, c3, c4, _, _⟩ := wf_class hwf h1 h2
      have hcount : s.count = block_count st.g_config s := by
        rcases (hwf.2.2 h1 h2).2.2.2.2 with h | h
        · exact absurd h hb
        · exact h.1
      have e3 : sub32 s.count 1 = block_count st.g_config s - 1 := by
        unfold sub32
        rw [hcount]
        rw [uint_mod_eq] at c4 ⊢
        omega
      rw [e3] at h3
      omega
  rw [next_unfold mem fuel st hr a ha blk i s hs hc, if_neg hcond]
  constructor
  · intro hlast
    rw [List.getElem?_eq_none (by omega)]
  · intro t ht hl hf
    rw [ht]
    simp only
    exact first_block_spec mem n st hr (i + 1) t ht
      (span_ends_not_hang st mem n t (hr.2.2 t (List.getElem?_mem ht)) hl) fuel hf blk

theorem next_zero_at (mem : Nat → Option Nat) (n : Nat) (st : HeapState) (hr : Ready st)
    (fuel : Nat) (blk : heap_block) :
    (st.g_spans = [] →
      get_next_heap_block mem fuel st 0 blk = Outcome.ret ⟨st, blk, false⟩) ∧
    (∀ s0, st.g_spans[0]? = some s0 →
      (s0.location = IN_USE → s0.sizeclass ≠ 0 → list_ends st.g_config mem n s0) → n ≤ fuel →
      get_next_heap_block mem fuel st 0 blk = Outcome.ret
        ⟨attach st 0 (populated st mem n s0), first_block st.g_config (populated st mem n s0),
          true⟩) := by
  have hinit : ¬ (st.g_initialized = false) := by rw [hr.1]; simp
  constructor
  · intro he
    unfold get_next_heap_block
    rw [if_neg hinit, if_pos rfl, if_pos (by rw [he]; rfl)]
  · intro s0 hs hl hf
    have hlen := (List.getElem?_eq_some_iff.mp hs).1
    unfold get_next_heap_block
    rw [if_neg hinit, if_pos rfl, if_neg (by omega)]
    exact first_block_spec mem n st hr 0 s0 hs
      (span_ends_not_hang st mem n s0 (hr.2.2 s0 (List.getElem?_mem hs)) hl) fuel hf blk

theorem next_zero_ret (mem : Nat → Option Nat) (fuel : Nat) (st : HeapState) (hr : Ready st)
    (blk : heap_block) (r : query_result)
    (h : get_next_heap_block mem fuel st 0 blk = Outcome.ret r) :
    (r.ok = false ↔ st.g_spans = []) ∧
    ∀ s0, st.g_spans[0]? = some s0 →
      r = ⟨attach st 0 (populated st mem fuel s0),
        first_block st.g_config (populated st mem fuel s0), true⟩ := by
  have hinit : ¬ (st.g_initialized = false) := by rw [hr.1]; simp
  by_cases hsp : st.g_spans = []
  · rw [(next_zero_at mem fuel st hr fuel blk).1 hsp] at h
    cases h
    refine ⟨by simp [hsp], ?_⟩
    intro s0 hs
    rw [hsp] at hs
    simp at hs
  · have hlen : 0 < st.g_spans.length := List.length_pos.mpr hsp
    have hs := List.getElem?_eq_getElem hlen
    have h2 := h
    unfold get_next_heap_block at h2
    rw [if_neg hinit, if_pos rfl, if_neg (by omega)] at h2
    have hnh := first_block_ret_not_hang mem fuel st 0 _ hs blk r h2
    rw [first_block_spec mem fuel st hr 0 _ hs hnh fuel (Nat.le_refl _) blk] at h2
    cases h2
    refine ⟨by simp [hsp], ?_⟩
    intro s1 hs1
    rw [hs] at hs1
    cases hs1
    rfl

theorem populate_cycle_pair (fuel : Nat) :
    span_populate_free_bitmap ex_pair ex_mem_cyclic fuel (ex_span 11 1 0xB020 1 IN_USE) =
      Outcome.hang := by
  rw [populate_unfold ex_pair ex_mem_cyclic (ex_span 11 1 0xB020 1 IN_USE) (by decide)
    (by decide) (by decide) rfl fuel]
  have h := walk_objects_cycle fuel 0xB020 (List.replicate 4 0) (Or.inl rfl) (by decide)
  have e1 : span_base ex_pair.g_config (ex_span 11 1 0xB020 1 IN_USE) = 0xB000 := by decide
  have e2 : add64 (span_base ex_pair.g_config (ex_span 11 1 0xB020 1 IN_USE))
      (mul64 (block_count ex_pair.g_config (ex_span 11 1 0xB020 1 IN_USE))
        (class_size ex_pair.g_config (ex_span 11 1 0xB020 1 IN_USE).sizeclass)) = 0xC000 := by
    decide
  have e3 : class_size ex_pair.g_config (ex_span 11 1 0xB020 1 IN_USE).sizeclass = 32 := by
    decide
  have e4 : bitmap_words ex_pair.g_config (ex_span 11 1 0xB020 1 IN_USE) = 4 := by decide
  have e5 : (ex_span 11 1 0xB020 1 IN_USE).objects = 0xB020 := rfl
  rw [e2, e1, e3, e4, e5, h]

theorem next_cycle_pair (fuel : Nat) (blk : heap_block) :
    get_next_heap_block ex_mem_cyclic fuel ex_pair 0xA000 blk = Outcome.hang := by
  rw [next_unfold ex_mem_cyclic fuel ex_pair (by decide) 0xA000 (by decide) blk 0
    (ex_span 10 1 0 0 IN_USE) (by decide) (by decide), if_neg (by decide)]
  have h1 : ex_pair.g_spans[0 + 1]? = some (ex_span 11 1 0xB020 1 IN_USE) := by decide
  rw [h1]
  simp only
  unfold first_block_of_span
  simp only [h1]
  rw [populate_cycle_pair]

/-! ## The claims -/

/-- C1. For a span table sorted ascending by start page with disjoint page ranges
(each span ends at or before the start of the next, no overflow) and every address `a`:
`span_get a` returns the table entry whose range `[start, start + length)` contains the
page id `a >> kPageShift`, and returns not-found when no range contains that page id. -/
theorem span_get_correct (st : HeapState) (hs : spans_sorted st.g_spans)
    (hno : spans_no_overflow st.g_spans) (a : Nat) :
    (∀ (i : Nat) (s : ca_span), st.g_spans[i]? = some s →
        span_covers s (a >>> st.g_config.kPageShift) → span_get st a = some i) ∧
    ((∀ s ∈ st.g_spans, ¬ span_covers s (a >>> st.g_config.kPageShift)) →
        span_get st a = none) :=
  span_get_spec st hs hno a

/-- Witness of C1 on the two-span table of `ex_pair`: `0xB041` lies in entry 1, and no
entry holds `0xD000`. -/
theorem span_get_correct_witness :
    spans_sorted ex_pair.g_spans ∧ spans_no_overflow ex_pair.g_spans ∧
    span_get ex_pair 0xB041 = some 1 ∧ span_get ex_pair 0xD000 = none :=
  ⟨by decide, by decide,
   (span_get_correct ex_pair (by decide) (by decide) 0xB041).1 1
     (ex_span 11 1 0xB020 1 IN_USE) (by decide) (by decide),
   (span_get_correct ex_pair (by decide) (by decide) 0xD000).2 (by decide)⟩

/-- C2. In a ready state (`Ready`: the flag is set and the table is that of a consistent
heap, sorted, with spans of at least one page inside the 64-bit address space), for an
address `a` covered by the span `s`:
`get_heap_block_info a` succeeds with the whole span as one free block
(`addr = start << kPageShift`, `size = length << kPageShift`, `inuse = false`) when `s`
is not in use, and with the whole span as one in-use block when `s` is in use with size
class 0; it fails, leaving the state and the block untouched, when no span covers `a`. -/
theorem get_heap_block_info_whole_span (mem : Nat → Option Nat) (fuel : Nat) (st : HeapState)
    (hr : Ready st) (a : Nat) (blk : heap_block) :
    (∀ (i : Nat) (s : ca_span), st.g_spans[i]? = some s →
        span_covers s (a >>> st.g_config.kPageShift) →
      (s.location ≠ IN_USE →
        get_heap_block_info mem fuel st a blk = Outcome.ret
          ⟨st, { addr := shl64 s.start st.g_config.kPageShift,
                 size := shl64 s.length st.g_config.kPageShift, inuse := false }, true⟩) ∧
      (s.location = IN_USE → s.sizeclass = 0 →
        get_heap_block_info mem fuel st a blk = Outcome.ret
          ⟨st, { addr := shl64 s.start st.g_config.kPageShift,
                 size := shl64 s.length st.g_config.kPageShift, inuse := true }, true⟩)) ∧
    ((∀ s ∈ st.g_spans, ¬ span_covers s (a >>> st.g_config.kPageShift)) →
      get_heap_block_info mem fuel st a blk = Outcome.ret ⟨st, blk, false⟩) :=
  info_whole_span mem fuel st hr a blk

/-- Witness of C2, the scenario of the specification: span of two pages at page 10,
page shift 12, size class 0, in use; the query `0xA400` gives `{0xA000, 0x2000, true}`. -/
theorem get_heap_block_info_whole_span_witness :
    Ready ex_large ∧
    get_heap_block_info ex_mem 0 ex_large 0xA400 ex_blk = Outcome.ret
      ⟨ex_large, { addr := 0xA000, size := 0x2000, inuse := true }, true⟩ :=
  ⟨by decide,
   ((get_heap_block_info_whole_span ex_mem 0 ex_large (by decide) 0xA400 ex_blk).1 0
     (ex_span 10 2 0 0 IN_USE) (by decide) (by decide)).2 (by decide) (by decide)⟩

/-- C3, the code at the failing input. In a ready state, for an address `a` covered by an
in-use span of size class `c != 0` with block size `B = class_to_size[c]` and
`base = start << kPageShift` whose free-object list walk ends: when the bit of the block
index `(a - base) / B` lies in a word of the bitmap, `get_heap_block_info a` first
builds the bitmap if the span has none (the span is left as `span_populate_free_bitmap`
leaves it) and returns `size = B`, `addr = a - ((a - base) mod B)`, and `inuse = false`
exactly when that bit is set, as in the scenario of the specification (`0xB041` gives
`{0xB040, 32, false}`). In `ex_tail` the span of three pages holds 32 blocks of 376
bytes, its free-object list is empty, its bitmap is one word, and the covered address
`0x3F00` lies behind the last block, at block index 32: the query reads word 1 of the
one-word bitmap, and no run of `get_heap_block_info` returns. In `ex_nolink` with a
cyclic free-object list no run returns either. -/
theorem get_heap_block_info_reads_past_bitmap :
    (∀ (mem : Nat → Option Nat) (n : Nat) (st : HeapState), Ready st →
      ∀ (i : Nat) (s : ca_span) (a : Nat), st.g_spans[i]? = some s →
      span_covers s (a >>> st.g_config.kPageShift) → s.location = IN_USE → s.sizeclass ≠ 0 →
      list_ends st.g_config mem n s →
      (a - span_base st.g_config s) / class_size st.g_config s.sizeclass / UINT_BITS
        < bitmap_words st.g_config s →
      ∀ (fuel : Nat), n ≤ fuel → ∀ blk : heap_block,
        span_populate_free_bitmap st mem fuel s = Outcome.ret (populated st mem n s, true) ∧
        (s.bitmap ≠ none → populated st mem n s = s) ∧
        get_heap_block_info mem fuel st a blk = Outcome.ret
          ⟨attach st i (populated st mem n s),
           { addr := a - (a - span_base st.g_config s) % class_size st.g_config s.sizeclass,
             size := class_size st.g_config s.sizeclass,
             inuse := !(bitmap_bit ((populated st mem n s).bitmap.getD [])
               ((a - span_base st.g_config s) / class_size st.g_config s.sizeclass)) },
            true⟩) ∧
    Ready ex_small ∧
    get_heap_block_info ex_mem 2 ex_small 0xB041 ex_blk = Outcome.ret
      ⟨ex_small_built, { addr := 0xB040, size := 32, inuse := false }, true⟩ ∧
    Ready ex_tail ∧ ex_tail.g_spans = [ex_span 1 3 0 2 IN_USE] ∧
    span_covers (ex_span 1 3 0 2 IN_USE) (0x3F00 >>> ex_tail.g_config.kPageShift) ∧
    class_size ex_cfg 2 = 376 ∧ block_count ex_cfg (ex_span 1 3 0 2 IN_USE) = 32 ∧
    list_ends ex_cfg ex_mem 1 (ex_span 1 3 0 2 IN_USE) ∧
    (populated ex_tail ex_mem 1 (ex_span 1 3 0 2 IN_USE)).bitmap = some [0] ∧
    (0x3F00 - span_base ex_cfg (ex_span 1 3 0 2 IN_USE)) / 376 = 32 ∧
    get_heap_block_info ex_mem 1 ex_tail 0x3F00 ex_blk = Outcome.fault ∧
    (∀ (fuel : Nat) (blk : heap_block),
      ¬ ∃ r, get_heap_block_info ex_mem fuel ex_tail 0x3F00 blk = Outcome.ret r) ∧
    Ready ex_nolink ∧
    (∀ (fuel : Nat) (blk : heap_block),
      get_heap_block_info ex_mem_cyclic fuel ex_nolink 0xB000 blk = Outcome.hang) :=
  ⟨fun mem n st hr i s a hs hc hloc hcls hend hidx fuel hf blk =>
     info_subdivided_populated mem n st hr i s hs a hc hloc hcls hend hidx fuel hf blk,
   by decide, by decide, by decide, rfl, by decide, by decide, by decide, by decide,
   by decide, by decide, by decide,
   fun fuel blk => info_tail_never_returns 0x3F00 (by decide) (by decide) fuel blk,
   by decide, info_cycle⟩

/-- Counterexample to C4 as stated: in `ex_nolink` the free-object list of the span is
the single node `0xB020`, in range and on a block boundary, whose link cannot be read,
and the cached set is empty. `span_populate_free_bitmap` sets bit 1, although `0xB020`
is not reached before the first node whose link cannot be read (it is that node) and no
cached address falls in block 1. -/
theorem populate_marks_unreadable_node :
    span_populate_free_bitmap ex_nolink ex_mem_unreadable 1 (ex_span 11 1 0xB020 1 IN_USE) =
      Outcome.ret ({ ex_span 11 1 0xB020 1 IN_USE with bitmap := some [2, 0, 0, 0], count := 128 },
        true) ∧
    ¬ (bitmap_bit [2, 0, 0, 0] 1 = true ↔
        (0xB000 + 1 * 32 ∈ nodes_before_first_bad ex_mem_unreadable 0xB000 (0xB000 + 128 * 32) 32
            1 0xB020 ∨
          ∃ c ∈ ex_nolink.g_cached_blocks, 0xB000 ≤ c ∧ c < 0xB000 + 128 * 32 ∧
            (c - 0xB000) / 32 = 1)) := by
  decide

/-- C4, amended. For an in-use span of a consistent heap with size class != 0 and no
bitmap yet, a cached-block array sorted ascending and a free-object list whose walk
ends: `span_populate_free_bitmap` sets `count = (length << kPageShift) / block_size` and
builds a bitmap in which bit `k` is set if and only if either `base + k * block_size` is
a node of the free-object list reached before the first node that is outside
`[base, base + count * block_size)` or off a block boundary and not after the first node
whose link cannot be read, or some cached address `c` has
`base <= c < base + count * block_size` and `(c - base) / block_size = k`. The scan of
the cached array with its early break marks every cached address in range. -/
theorem span_populate_free_bitmap_marks (st : HeapState) (mem : Nat → Option Nat) (n : Nat)
    (s : ca_span) (hwf : span_wf st.g_config s) (hloc : s.location = IN_USE)
    (hcls : s.sizeclass ≠ 0) (hbm : s.bitmap = none)
    (hsorted : List.Sorted (· ≤ ·) st.g_cached_blocks)
    (hend : list_ends st.g_config mem n s)
    (fuel : Nat) (hf : n ≤ fuel) :
    span_populate_free_bitmap st mem fuel s = Outcome.ret (populated st mem n s, true) ∧
    (populated st mem n s).count = span_bytes st.g_config s / class_size st.g_config s.sizeclass ∧
    ∃ bm, (populated st mem n s).bitmap = some bm ∧
      ∀ k, (bitmap_bit bm k = true ↔
        span_base st.g_config s + k * class_size st.g_config s.sizeclass ∈
          free_list_nodes mem (span_base st.g_config s)
            (span_base st.g_config s + block_count st.g_config s *
              class_size st.g_config s.sizeclass)
            (class_size st.g_config s.sizeclass) n s.objects ∨
        ∃ c ∈ st.g_cached_blocks, span_base st.g_config s ≤ c ∧
          c < span_base st.g_config s + block_count st.g_config s *
              class_size st.g_config s.sizeclass ∧
          (c - span_base st.g_config s) / class_size st.g_config s.sizeclass = k) := by
  obtain ⟨bm, _, hpop, hbits⟩ := populate_build st mem n s hwf hloc hcls hbm
    (list_ends_not_hang st mem n s hwf hloc hcls hend)
  have hp : populated st mem n s
      = { s with count := block_count st.g_config s, bitmap := some bm } := by
    unfold populated
    rw [hpop n (Nat.le_refl _)]
  refine ⟨?_, ?_, bm, ?_, hbits hsorted⟩
  · rw [hpop fuel hf, hp]
  · rw [hp]; rfl
  · rw [hp]

/-- Witness of C4 on the span of `ex_small`: free-object list `{0xB020}`, cached set
`{0xB040}`, 128 blocks of 32 bytes. -/
theorem span_populate_free_bitmap_marks_witness :
    span_wf ex_small.g_config (ex_span 11 1 0xB020 1 IN_USE) ∧
    List.Sorted (· ≤ ·) ex_small.g_cached_blocks ∧
    list_ends ex_small.g_config ex_mem 2 (ex_span 11 1 0xB020 1 IN_USE) ∧
    span_populate_free_bitmap ex_small ex_mem 2 (ex_span 11 1 0xB020 1 IN_USE) =
      Outcome.ret (ex_small_span_built, true) :=
  ⟨by decide, by decide, by decide,
   (span_populate_free_bitmap_marks ex_small ex_mem 2 (ex_span 11 1 0xB020 1 IN_USE) (by decide)
     (by decide) (by decide) (by decide) (by decide) (by decide) 2 (Nat.le_refl _)).1⟩

/-- Counterexample to C5 as stated: `init_heap` succeeds on a process whose page map
holds one span of zero pages at page 10; in the state it leaves,
`get_next_heap_block 0` succeeds with the block `{0xA000, 0, free}`, and
`get_heap_block_info 0xA000` fails, since no span covers the address. -/
theorem next_then_info_disagree_on_empty_span :
    init_heap ex_image_empty_span ex_mem 1 initial_state = Outcome.ret (ex_empty_span, true) ∧
    (∀ fuel : Nat, get_next_heap_block ex_mem fuel ex_empty_span 0 ex_blk = Outcome.ret
      ⟨ex_empty_span, { addr := 0xA000, size := 0, inuse := false }, true⟩) ∧
    (∀ (fuel : Nat) (blk : heap_block),
      get_heap_block_info ex_mem fuel ex_empty_span 0xA000 blk =
        Outcome.ret ⟨ex_empty_span, blk, false⟩) := by
  refine ⟨by decide, ?_, ?_⟩
  · intro fuel
    rfl
  · intro fuel blk
    unfold get_heap_block_info
    have h : span_get ex_empty_span 0xA000 = none := by decide
    rw [if_neg (by decide), h]

/-- C5, amended. In a ready state of a consistent heap (`Ready`: the flag is set; the table is sorted with disjoint
ranges; every span has at least one page and ends inside the 64-bit address space; every
in-use subdivided span has its size class in the table with a positive size, holds at
least one block and fewer than `2^32`, and has either no bitmap or the bitmap and the
block count that `span_populate_free_bitmap` gives it),
for every address `a`: if `get_next_heap_block a` succeeds and returns block `b`, then
`get_heap_block_info b.addr` succeeds and returns the same `addr`, `size` and `inuse`:
called after `get_next_heap_block` (on the state it leaves) with any fuel, and called
instead of it (on the state before) with at least the same fuel. -/
theorem next_then_info_agree (mem : Nat → Option Nat) (fuel : Nat) (st : HeapState)
    (hr : Ready st) (a : Nat) (blk : heap_block) (r : query_result)
    (h : get_next_heap_block mem fuel st a blk = Outcome.ret r) (hok : r.ok = true) :
    (∀ fuel2 blk2,
      get_heap_block_info mem fuel2 r.st r.blk.addr blk2 = Outcome.ret ⟨r.st, r.blk, true⟩) ∧
    (∀ fuel2, fuel ≤ fuel2 → ∀ blk2,
      get_heap_block_info mem fuel2 st r.blk.addr blk2 = Outcome.ret ⟨r.st, r.blk, true⟩) :=
  ⟨fun fuel2 blk2 => next_info_agree_post mem fuel st hr a blk r h hok fuel2 blk2,
   fun fuel2 hf blk2 => next_info_agree_pre mem fuel st hr a blk r h hok fuel2 hf blk2⟩

/-- Witness of C5, amended: in `ex_small`, `get_next_heap_block 0` builds the bitmap and returns
block 0 of the span, `{0xB000, 32, true}`, and `get_heap_block_info 0xB000` then
returns the same block. -/
theorem next_then_info_agree_witness :
    Ready ex_small ∧
    get_next_heap_block ex_mem 2 ex_small 0 ex_blk = Outcome.ret
      ⟨ex_small_built, { addr := 0xB000, size := 32, inuse := true }, true⟩ ∧
    get_heap_block_info ex_mem 0 ex_small_built 0xB000 ex_blk = Outcome.ret
      ⟨ex_small_built, { addr := 0xB000, size := 32, inuse := true }, true⟩ :=
  ⟨by decide, by decide,
   (next_then_info_agree ex_mem 2 ex_small (by decide) 0 ex_blk
     ⟨ex_small_built, { addr := 0xB000, size := 32, inuse := true }, true⟩
     (by decide) rfl).1 0 ex_blk⟩

/-- Counterexample to C7 as stated: `init_heap` succeeds on the process `ex_image_huge`,
whose one span holds `2^32 + 512` blocks of 8 bytes, none of them free. In the state it
leaves, `walk_inuse_blocks` builds a bitmap of 16 words, sets `count` to 512 and
produces the 512 entries of the block indices below 512: the block at index 512 and
those behind it have no entry, although no bit is set. -/
theorem walk_inuse_blocks_count_wraps :
    init_heap ex_image_huge ex_mem 1 initial_state = Outcome.ret (ex_huge, true) ∧
    block_count ex_huge.g_config (ex_span 16 8388609 0 1 IN_USE) = 4294967808 ∧
    span_base ex_huge.g_config (ex_span 16 8388609 0 1 IN_USE) = 0x10000 ∧
    walk_inuse_blocks ex_mem 1 ex_huge false 0 = Outcome.ret ⟨ex_huge_built, true, 512, []⟩ ∧
    walk_inuse_blocks ex_mem 1 ex_huge true 0 = Outcome.ret
      ⟨ex_huge_built, true, 512, (List.range 512).map (fun k => ⟨0x10000 + k * 8, 8⟩)⟩ := by
  refine ⟨by decide, by decide, by decide, by decide, by decide⟩

/-- C7, amended. In a ready state of a consistent heap (`Ready`: the flag is set; the table is sorted with disjoint
ranges; every span has at least one page and ends inside the 64-bit address space; every
in-use subdivided span has its size class in the table with a positive size, holds at
least one block and fewer than `2^32`, and has either no bitmap or the bitmap and the
block count that `span_populate_free_bitmap` gives it):
whenever `walk_inuse_blocks` returns it returns true, leaves
every span as `span_populate_free_bitmap` leaves it, and its output is exactly, in
span-table order: nothing for a span not in use; the single entry
`(start << kPageShift, length << kPageShift)` for an in-use span of size class 0; and
for an in-use subdivided span one entry `(base + k * block_size, block_size)` for each
`k < block_count`, in increasing `k`, whose free-bitmap bit is clear. The count is the
number of entries; they are stored only when a buffer is given. The call returns, with
this result, when the free-object lists of the table end within the fuel. -/
theorem walk_inuse_blocks_exact (mem : Nat → Option Nat) (fuel : Nat) (st : HeapState)
    (hr : Ready st) (has_buffer : Bool) (opCount : Nat) :
    (∀ r, walk_inuse_blocks mem fuel st has_buffer opCount = Outcome.ret r →
      r = { st := { st with g_spans := st.g_spans.map (populated st mem fuel) },
            ok := true,
            opCount := ((st.g_spans.map (populated st mem fuel)).flatMap
              (expected_entries st.g_config)).length,
            written := if has_buffer then
                (st.g_spans.map (populated st mem fuel)).flatMap (expected_entries st.g_config)
              else [] }) ∧
    (∀ n, lists_end st mem n → n ≤ fuel →
      walk_inuse_blocks mem fuel st has_buffer opCount = Outcome.ret
        { st := { st with g_spans := st.g_spans.map (populated st mem n) },
          ok := true,
          opCount := ((st.g_spans.map (populated st mem n)).flatMap
            (expected_entries st.g_config)).length,
          written := if has_buffer then
              (st.g_spans.map (populated st mem n)).flatMap (expected_entries st.g_config)
            else [] }) := by
  constructor
  · intro r h
    have hl := walk_ret_populate_returns mem fuel st hr has_buffer opCount r h
    rw [walk_exact mem fuel st hr hl fuel (Nat.le_refl _) has_buffer opCount] at h
    cases h
    rfl
  · intro n hl hf
    exact walk_exact mem n st hr (lists_end_populate_returns st mem n hr hl) fuel hf
      has_buffer opCount

/-- Witness of C7, amended, on `ex_pair`: the undivided span gives one entry and the span of
32-byte blocks gives 126 entries (blocks 1 and 2 are free). -/
theorem walk_inuse_blocks_exact_witness :
    Ready ex_pair ∧ lists_end ex_pair ex_mem 2 ∧
    ((ex_pair.g_spans.map (populated ex_pair ex_mem 2)).flatMap
      (expected_entries ex_pair.g_config)).length = 127 ∧
    walk_inuse_blocks ex_mem 2 ex_pair true 0 = Outcome.ret
      { st := { ex_pair with g_spans := ex_pair.g_spans.map (populated ex_pair ex_mem 2) },
        ok := true,
        opCount := ((ex_pair.g_spans.map (populated ex_pair ex_mem 2)).flatMap
          (expected_entries ex_pair.g_config)).length,
        written := if true then
            (ex_pair.g_spans.map (populated ex_pair ex_mem 2)).flatMap
              (expected_entries ex_pair.g_config)
          else [] } :=
  ⟨by decide, by decide, by decide,
   (walk_inuse_blocks_exact ex_mem 2 ex_pair (by decide) true 0).2 2 (by decide) (Nat.le_refl _)⟩

/-- C8, the code at the failing input. In a ready state, when the nonzero address `a`
lies in table entry `i` and that span is not in use, or has size class 0, or has had its
bitmap built and the block index of `a` is not below `block_count - 1`:
`get_next_heap_block a` fails when entry `i` is the last one, and otherwise, when the
free-object list of entry `i + 1` ends, returns the first block of entry `i + 1`
(whole-span size with `inuse = false` if that entry is not in use, whole-span size with
`inuse = true` if its size class is 0, otherwise block 0 with its class size and the
status of bit 0 of its bitmap, which the call builds); it also fails when no span covers
`a`. In the ready state `ex_fresh` the first span is in use with 128 blocks of 32 bytes
and was never queried, so that its bitmap is NULL and its `count` is still 0; the address
`0xBFE0` lies in its last block (index 127, not below `block_count - 1`), and the table
successor is the free span at `0xC000`. The call does not return the first block of that
successor: `count - 1` wraps around, the branch for the next block of the same span is
taken and the NULL bitmap is read. In `ex_pair` with a cyclic free-object list in entry 1
the call for `0xA000` of entry 0 does not return. -/
theorem get_next_heap_block_last_block_unbuilt :
    (∀ (mem : Nat → Option Nat) (n : Nat) (st : HeapState), Ready st →
      ∀ (a : Nat), a ≠ 0 → ∀ (fuel : Nat) (blk : heap_block),
      (∀ (i : Nat) (s : ca_span), st.g_spans[i]? = some s →
        span_covers s (a >>> st.g_config.kPageShift) →
        (s.location ≠ IN_USE ∨ s.sizeclass = 0 ∨
          (s.bitmap ≠ none ∧ block_count st.g_config s - 1 ≤
            (a - span_base st.g_config s) / class_size st.g_config s.sizeclass)) →
        (i + 1 = st.g_spans.length →
          get_next_heap_block mem fuel st a blk = Outcome.ret ⟨st, blk, false⟩) ∧
        (∀ t, st.g_spans[i + 1]? = some t →
          (t.location = IN_USE → t.sizeclass ≠ 0 → list_ends st.g_config mem n t) →
          n ≤ fuel →
          get_next_heap_block mem fuel st a blk = Outcome.ret
            ⟨attach st (i + 1) (populated st mem n t),
              first_block st.g_config (populated st mem n t), true⟩)) ∧
      ((∀ s ∈ st.g_spans, ¬ span_covers s (a >>> st.g_config.kPageShift)) →
        get_next_heap_block mem fuel st a blk = Outcome.ret ⟨st, blk, false⟩)) ∧
    Ready ex_pair ∧
    get_next_heap_block ex_mem 2 ex_pair 0xA000 ex_blk = Outcome.ret
      ⟨{ ex_pair with g_spans := [ex_span 10 1 0 0 IN_USE, ex_small_span_built] },
        { addr := 0xB000, size := 32, inuse := true }, true⟩ ∧
    Ready ex_fresh ∧ spans_sorted ex_fresh.g_spans ∧
    ex_fresh.g_spans = [ex_span 11 1 0 1 IN_USE, ex_span 12 1 0 0 1] ∧
    span_covers (ex_span 11 1 0 1 IN_USE) (0xBFE0 >>> ex_fresh.g_config.kPageShift) ∧
    block_count ex_cfg (ex_span 11 1 0 1 IN_USE) = 128 ∧
    (0xBFE0 - span_base ex_cfg (ex_span 11 1 0 1 IN_USE)) / class_size ex_cfg 1 = 127 ∧
    first_block ex_cfg (ex_span 12 1 0 0 1) = { addr := 0xC000, size := 0x1000, inuse := false } ∧
    (∀ fuel blk, get_next_heap_block ex_mem fuel ex_fresh 0xBFE0 blk = Outcome.fault) ∧
    (∀ fuel blk, get_next_heap_block ex_mem_cyclic fuel ex_pair 0xA000 blk = Outcome.hang) := by
  refine ⟨?_, by decide, by decide, by decide, by decide, rfl, by decide, by decide,
    by decide, by decide, ?_, next_cycle_pair⟩
  · intro mem n st hr a ha fuel blk
    refine ⟨fun i s hs hc hcase => next_span_at mem n st hr a ha i s hs hc hcase fuel blk, ?_⟩
    intro hnone
    have hinit : ¬ (st.g_initialized = false) := by rw [hr.1]; simp
    have hget := (span_get_spec st hr.2.1 (ready_no_overflow hr) a).2 hnone
    unfold get_next_heap_block
    rw [if_neg hinit, if_neg ha, hget]
  · intro fuel blk
    rw [next_unfold ex_mem fuel ex_fresh (by decide) 0xBFE0 (by decide) blk 0
      (ex_span 11 1 0 1 IN_USE) (by decide) (by decide)]
    rfl

/-- C9, the code at the failing input. In a ready state `get_next_heap_block 0` fails
when the span table is empty; otherwise, when the free-object list of table entry 0
ends, it succeeds with the first block of entry 0 (every run that returns fails exactly
when the table is empty and otherwise gives that block): `addr = start << kPageShift` and
`(size, inuse)` is `(length << kPageShift, false)` if that span is not in use,
`(length << kPageShift, true)` if it is in use with size class 0, and
`(class size, bit 0 of its free bitmap clear)` otherwise, the bitmap being built by the
call; the lists of the later entries play no part (`ex_pair` with a cyclic list in
entry 1). In the ready state `ex_nolink` the table has one entry, whose free-object list
is the cycle of `0xB020` and `0xB040`: the call neither fails nor returns the first
block, it uses up every amount of fuel. -/
theorem get_next_heap_block_zero_cycle :
    (∀ (mem : Nat → Option Nat) (n : Nat) (st : HeapState), Ready st →
      ∀ (fuel : Nat) (blk : heap_block),
      (st.g_spans = [] →
        get_next_heap_block mem fuel st 0 blk = Outcome.ret ⟨st, blk, false⟩) ∧
      (∀ s0, st.g_spans[0]? = some s0 →
        (s0.location = IN_USE → s0.sizeclass ≠ 0 → list_ends st.g_config mem n s0) →
        n ≤ fuel →
        get_next_heap_block mem fuel st 0 blk = Outcome.ret
          ⟨attach st 0 (populated st mem n s0),
            first_block st.g_config (populated st mem n s0), true⟩) ∧
      (∀ r, get_next_heap_block mem fuel st 0 blk = Outcome.ret r →
        (r.ok = false ↔ st.g_spans = []) ∧
        ∀ s0, st.g_spans[0]? = some s0 →
          r = ⟨attach st 0 (populated st mem fuel s0),
            first_block st.g_config (populated st mem fuel s0), true⟩)) ∧
    Ready ex_small ∧
    get_next_heap_block ex_mem 2 ex_small 0 ex_blk = Outcome.ret
      ⟨ex_small_built, { addr := 0xB000, size := 32, inuse := true }, true⟩ ∧
    get_next_heap_block ex_mem 2 { ex_small with g_spans := [] } 0 ex_blk =
      Outcome.ret ⟨{ ex_small with g_spans := [] }, ex_blk, false⟩ ∧
    Ready ex_pair ∧
    (∀ fuel blk, get_next_heap_block ex_mem_cyclic fuel ex_pair 0 blk = Outcome.ret
      ⟨ex_pair, { addr := 0xA000, size := 0x1000, inuse := true }, true⟩) ∧
    Ready ex_nolink ∧ ex_nolink.g_spans = [ex_span 11 1 0xB020 1 IN_USE] ∧
    ex_mem_cyclic 0xB020 = some 0xB040 ∧ ex_mem_cyclic 0xB040 = some 0xB020 ∧
    (∀ fuel blk, get_next_heap_block ex_mem_cyclic fuel ex_nolink 0 blk = Outcome.hang) := by
  refine ⟨fun mem n st hr fuel blk =>
      ⟨(next_zero_at mem n st hr fuel blk).1, (next_zero_at mem n st hr fuel blk).2,
        fun r h => next_zero_ret mem fuel st hr blk r h⟩, by decide, by decide,
    by decide, by decide, ?_, by decide, rfl, by decide, by decide, next_cycle⟩
  intro fuel blk
  have h := (next_zero_at ex_mem_cyclic 0 ex_pair (by decide) fuel blk).2
    (ex_span 10 1 0 0 IN_USE) (by decide) (fun _ h => absurd rfl h) (Nat.zero_le _)
  rw [h]
  rfl

/-- C10, the code at the failing input: in `ex_fresh` the in-use span of 128 blocks of 32
bytes at `0xB000` has not been queried before (bitmap NULL, `count` still 0), and
`0xB000` lies in its block 0, which is not the last. The claim gives
`{0xB020, 32, true}`, read from the bitmap that `span_populate_free_bitmap` computes
(no bit set). The call does not build the bitmap before it reads `count` and
`bitmap`: it dereferences the NULL bitmap, whatever the fuel. Whatever value the unset
`count` field holds, the call either does that or moves on to the free span at
`0xC000`; it never returns the block at `0xB020`. `get_heap_block_info` at the same
input does build the bitmap. -/
theorem get_next_heap_block_reads_unbuilt_bitmap :
    Ready ex_fresh ∧ ex_fresh.g_spans[0]? = some (ex_span 11 1 0 1 IN_USE) ∧
    span_covers (ex_span 11 1 0 1 IN_USE) (0xB000 >>> ex_fresh.g_config.kPageShift) ∧
    (0xB000 - span_base ex_cfg (ex_span 11 1 0 1 IN_USE)) / class_size ex_cfg 1 = 0 ∧
    populated ex_fresh ex_mem 1 (ex_span 11 1 0 1 IN_USE) =
      { ex_span 11 1 0 1 IN_USE with bitmap := some [0, 0, 0, 0], count := 128 } ∧
    (∀ fuel blk, get_next_heap_block ex_mem fuel ex_fresh 0xB000 blk = Outcome.fault) ∧
    (∀ c fuel blk,
      get_next_heap_block ex_mem fuel (ex_fresh_count c) 0xB000 blk = Outcome.fault ∨
      get_next_heap_block ex_mem fuel (ex_fresh_count c) 0xB000 blk = Outcome.ret
        ⟨ex_fresh_count c, { addr := 0xC000, size := 0x1000, inuse := false }, true⟩) ∧
    get_heap_block_info ex_mem 1 ex_fresh 0xB000 ex_blk = Outcome.ret
      ⟨attach ex_fresh 0 (populated ex_fresh ex_mem 1 (ex_span 11 1 0 1 IN_USE)),
        { addr := 0xB000, size := 32, inuse := true }, true⟩ := by
  refine ⟨by decide, by decide, by decide, by decide, by decide, ?_,
    next_unbuilt_any_count, by decide⟩
  intro fuel blk
  rw [next_unfold ex_mem fuel ex_fresh (by decide) 0xB000 (by decide) blk 0
    (ex_span 11 1 0 1 IN_USE) (by decide) (by decide)]
  rfl

/-- C11. On a cached-block array sorted ascending, duplicates allowed,
`is_block_cached(x)` is true exactly when `x` is an element of the array; so it is true
for every inserted address `a`, and false for `a + 1` (also as the `address_t` sum, which
wraps) whenever that address was not inserted itself. -/
theorem is_block_cached_iff_member (st : HeapState)
    (hs : List.Sorted (· ≤ ·) st.g_cached_blocks) :
    (∀ x : Nat, is_block_cached st x = true ↔ x ∈ st.g_cached_blocks) ∧
    (∀ a ∈ st.g_cached_blocks, is_block_cached st a = true) ∧
    (∀ a ∈ st.g_cached_blocks, add64 a 1 ∉ st.g_cached_blocks →
      is_block_cached st (add64 a 1) = false) ∧
    (∀ a ∈ st.g_cached_blocks, a + 1 ∉ st.g_cached_blocks →
      is_block_cached st (a + 1) = false) := by
  refine ⟨is_block_cached_spec st hs, fun a ha => (is_block_cached_spec st hs a).mpr ha, ?_, ?_⟩
  · intro a _ hn
    cases h : is_block_cached st (add64 a 1) with
    | false => rfl
    | true => exact absurd ((is_block_cached_spec st hs _).mp h) hn
  · intro a _ hn
    cases h : is_block_cached st (a + 1) with
    | false => rfl
    | true => exact absurd ((is_block_cached_spec st hs _).mp h) hn

/-- Witness of C11 on an array that holds `0xB060` twice: `0xB060` is found, `0xB061` is
not. -/
theorem is_block_cached_iff_member_witness :
    List.Sorted (· ≤ ·) ex_cached_dup.g_cached_blocks ∧
    is_block_cached ex_cached_dup 0xB060 = true ∧
    is_block_cached ex_cached_dup 0xB061 = false :=
  ⟨by decide,
   (is_block_cached_iff_member ex_cached_dup (by decide)).2.1 0xB060 (by decide),
   (is_block_cached_iff_member ex_cached_dup (by decide)).2.2.1 0xB060 (by decide) (by decide)⟩

/-- C12. For a table that `verify_sorted_spans` accepts, and so for the table of a state
that a successful `init_heap` leaves, with no `start + length` overflowing: `start[i] +
length[i] ≤ start[j]` for all indices `i < j`; hence the table is sorted ascending by
start page and no page lies in the ranges of two distinct entries. -/
theorem verify_sorted_spans_disjoint (st : HeapState)
    (hv : verify_sorted_spans st = true ∨
      ∃ (img : process_image) (mem : Nat → Option Nat) (fuel : Nat) (st0 : HeapState),
        init_heap img mem fuel st0 = Outcome.ret (st, true))
    (hno : spans_no_overflow st.g_spans) :
    (∀ (i j : Nat) (a b : ca_span), i < j → st.g_spans[i]? = some a →
      st.g_spans[j]? = some b → a.start + a.length ≤ b.start) ∧
    List.Sorted (· ≤ ·) (st.g_spans.map (fun s => s.start)) ∧
    (∀ (i j : Nat) (a b : ca_span), i ≠ j → st.g_spans[i]? = some a →
      st.g_spans[j]? = some b → ∀ p : Nat, ¬ (span_covers a p ∧ span_covers b p)) := by
  have hver : verify_sorted_spans st = true := by
    rcases hv with h | ⟨img, mem, fuel, st0, h⟩
    · exact h
    · exact (init_heap_verified img mem fuel st0 st h).2
  have hs := verify_spans_sorted st hno hver
  have hlt : ∀ (i j : Nat) (a b : ca_span), i < j → st.g_spans[i]? = some a →
      st.g_spans[j]? = some b → a.start + a.length ≤ b.start :=
    fun i j a b hij ha hb => sorted_lt hs hij ha hb
  refine ⟨hlt, ?_, ?_⟩
  · refine List.pairwise_map.mpr (List.pairwise_iff_getElem.mpr ?_)
    intro i j hi hj hij
    have := hlt i j _ _ hij (List.getElem?_eq_getElem hi) (List.getElem?_eq_getElem hj)
    omega
  · intro i j a b hij ha hb p hp
    unfold span_covers at hp
    rcases Nat.lt_or_gt_of_ne hij with h | h
    · have := hlt i j a b h ha hb
      omega
    · have := hlt j i b a h hb ha
      omega

/-- Witness of C12 on the state `ex_pair`, which `init_heap` leaves when it succeeds on
the process `ex_image`. -/
theorem verify_sorted_spans_disjoint_witness :
    init_heap ex_image ex_mem_cached 2 initial_state = Outcome.ret (ex_pair, true) ∧
    spans_no_overflow ex_pair.g_spans ∧
    (∀ (i j : Nat) (a b : ca_span), i < j → ex_pair.g_spans[i]? = some a →
      ex_pair.g_spans[j]? = some b → a.start + a.length ≤ b.start) :=
  ⟨by decide, by decide,
   (verify_sorted_spans_disjoint ex_pair
     (Or.inr ⟨ex_image, ex_mem_cached, 2, initial_state, by decide⟩) (by decide)).1⟩

/-- C13, the code at the failing input. `init_heap` never clears `g_initialized`: when it
returns false the flag is what it was before the call, so that an engine that was not
ready stays uninitialized. But on the state `ex_pair`, left ready by a successful
`init_heap`, a run against a process whose symbols cannot be found returns false and
leaves the flag set, and `is_heap_block`, `get_heap_block_info`, `get_next_heap_block` and
`walk_inuse_blocks` still succeed. -/
theorem init_heap_failure_keeps_flag :
    (∀ (img : process_image) (mem : Nat → Option Nat) (fuel : Nat) (st st1 : HeapState),
      init_heap img mem fuel st = Outcome.ret (st1, false) →
      st1.g_initialized = st.g_initialized) ∧
    init_heap ex_image ex_mem_cached 2 initial_state = Outcome.ret (ex_pair, true) ∧
    init_heap ex_image_stripped ex_mem_cached 2 ex_pair = Outcome.ret (ex_pair, false) ∧
    ex_pair.g_initialized = true ∧
    is_heap_block ex_pair 0xA000 = true ∧
    get_heap_block_info ex_mem_cached 2 ex_pair 0xA000 ex_blk =
      Outcome.ret ⟨ex_pair, { addr := 0xA000, size := 0x1000, inuse := true }, true⟩ ∧
    get_next_heap_block ex_mem_cached 2 ex_pair 0 ex_blk =
      Outcome.ret ⟨ex_pair, { addr := 0xA000, size := 0x1000, inuse := true }, true⟩ ∧
    (∃ r : walk_result, walk_inuse_blocks ex_mem_cached 2 ex_pair false 0 = Outcome.ret r ∧
      r.ok = true ∧ r.opCount = 127) :=
  ⟨fun img mem fuel st st1 h => (init_heap_carried img mem fuel st st1 false h).1 rfl,
   by decide, by decide, by decide, by decide, by decide, by decide,
   ⟨_, rfl, by decide, by decide⟩⟩

/-- C14, the code at the failing input. `init_heap` discards nothing: whatever it returns,
the span table it found is still at the front of the table it leaves and the cached blocks
it found are still among those it leaves. On the state `ex_pair`, which `init_heap` leaves
when run on the initial state against the process `ex_image`, a second run against the
same process appends the two spans and the cached block once more, fails its own
verification of the span table and returns false; the run on the initial state gives two
spans and one cached block, the second run leaves four and two. -/
theorem init_heap_again_appends :
    (∀ (img : process_image) (mem : Nat → Option Nat) (fuel : Nat) (st st1 : HeapState)
      (b : Bool), init_heap img mem fuel st = Outcome.ret (st1, b) →
      st.g_spans <+: st1.g_spans ∧ List.Subperm st.g_cached_blocks st1.g_cached_blocks) ∧
    init_heap ex_image ex_mem_cached 2 initial_state = Outcome.ret (ex_pair, true) ∧
    init_heap ex_image ex_mem_cached 2 ex_pair = Outcome.ret (ex_pair_twice, false) ∧
    ex_pair.g_spans.length = 2 ∧ ex_pair.g_cached_blocks = [0xB040] ∧
    ex_pair_twice.g_spans.length = 4 ∧ ex_pair_twice.g_cached_blocks = [0xB040, 0xB040] ∧
    verify_sorted_spans ex_pair_twice = false :=
  ⟨fun img mem fuel st st1 b h => (init_heap_carried img mem fuel st st1 b h).2,
   by decide, by decide, by decide, by decide, by decide, by decide, by decide⟩

/-- C15. While `g_initialized` is false, as in the initial state and after any `init_heap`
that returned false on such a state, each of `get_heap_block_info`, `get_next_heap_block`,
`is_heap_block` and `walk_inuse_blocks` returns false, for every argument, and leaves the
globals, the block behind `blk`, the count behind `opCount` and the buffer as they were.
-/
theorem queries_fail_before_init (mem : Nat → Option Nat) (fuel : Nat) (st : HeapState)
    (h : st.g_initialized = false) (addr : Nat) (blk : heap_block) (has_buffer : Bool)
    (opCount : Nat) :
    get_heap_block_info mem fuel st addr blk = Outcome.ret ⟨st, blk, false⟩ ∧
    get_next_heap_block mem fuel st addr blk = Outcome.ret ⟨st, blk, false⟩ ∧
    is_heap_block st addr = false ∧
    walk_inuse_blocks mem fuel st has_buffer opCount = Outcome.ret ⟨st, false, opCount, []⟩ ∧
    initial_state.g_initialized = false ∧
    (∀ (img : process_image) (st1 : HeapState),
      init_heap img mem fuel st = Outcome.ret (st1, false) → st1.g_initialized = false) := by
  refine ⟨?_, ?_, ?_, ?_, rfl, ?_⟩
  · unfold get_heap_block_info; rw [if_pos h]
  · unfold get_next_heap_block; rw [if_pos h]
  · unfold is_heap_block; rw [if_pos h]
  · unfold walk_inuse_blocks; rw [if_pos h]
  · intro img st1 h1
    rw [(init_heap_carried img mem fuel st st1 false h1).1 rfl, h]

/-- Witness of C15 on the initial state. -/
theorem queries_fail_before_init_witness :
    initial_state.g_initialized = false ∧
    get_heap_block_info ex_mem 1 initial_state 0xA400 ex_blk =
      Outcome.ret ⟨initial_state, ex_blk, false⟩ ∧
    walk_inuse_blocks ex_mem 1 initial_state true 7 =
      Outcome.ret ⟨initial_state, false, 7, []⟩ :=
  ⟨rfl, (queries_fail_before_init ex_mem 1 initial_state rfl 0xA400 ex_blk true 7).1,
   (queries_fail_before_init ex_mem 1 initial_state rfl 0xA400 ex_blk true 7).2.2.2.1⟩

/-- C16. In a ready state, when `walk_inuse_blocks` called without buffer has returned,
reporting the count `n`, a following call with a buffer, with any fuel and any value
behind `opCount`, returns true, reports `n` and writes `n` entries; they are the entries
that the first call counted, those it writes itself when given a buffer; the state, with
the bitmaps the first call attached, stays as it is. The first call does return when the
free-object lists of the table end within the fuel. -/
theorem walk_inuse_blocks_count_then_fill (mem : Nat → Option Nat) (fuel : Nat)
    (st : HeapState) (hr : Ready st) (cnt : Nat) :
    (∀ r : walk_result, walk_inuse_blocks mem fuel st false cnt = Outcome.ret r →
      r.ok = true ∧ r.written = [] ∧
      ∃ es : List inuse_block, es.length = r.opCount ∧
        walk_inuse_blocks mem fuel st true cnt = Outcome.ret ⟨r.st, true, r.opCount, es⟩ ∧
        ∀ (fuel2 cnt2 : Nat), walk_inuse_blocks mem fuel2 r.st true cnt2 =
          Outcome.ret ⟨r.st, true, r.opCount, es⟩) ∧
    (lists_end st mem fuel →
      ∃ r : walk_result, walk_inuse_blocks mem fuel st false cnt = Outcome.ret r ∧
        r.ok = true) := by
  have hinit : ¬ (st.g_initialized = false) := by rw [hr.1]; simp
  constructor
  · intro r h
    unfold walk_inuse_blocks at h
    rw [if_neg hinit] at h
    split at h
    · simp at h
    · simp at h
    · rename_i spans1 es hw
      simp only [Outcome.ret.injEq] at h
      subst h
      refine ⟨rfl, rfl, es, rfl, ?_, ?_⟩
      · unfold walk_inuse_blocks
        rw [if_neg hinit, hw]
        rfl
      · intro fuel2 cnt2
        unfold walk_inuse_blocks
        have h2 := walk_spans_again st mem fuel { st with g_spans := spans1 } rfl mem fuel2
          st.g_spans spans1 es hw
        simp only
        rw [if_neg hinit, h2]
        rfl
  · intro hl
    obtain ⟨r2, h2, h3, _⟩ :=
      walk_ascending mem fuel st hr (lists_end_populate_returns st mem fuel hr hl) fuel
        (Nat.le_refl _) false cnt
    exact ⟨r2, h2, h3⟩

/-- Witness of C16 on the two spans of `ex_pair`: the counting call reports 127 and
attaches the bitmap; the filling call on the state it leaves writes 127 entries. -/
theorem walk_inuse_blocks_count_then_fill_witness :
    Ready ex_pair ∧
    walk_inuse_blocks ex_mem_cached 2 ex_pair false 0 =
      Outcome.ret ⟨ex_pair_built, true, 127, []⟩ ∧
    ∃ es : List inuse_block, es.length = 127 ∧
      walk_inuse_blocks ex_mem_cached 2 ex_pair true 0 =
        Outcome.ret ⟨ex_pair_built, true, 127, es⟩ ∧
      ∀ (fuel2 cnt2 : Nat), walk_inuse_blocks ex_mem_cached fuel2 ex_pair_built true cnt2 =
        Outcome.ret ⟨ex_pair_built, true, 127, es⟩ :=
  ⟨by decide, by decide,
   ((walk_inuse_blocks_count_then_fill ex_mem_cached 2 ex_pair (by decide) 0).1
     ⟨ex_pair_built, true, 127, []⟩ (by decide)).2.2⟩

/-- Counterexample to C17 as stated: on the ready state `ex_pair`, which has 127 blocks in
use, a call with a buffer and the value 100 behind `opCount` writes 127 entries. -/
theorem walk_inuse_blocks_writes_past_count :
    Ready ex_pair ∧
    ∃ r : walk_result, walk_inuse_blocks ex_mem_cached 2 ex_pair true 100 = Outcome.ret r ∧
      r.ok = true ∧ r.written.length = 127 ∧ ¬ (r.written.length ≤ 100) :=
  ⟨by decide, ⟨ex_pair_built, true, 127, _⟩, rfl, rfl, by decide, by decide⟩

/-- C17, amended. In a ready state the value behind `opCount` on entry is not read: a
call with a buffer does the same for every entry value. When it returns it has written
as many entries as the count it reports, the count that a call without buffer reports;
and it returns, when the free-object lists of the table end within the fuel, with one
entry for each block in use (`expected_entries`) of each span. -/
theorem walk_inuse_blocks_ignores_count (mem : Nat → Option Nat) (fuel : Nat)
    (st : HeapState) (hr : Ready st) (n m : Nat) :
    walk_inuse_blocks mem fuel st true n = walk_inuse_blocks mem fuel st true m ∧
    (∀ r : walk_result, walk_inuse_blocks mem fuel st true n = Outcome.ret r →
      r.ok = true ∧ r.written.length = r.opCount ∧
      walk_inuse_blocks mem fuel st false m = Outcome.ret ⟨r.st, true, r.opCount, []⟩) ∧
    (lists_end st mem fuel →
      ∃ r : walk_result, walk_inuse_blocks mem fuel st true n = Outcome.ret r ∧
        r.written = (st.g_spans.map (populated st mem fuel)).flatMap
          (expected_entries st.g_config)) := by
  have hinit : ¬ (st.g_initialized = false) := by rw [hr.1]; simp
  refine ⟨?_, ?_, ?_⟩
  · unfold walk_inuse_blocks
    rw [if_neg hinit, if_neg hinit]
  · intro r h
    unfold walk_inuse_blocks at h
    rw [if_neg hinit] at h
    split at h
    · simp at h
    · simp at h
    · rename_i spans1 es hw
      simp only [Outcome.ret.injEq] at h
      subst h
      refine ⟨rfl, rfl, ?_⟩
      unfold walk_inuse_blocks
      rw [if_neg hinit, hw]
      rfl
  · intro hl
    exact ⟨_, walk_exact mem fuel st hr (lists_end_populate_returns st mem fuel hr hl) fuel
      (Nat.le_refl _) true n, rfl⟩

/-- Witness of C17, amended, on the undivided span of `ex_large`: one entry is written
for every value behind `opCount`, zero included. -/
theorem walk_inuse_blocks_ignores_count_witness :
    Ready ex_large ∧
    walk_inuse_blocks ex_mem 1 ex_large true 0 =
      Outcome.ret ⟨ex_large, true, 1, [⟨0xA000, 0x2000⟩]⟩ ∧
    ∀ m : Nat, walk_inuse_blocks ex_mem 1 ex_large true 0 =
      walk_inuse_blocks ex_mem 1 ex_large true m :=
  ⟨by decide, by decide,
   fun m => (walk_inuse_blocks_ignores_count ex_mem 1 ex_large (by decide) 0 m).1⟩

/-- C18. For every span and every state: when a call of `span_populate_free_bitmap` has
returned, a second call on the span it left returns that span unchanged, with the same
`count` and the same bitmap, and so does every further call; a span with size class 0 or
a location other than in-use is returned as it is by any number of calls, so that it has
no bitmap after them when it had none before. The first call does return for a span of
a consistent heap whose free-object list ends within the fuel. -/
theorem span_populate_free_bitmap_idempotent (st : HeapState) (mem : Nat → Option Nat)
    (fuel : Nat) (s : ca_span) :
    (∀ (s1 : ca_span) (b : Bool),
      span_populate_free_bitmap st mem fuel s = Outcome.ret (s1, b) →
      (∀ fuel2 : Nat, span_populate_free_bitmap st mem fuel2 s1 = Outcome.ret (s1, true)) ∧
      (∀ k : Nat, populate_times st mem fuel (k + 1) s = Outcome.ret s1)) ∧
    (s.sizeclass = 0 ∨ s.location ≠ IN_USE →
      ∀ (fuel2 k : Nat), populate_times st mem fuel2 k s = Outcome.ret s) ∧
    (span_wf st.g_config s →
      (s.location = IN_USE → s.sizeclass ≠ 0 → list_ends st.g_config mem fuel s) →
      ∃ s1 : ca_span, span_populate_free_bitmap st mem fuel s = Outcome.ret (s1, true)) := by
  refine ⟨?_, ?_, ?_⟩
  · intro s1 b h
    have hset := populate_result_settled st mem fuel s s1 b h
    refine ⟨fun fuel2 => populate_again st mem fuel s s1 b h st mem fuel2, ?_⟩
    intro k
    unfold populate_times
    rw [h]
    exact populate_times_settled st mem fuel s1 hset k
  · intro hc fuel2 k
    exact populate_times_settled st mem fuel2 s (Or.inr hc) k
  · intro hwf hl
    exact ⟨_, populate_eq_populated st mem fuel s hwf (span_ends_not_hang st mem fuel s hwf hl)
      fuel (Nat.le_refl _)⟩

/-- Witness of C18 on the span of `ex_small`: the first call builds the bitmap with the
blocks 1 and 2 free, two calls in a row leave the same span, and a call on that span
returns it for every fuel. -/
theorem span_populate_free_bitmap_idempotent_witness :
    span_populate_free_bitmap ex_small ex_mem 2 (ex_span 11 1 0xB020 1 IN_USE) =
      Outcome.ret (ex_small_span_built, true) ∧
    populate_times ex_small ex_mem 2 2 (ex_span 11 1 0xB020 1 IN_USE) =
      Outcome.ret ex_small_span_built ∧
    ∀ fuel2 : Nat, span_populate_free_bitmap ex_small ex_mem fuel2 ex_small_span_built =
      Outcome.ret (ex_small_span_built, true) :=
  ⟨by decide,
   ((span_populate_free_bitmap_idempotent ex_small ex_mem 2
     (ex_span 11 1 0xB020 1 IN_USE)).1 ex_small_span_built true (by decide)).2 1,
   ((span_populate_free_bitmap_idempotent ex_small ex_mem 2
     (ex_span 11 1 0xB020 1 IN_USE)).1 ex_small_span_built true (by decide)).1⟩

/-- C19. With the links of the chain readable (and `realloc` succeeding),
`parse_central_freelist_tcentry` returns; it returns false exactly when the chain from
`head`, up to and including `tail` or up to a null link, has more than 1024 nodes, so that
a chain of exactly 1024 nodes is accepted. When it returns true it has appended the node
addresses of the whole chain, in chain order and each once (the chain visits no address
twice), and has set `*empty_slot` to true exactly when `head` is null. -/
theorem parse_central_freelist_tcentry_bound (mem : Nat → Option Nat)
    (tcentry : tc_entry_value) (empty_slot : Bool) (st : HeapState)
    (hr : links_readable mem tcentry.tail 1024 tcentry.head = true) :
    ∃ (st1 : HeapState) (empty ok : Bool),
      parse_central_freelist_tcentry mem tcentry empty_slot st = Outcome.ret (st1, empty, ok) ∧
      (ok = false ↔ 1024 < (chain_nodes mem tcentry.tail 1025 tcentry.head).length) ∧
      ((chain_nodes mem tcentry.tail 1025 tcentry.head).length = 1024 → ok = true) ∧
      (ok = true →
        st1 = with_cached st (chain_nodes mem tcentry.tail 1025 tcentry.head) ∧
        (∀ k : Nat, 1025 ≤ k → chain_nodes mem tcentry.tail k tcentry.head =
          chain_nodes mem tcentry.tail 1025 tcentry.head) ∧
        (chain_nodes mem tcentry.tail 1025 tcentry.head).Nodup ∧
        (empty = true ↔ tcentry.head = 0)) := by
  have hspec := tcentry_chain_spec mem tcentry.tail 1024 1025 0 tcentry.head st (by omega)
    (by omega) hr
  have hle := chain_nodes_length mem tcentry.tail 1025 tcentry.head
  unfold parse_central_freelist_tcentry
  rw [hspec]
  by_cases hlen : (chain_nodes mem tcentry.tail 1025 tcentry.head).length ≤ 1024
  · rw [decide_eq_true hlen]
    refine ⟨_, _, true, rfl, ?_, fun _ => rfl, fun _ => ⟨rfl, ?_, ?_, ?_⟩⟩
    · simp only [Bool.true_eq_false, false_iff]; omega
    · exact fun k hk => chain_nodes_stable mem _ 1025 _ (by omega) k hk
    · exact chain_nodes_nodup mem _ 1025 _ (by omega)
    · simp only [Nat.zero_add, decide_eq_true_eq, List.length_eq_zero]
      unfold chain_nodes
      by_cases h0 : tcentry.head = 0
      · simp [h0]
      · simp [h0]
  · rw [decide_eq_false hlen]
    refine ⟨_, _, false, rfl, ?_, fun h => ?_, fun h => ?_⟩
    · simp only [true_iff]; omega
    · omega
    · simp at h

/-- Witness of C19 on the chain that starts at `0x1000`. With the tail `0x2FF8` it has
exactly 1024 nodes: the call returns true with 1024 cached blocks and the slot is not
empty. With the tail `0x3000` it has 1025 nodes: the call returns false. -/
theorem parse_central_freelist_tcentry_bound_witness :
    links_readable ex_mem_long 0x2FF8 1024 0x1000 = true ∧
    (chain_nodes ex_mem_long 0x2FF8 1025 0x1000).length = 1024 ∧
    (∃ (st1 : HeapState) (empty : Bool),
      parse_central_freelist_tcentry ex_mem_long ⟨0x1000, 0x2FF8⟩ true initial_state =
        Outcome.ret (st1, empty, true) ∧
      st1.g_cached_blocks.length = 1024 ∧ empty = false) ∧
    links_readable ex_mem_long 0x3000 1024 0x1000 = true ∧
    (chain_nodes ex_mem_long 0x3000 1025 0x1000).length = 1025 ∧
    ∃ (st2 : HeapState) (empty : Bool),
      parse_central_freelist_tcentry ex_mem_long ⟨0x1000, 0x3000⟩ true initial_state =
        Outcome.ret (st2, empty, false) := by
  obtain ⟨st1, empty, ok, h1, _, h3, h4⟩ :=
    parse_central_freelist_tcentry_bound ex_mem_long ⟨0x1000, 0x2FF8⟩ true initial_state
      (by decide)
  obtain ⟨st2, empty2, ok2, k1, k2, _, _⟩ :=
    parse_central_freelist_tcentry_bound ex_mem_long ⟨0x1000, 0x3000⟩ true initial_state
      (by decide)
  have hlen : (chain_nodes ex_mem_long 0x2FF8 1025 0x1000).length = 1024 := by decide
  have hlen2 : (chain_nodes ex_mem_long 0x3000 1025 0x1000).length = 1025 := by decide
  have hok : ok = true := h3 hlen
  have hok2 : ok2 = false := k2.mpr (by rw [hlen2]; decide)
  subst hok
  subst hok2
  obtain ⟨h5, _, _, h6⟩ := h4 rfl
  refine ⟨by decide, hlen, ⟨st1, empty, h1, ?_, ?_⟩, by decide, hlen2, st2, empty2, k1⟩
  · rw [h5]
    simp only [with_cached, initial_state, List.nil_append]
    exact hlen
  · cases empty with
    | false => rfl
    | true => exact absurd (h6.mp rfl) (by decide)

/-- Counterexample to C20 as stated: a free list of recorded length `L = 1` whose chain
has `n = 2` nodes, `0xB020` and `0xB040`. `parse_thread_cache_lists` appends both, one
more than `L` and than `min(n, L)`. -/
theorem parse_thread_cache_lists_one_past_length :
    (∀ k : Nat, 2 ≤ k → chain_nodes ex_mem_chain 0 k 0xB020 = [0xB020, 0xB040]) ∧
    parse_thread_cache_lists ex_mem_chain 3 ex_free_lists ex_configured =
      Outcome.ret ({ ex_configured with g_cached_blocks := [0xB020, 0xB040] }, true) ∧
    ¬ ([0xB020, 0xB040].length ≤ 1) ∧
    [0xB020, 0xB040] ≠ (chain_nodes ex_mem_chain 0 2 0xB020).take (min 2 1) := by
  refine ⟨?_, by decide, by decide, by decide⟩
  intro k hk
  rcases Nat.eq_or_lt_of_le hk with h | h
  · subst h
    decide
  · rw [chain_nodes_stable ex_mem_chain 0 3 0xB020 (by decide) k (by omega)]
    decide

/-- C20, amended. With `kNumClasses` free lists whose recorded lengths are below `2^32 -
1` and whose links can be read, `parse_thread_cache_lists` returns true, whether or not
the chains have their recorded lengths, and has appended for each free list, in order, the
first `L + 1` nodes of its chain at most, `L` its recorded length: the nodes of the chain
under the bound `L + 1`, which are the front of the chain under any larger bound. -/
theorem parse_thread_cache_lists_appends (mem : Nat → Option Nat) (fuel : Nat)
    (lists : List free_list_value) (st : HeapState)
    (hk : st.g_config.kNumClasses = lists.length)
    (hl : ∀ fl ∈ lists, fl.length_ + 1 < UINT_MOD)
    (hr : ∀ fl ∈ lists, links_readable mem 0 fl.length_ fl.list_ = true)
    (hf : ∀ fl ∈ lists, fl.length_ < fuel) :
    parse_thread_cache_lists mem fuel lists st =
      Outcome.ret (with_cached st (lists.flatMap (thread_list_nodes mem)), true) ∧
    ∀ fl ∈ lists, (thread_list_nodes mem fl).length ≤ fl.length_ + 1 ∧
      ∀ k : Nat, fl.length_ + 1 ≤ k →
        thread_list_nodes mem fl = (chain_nodes mem 0 k fl.list_).take (fl.length_ + 1) := by
  constructor
  · unfold parse_thread_cache_lists
    rw [hk, thread_cache_lists_from_spec mem fuel lists hl hr hf lists.length 0 st (by omega)]
    rfl
  · intro fl _
    refine ⟨chain_nodes_length mem 0 _ _, fun k hk2 => ?_⟩
    rw [chain_nodes_take, Nat.min_eq_right hk2]
    rfl

/-- Witness of C20, amended, on the free lists of the counterexample: for the recorded
length 1 the two nodes of the chain are appended. -/
theorem parse_thread_cache_lists_appends_witness :
    (∀ fl ∈ ex_free_lists, links_readable ex_mem_chain 0 fl.length_ fl.list_ = true) ∧
    parse_thread_cache_lists ex_mem_chain 3 ex_free_lists ex_configured =
      Outcome.ret (with_cached ex_configured
        (ex_free_lists.flatMap (thread_list_nodes ex_mem_chain)), true) ∧
    ex_free_lists.flatMap (thread_list_nodes ex_mem_chain) = [0xB020, 0xB040] :=
  ⟨by decide,
   (parse_thread_cache_lists_appends ex_mem_chain 3 ex_free_lists ex_configured rfl
     (by decide) (by decide) (by decide)).1,
   by decide⟩

/-- Counterexample to C21 as stated: the cached addresses `0xB041`, `0xB040` are sorted
to `[0xB040, 0xB041]`, a sorted array without duplicates, and
`verify_sorted_cached_blocks` rejects it; `init_heap` on a process with these two cached
addresses returns false, with a span table that `verify_sorted_spans` accepts. -/
theorem verify_sorted_cached_blocks_rejects_successor :
    qsort_cached_blocks [0xB041, 0xB040] = [0xB040, 0xB041] ∧
    List.Sorted (· ≤ ·) [0xB040, 0xB041] ∧
    verify_sorted_cached_blocks { ex_pair with g_cached_blocks := [0xB040, 0xB041] } = false ∧
    init_heap ex_image_adjacent ex_mem_cached 2 initial_state =
      Outcome.ret ({ ex_pair with g_initialized := false,
                                  g_cached_blocks := [0xB040, 0xB041] }, false) ∧
    verify_sorted_spans { ex_pair with g_initialized := false,
                                       g_cached_blocks := [0xB040, 0xB041] } = true := by
  refine ⟨by decide, by decide, by decide, by decide, by decide⟩

/-- C21, amended. For every list of cached addresses: the sort of `init_heap` leaves them
ascending, and `verify_sorted_cached_blocks` accepts the sorted array exactly when no
cached address has its successor address (`a + 1` as `address_t`) cached as well. Whether
an address is there once or several times makes no difference, so duplicates never make
the check fail; and once the four builders have succeeded, `init_heap` returns true
exactly when no cached address has its successor cached and `verify_sorted_spans`
accepts the span table. -/
theorem verify_sorted_cached_blocks_accepts (st : HeapState) (l : List Nat) :
    List.Sorted (· ≤ ·) (qsort_cached_blocks l) ∧ (qsort_cached_blocks l).Perm l ∧
    (verify_sorted_cached_blocks { st with g_cached_blocks := qsort_cached_blocks l } = true ↔
      ∀ a ∈ l, add64 a 1 ∉ l) ∧
    (∀ l2 : List Nat, (∀ a : Nat, a ∈ l2 ↔ a ∈ l) →
      verify_sorted_cached_blocks { st with g_cached_blocks := qsort_cached_blocks l2 } =
        verify_sorted_cached_blocks { st with g_cached_blocks := qsort_cached_blocks l }) ∧
    (∀ (img : process_image) (mem : Nat → Option Nat) (fuel : Nat)
      (st1 st2 st3 st4 : HeapState), parse_config img st = (st1, true) →
      parse_pagemap img st1 = (st2, true) →
      parse_thread_cache img mem fuel st2 = Outcome.ret (st3, true) →
      parse_central_cache img mem st3 = Outcome.ret (st4, true) →
      ((∃ st5 : HeapState, init_heap img mem fuel st = Outcome.ret (st5, true)) ↔
        (∀ a ∈ st4.g_cached_blocks, add64 a 1 ∉ st4.g_cached_blocks) ∧
        verify_sorted_spans st4 = true)) := by
  refine ⟨qsort_cached_blocks_sorted l, qsort_cached_blocks_perm l, verify_cached_iff st l,
    ?_, ?_⟩
  · intro l2 hmem
    have h1 := verify_cached_iff st l
    have h2 := verify_cached_iff st l2
    have h3 : (∀ a ∈ l2, add64 a 1 ∉ l2) ↔ (∀ a ∈ l, add64 a 1 ∉ l) := by
      constructor
      · intro h a ha hn
        exact h a ((hmem a).mpr ha) ((hmem _).mpr hn)
      · intro h a ha hn
        exact h a ((hmem a).mp ha) ((hmem _).mp hn)
    cases e2 : verify_sorted_cached_blocks
        { st with g_cached_blocks := qsort_cached_blocks l2 } with
    | true => exact (h1.mpr (h3.mp (h2.mp e2))).symm
    | false =>
      cases e1 : verify_sorted_cached_blocks
          { st with g_cached_blocks := qsort_cached_blocks l } with
      | false => rfl
      | true =>
        rw [h2.mpr (h3.mpr (h1.mp e1))] at e2
        cases e2
  · intro img mem fuel st1 st2 st3 st4 p1 p2 p3 p4
    rw [init_heap_after_builders img mem fuel st st1 st2 st3 st4 p1 p2 p3 p4]
    have hv := verify_cached_iff st4 st4.g_cached_blocks
    have hsp : verify_sorted_spans
        { st4 with g_cached_blocks := qsort_cached_blocks st4.g_cached_blocks }
        = verify_sorted_spans st4 := verify_sorted_spans_congr _ _ rfl rfl
    rw [hsp]
    constructor
    · rintro ⟨st5, h⟩
      split at h
      · simp at h
      · rename_i hc
        simp only [not_or, Bool.not_eq_false] at hc
        exact ⟨hv.mp hc.1, hc.2⟩
    · rintro ⟨h1, h2⟩
      rw [if_neg (by
        simp only [not_or, Bool.not_eq_false]
        exact ⟨hv.mpr h1, h2⟩)]
      exact ⟨_, rfl⟩

/-- Witness of C21, amended: the array `[0xB040, 0xB040]` is accepted, and `init_heap` on
a process that holds the block `0xB040` in a thread cache and in the central cache
returns true with the block cached twice. -/
theorem verify_sorted_cached_blocks_accepts_witness :
    verify_sorted_cached_blocks
      { ex_pair with g_cached_blocks := qsort_cached_blocks [0xB040, 0xB040] } = true ∧
    init_heap ex_image_dup ex_mem_cached 2 initial_state =
      Outcome.ret ({ ex_pair with g_cached_blocks := [0xB040, 0xB040] }, true) :=
  ⟨(verify_sorted_cached_blocks_accepts ex_pair [0xB040, 0xB040]).2.2.1.mpr (by decide),
   by decide⟩

/-- C22. The builder of the span table refines the page-skip walk: over the slots of
the page map in ascending order it appends one entry for each slot with a span that it
examines and passes over the next length - 1 slots unread. Hence, when the page ids of
the slots ascend and every span the walk finds at a slot has that page as its start and
a length of at least one page, the table built from an empty one is strictly ascending
by start page, the ranges of its entries are pairwise disjoint, and a span found by the
walk is recorded once, no entry coming from the other slots of its range; a page map
in which every span stands at each of its covering slots gives exactly these spans, each
once. -/
theorem parse_pagemap_page_skip (img : process_image)
    (root : List (Option (List (Option (List (Option span_value))))))
    (himg : img.pagemap_ = some root) (pid : Nat → Nat) (hp : StrictMono pid)
    (st : HeapState) (hs : st.g_spans = [])
    (h : ∀ e ∈ examined_slots st.skip_npage 0 (page_slots root),
      e.2.start = pid e.1 ∧ 1 ≤ e.2.length ∧ e.2.length < ULONG_MOD) :
    (∀ st0 : HeapState, parse_pagemap img st0 =
      (with_spans st0
        ((examined_slots st0.skip_npage 0 (page_slots root)).map (fun e => e.2))
        (skip_after st0.skip_npage (page_slots root)), true)) ∧
    (parse_pagemap img st).1.g_spans =
      table_entries st.fresh_span_memory
        ((examined_slots st.skip_npage 0 (page_slots root)).map (fun e => e.2)) ∧
    (parse_pagemap img st).1.g_spans.map span_members =
      (examined_slots st.skip_npage 0 (page_slots root)).map (fun e => e.2) ∧
    List.Sorted (· < ·) ((parse_pagemap img st).1.g_spans.map ca_span.start) ∧
    List.Pairwise (fun a b : ca_span => a.start + a.length ≤ b.start)
      (parse_pagemap img st).1.g_spans ∧
    spans_sorted (parse_pagemap img st).1.g_spans ∧
    (∀ e ∈ examined_slots st.skip_npage 0 (page_slots root),
      ((parse_pagemap img st).1.g_spans.map span_members).count e.2 = 1 ∧
      (examined_slots st.skip_npage 0 (page_slots root)).filter
        (fun x => decide (e.1 ≤ x.1 ∧ x.1 < e.1 + e.2.length)) = [e]) ∧
    (∀ spans : List (Nat × span_value), page_slots root = slots_of_spans spans →
      st.skip_npage = 0 → (∀ gv ∈ spans, 1 ≤ gv.2.length ∧ gv.2.length < ULONG_MOD) →
      (parse_pagemap img st).1.g_spans =
        table_entries st.fresh_span_memory (spans.map (fun gv => gv.2))) := by
  have htab : (parse_pagemap img st).1.g_spans =
      table_entries st.fresh_span_memory
        ((examined_slots st.skip_npage 0 (page_slots root)).map (fun e => e.2)) := by
    rw [parse_pagemap_spec img root himg st]
    simp only [with_spans, hs, List.nil_append]
  have hpw := examined_entries hp (page_slots root) st.skip_npage 0 h st.fresh_span_memory
  have hmem : (table_entries st.fresh_span_memory
      ((examined_slots st.skip_npage 0 (page_slots root)).map (fun e => e.2))).map
        span_members = (examined_slots st.skip_npage 0 (page_slots root)).map (fun e => e.2) :=
    table_entries_members _ _
  have hlen : ∀ s ∈ table_entries st.fresh_span_memory
      ((examined_slots st.skip_npage 0 (page_slots root)).map (fun e => e.2)),
      1 ≤ s.length := by
    intro s hs1
    have h1 : span_members s ∈ (examined_slots st.skip_npage 0 (page_slots root)).map
        (fun e => e.2) := by
      rw [← hmem]
      exact List.mem_map.mpr ⟨s, hs1, rfl⟩
    obtain ⟨e, he, heq⟩ := List.mem_map.mp h1
    have h2 := (h e he).2.1
    rw [heq, members_length] at h2
    exact h2
  obtain ⟨hsorted, hchain, hnodup⟩ := disjoint_sorted hpw hlen
  refine ⟨parse_pagemap_spec img root himg, htab, ?_, ?_, ?_, ?_, ?_, ?_⟩
  · rw [htab]; exact hmem
  · rw [htab]; exact hsorted
  · rw [htab]; exact hpw
  · rw [htab]; exact hchain
  · intro e he
    refine ⟨?_, examined_window _ _ _ (fun x hx => (h x hx).2) e he⟩
    rw [htab]
    refine List.count_eq_one_of_mem hnodup ?_
    rw [hmem]
    exact List.mem_map.mpr ⟨e, he, rfl⟩
  · intro spans hsl h0 hall
    rw [htab, h0, hsl, examined_tiling spans 0 hall]

/-- Witness of C22 on `ex_image_long`, where the span of the pages 1 to 3 stands at three
slots: the walk examines the slots 1 and 4 only, and the table holds the two spans in
ascending order, each once. -/
theorem parse_pagemap_page_skip_witness :
    StrictMono (fun p : Nat => p) ∧
    (∀ e ∈ examined_slots initial_state.skip_npage 0 (page_slots ex_root_long),
      e.2.start = e.1 ∧ 1 ≤ e.2.length ∧ e.2.length < ULONG_MOD) ∧
    (examined_slots 0 0 (page_slots ex_root_long)).map (fun e => (e.1, e.2.start, e.2.length)) =
      [(1, 1, 3), (4, 4, 1)] ∧
    (parse_pagemap ex_image_long initial_state).1.g_spans.map
      (fun s => (s.start, s.length)) = [(1, 3), (4, 1)] ∧
    List.Sorted (· < ·)
      ((parse_pagemap ex_image_long initial_state).1.g_spans.map ca_span.start) ∧
    List.Pairwise (fun a b : ca_span => a.start + a.length ≤ b.start)
      (parse_pagemap ex_image_long initial_state).1.g_spans :=
  ⟨fun _ _ hab => hab, by decide, by decide, by decide,
   (parse_pagemap_page_skip ex_image_long ex_root_long rfl (fun p => p)
     (fun _ _ hab => hab) initial_state rfl (by decide)).2.2.2.1,
   (parse_pagemap_page_skip ex_image_long ex_root_long rfl (fun p => p)
     (fun _ _ hab => hab) initial_state rfl (by decide)).2.2.2.2.1⟩

/-- C23, the code at the failing input. In the ready state `ex_nolink` the free-object
list of the span at `0xB000` is the cycle of the two nodes `0xB020` and `0xB040`, both
inside the span and on block boundaries. The list walk of `span_populate_free_bitmap`
uses up every amount of fuel, and so do the three queries that populate the bitmap; the
walk of a central free list over the same cycle ends at its cap of 1024 nodes with a
failure. -/
theorem span_populate_free_bitmap_cycle_unbounded :
    Ready ex_nolink ∧
    ex_nolink.g_spans = [ex_span 11 1 0xB020 1 IN_USE] ∧
    span_base ex_nolink.g_config (ex_span 11 1 0xB020 1 IN_USE) = 0xB000 ∧
    span_bytes ex_nolink.g_config (ex_span 11 1 0xB020 1 IN_USE) = 0x1000 ∧
    class_size ex_nolink.g_config 1 = 32 ∧
    ex_mem_cyclic 0xB020 = some 0xB040 ∧ ex_mem_cyclic 0xB040 = some 0xB020 ∧
    (∀ fuel : Nat,
      span_populate_free_bitmap ex_nolink ex_mem_cyclic fuel (ex_span 11 1 0xB020 1 IN_USE) =
        Outcome.hang) ∧
    (∀ (fuel : Nat) (blk : heap_block),
      get_heap_block_info ex_mem_cyclic fuel ex_nolink 0xB000 blk = Outcome.hang) ∧
    (∀ (fuel : Nat) (blk : heap_block),
      get_next_heap_block ex_mem_cyclic fuel ex_nolink 0 blk = Outcome.hang) ∧
    (∀ (fuel : Nat) (has_buffer : Bool) (opCount : Nat),
      walk_inuse_blocks ex_mem_cyclic fuel ex_nolink has_buffer opCount = Outcome.hang) ∧
    (∀ (e : Bool) (st : HeapState), ∃ (st1 : HeapState) (e1 : Bool),
      parse_central_freelist_tcentry ex_mem_cyclic ⟨0xB020, 0⟩ e st =
        Outcome.ret (st1, e1, false)) :=
  ⟨by decide, rfl, by decide, by decide, by decide, by decide, by decide, populate_cycle,
   info_cycle, next_cycle, walk_cycle, tcentry_cycle⟩

/-- C24, the code at the failing input. In a ready state, for an address `a` covered by a
span: whenever `get_heap_block_info(a)` returns, it returns true with a block `b` such
that `b.addr ≤ a < b.addr + b.size` and `b.addr - base` is a multiple of `b.size`, and at
every address of `[b.addr, b.addr + b.size)` that the span covers the call returns the
same block, on the state before (same fuel) and on the state the first call left (any
fuel). The call does return when the span is not in use or has size class 0, and for an
in-use subdivided span when its free-object list ends and the bit of the block index of
`a` lies in a word of the bitmap (in `ex_small` the queries `0xB041` and `0xB05F` give
`{0xB040, 32, false}`). In the ready state `ex_tail` the address `0x3FFF`, the last byte
of the span, is covered by the span and has block index 32, the block count; its bit
would be in word 1 of the one-word bitmap, and no run of `get_heap_block_info` returns
a block. In `ex_nolink` with a cyclic free-object list no run returns either. -/
theorem get_heap_block_info_no_block_past_bitmap :
    (∀ (mem : Nat → Option Nat) (fuel : Nat) (st : HeapState), Ready st →
      ∀ (i : Nat) (s : ca_span) (a : Nat), st.g_spans[i]? = some s →
      span_covers s (a >>> st.g_config.kPageShift) →
      (∀ (blk : heap_block) (r : query_result),
        get_heap_block_info mem fuel st a blk = Outcome.ret r →
        r.ok = true ∧ r.blk.addr ≤ a ∧ a < r.blk.addr + r.blk.size ∧
        (r.blk.addr - span_base st.g_config s) % r.blk.size = 0 ∧
        ∀ (a2 : Nat) (blk2 : heap_block), r.blk.addr ≤ a2 → a2 < r.blk.addr + r.blk.size →
          span_covers s (a2 >>> st.g_config.kPageShift) →
          get_heap_block_info mem fuel st a2 blk2 = Outcome.ret r ∧
          ∀ fuel2 : Nat, get_heap_block_info mem fuel2 r.st a2 blk2 = Outcome.ret r) ∧
      ((s.location = IN_USE → s.sizeclass ≠ 0 →
          list_ends st.g_config mem fuel s ∧
          (a - span_base st.g_config s) / class_size st.g_config s.sizeclass / UINT_BITS
            < bitmap_words st.g_config s) →
        ∀ blk : heap_block, ∃ r, get_heap_block_info mem fuel st a blk = Outcome.ret r)) ∧
    Ready ex_small ∧
    get_heap_block_info ex_mem 2 ex_small 0xB041 ex_blk = Outcome.ret
      ⟨ex_small_built, { addr := 0xB040, size := 32, inuse := false }, true⟩ ∧
    get_heap_block_info ex_mem 2 ex_small 0xB05F ex_blk = Outcome.ret
      ⟨ex_small_built, { addr := 0xB040, size := 32, inuse := false }, true⟩ ∧
    Ready ex_tail ∧ ex_tail.g_spans = [ex_span 1 3 0 2 IN_USE] ∧
    span_covers (ex_span 1 3 0 2 IN_USE) (0x3FFF >>> ex_tail.g_config.kPageShift) ∧
    (0x3FFF - span_base ex_cfg (ex_span 1 3 0 2 IN_USE)) / class_size ex_cfg 2 = 32 ∧
    block_count ex_cfg (ex_span 1 3 0 2 IN_USE) = 32 ∧
    bitmap_words ex_cfg (ex_span 1 3 0 2 IN_USE) = 1 ∧
    (∀ (fuel : Nat) (blk : heap_block),
      ¬ ∃ r, get_heap_block_info ex_mem fuel ex_tail 0x3FFF blk = Outcome.ret r) ∧
    Ready ex_nolink ∧
    (∀ (fuel : Nat) (blk : heap_block),
      ¬ ∃ r, get_heap_block_info ex_mem_cyclic fuel ex_nolink 0xB000 blk = Outcome.ret r) := by
  refine ⟨?_, by decide, by decide, by decide, by decide, rfl, by decide, by decide,
    by decide, by decide,
    fun fuel blk => info_tail_never_returns 0x3FFF (by decide) (by decide) fuel blk,
    by decide, ?_⟩
  · intro mem fuel st hr i s a hs hc
    refine ⟨fun blk r h => info_block mem fuel st hr i s hs a hc blk r h, ?_⟩
    intro hcond blk
    by_cases hloc : s.location ≠ IN_USE
    · exact ⟨_, ((info_whole_span mem fuel st hr a blk).1 i s hs hc).1 hloc⟩
    · rw [ne_eq, not_not] at hloc
      by_cases hcls : s.sizeclass = 0
      · exact ⟨_, ((info_whole_span mem fuel st hr a blk).1 i s hs hc).2 hloc hcls⟩
      · obtain ⟨hl, hidx⟩ := hcond hloc hcls
        obtain ⟨bm, _, _, hinfo⟩ := info_subdivided mem fuel st hr i s hs a hc hloc hcls
          (list_ends_not_hang st mem fuel s (hr.2.2 s (List.getElem?_mem hs)) hloc hcls hl)
          hidx
        exact ⟨_, hinfo fuel (Nat.le_refl _) blk⟩
  · rintro fuel blk ⟨r, h⟩
    rw [info_cycle] at h
    cases h

/-- C25, the code at the failing input. In a ready state, for every address in the tail
of an in-use subdivided span, behind its last whole block, a run of
`get_heap_block_info` that returns reports the block at index `block_count`, not below
it, and that block ends behind the span. In `ex_short` (one page, 10 blocks of 376
bytes, tail from `0x1EB0`) the query `0x1F00` returns `{0x1EB0, 376, in use}` from bit 10
of the bitmap, a block that ends at `0x2028`, behind the end `0x2000` of the span. In
`ex_tail` (three pages, 32 blocks) the query `0x3FFF` reads word 1 of the one-word
bitmap. -/
theorem get_heap_block_info_tail_past_span :
    (∀ (mem : Nat → Option Nat) (fuel : Nat) (st : HeapState), Ready st →
      ∀ (i : Nat) (s : ca_span) (a : Nat), st.g_spans[i]? = some s →
      span_covers s (a >>> st.g_config.kPageShift) → s.location = IN_USE → s.sizeclass ≠ 0 →
      span_base st.g_config s + block_count st.g_config s * class_size st.g_config s.sizeclass
        ≤ a →
      ∀ (blk : heap_block) (r : query_result),
        get_heap_block_info mem fuel st a blk = Outcome.ret r →
        (a - span_base st.g_config s) / class_size st.g_config s.sizeclass
          = block_count st.g_config s ∧
        span_base st.g_config s + span_bytes st.g_config s < r.blk.addr + r.blk.size) ∧
    Ready ex_short ∧
    span_covers (ex_span 1 1 0 2 IN_USE) (0x1F00 >>> ex_short.g_config.kPageShift) ∧
    block_count ex_cfg (ex_span 1 1 0 2 IN_USE) = 10 ∧
    (0x1F00 - span_base ex_cfg (ex_span 1 1 0 2 IN_USE)) / class_size ex_cfg 2 = 10 ∧
    get_heap_block_info ex_mem 1 ex_short 0x1F00 ex_blk = Outcome.ret
      ⟨ex_short_built, { addr := 0x1EB0, size := 376, inuse := true }, true⟩ ∧
    span_base ex_cfg (ex_span 1 1 0 2 IN_USE) + span_bytes ex_cfg (ex_span 1 1 0 2 IN_USE)
      = 0x2000 ∧
    0x2000 < 0x1EB0 + 376 ∧
    get_heap_block_info ex_mem 1 ex_tail 0x3FFF ex_blk = Outcome.fault := by
  refine ⟨?_, by decide, by decide, by decide, by decide, by decide, by decide, by decide,
    by decide⟩
  intro mem fuel st hr i s a hs hc hloc hcls htail blk r h
  obtain ⟨h1, _, _, h4⟩ := info_tail mem fuel st hr i s hs a hc hloc hcls htail blk r h
  exact ⟨h1, h4⟩

/-- Counterexample to C26 as stated: `init_heap` succeeds on the process `ex_image_huge`,
whose one span holds `2^32 + 512` blocks of 8 bytes. In the state it leaves,
`get_next_heap_block 0` builds the bitmap and returns the first block `0x10000`; the
address `0x800010008` lies in the block of index `2^32 + 1` of the span, and
`get_next_heap_block 0x800010008` succeeds with the block at `0x10010`, below the
address given: the block index is cut to 32 bits. -/
theorem get_next_heap_block_index_wraps :
    init_heap ex_image_huge ex_mem 1 initial_state = Outcome.ret (ex_huge, true) ∧
    get_next_heap_block ex_mem 1 ex_huge 0 ex_blk = Outcome.ret
      ⟨ex_huge_built, { addr := 0x10000, size := 8, inuse := true }, true⟩ ∧
    span_covers (ex_span 16 8388609 0 1 IN_USE) (0x800010008 >>> ex_huge.g_config.kPageShift) ∧
    (0x800010008 - span_base ex_huge.g_config (ex_span 16 8388609 0 1 IN_USE)) /
      class_size ex_huge.g_config 1 = 4294967297 ∧
    (∀ fuel : Nat, get_next_heap_block ex_mem fuel ex_huge_built 0x800010008 ex_blk =
      Outcome.ret ⟨ex_huge_built, { addr := 0x10010, size := 8, inuse := true }, true⟩) ∧
    0x10010 < 0x800010008 := by
  refine ⟨by decide, by decide, by decide, by decide, ?_, by decide⟩
  intro fuel
  rfl

/-- C26, amended. In a ready state of a consistent heap (`Ready`: the flag is set; the table is sorted with disjoint
ranges; every span has at least one page and ends inside the 64-bit address space; every
in-use subdivided span has its size class in the table with a positive size, holds at
least one block and fewer than `2^32`, and has either no bitmap or the bitmap and the
block count that `span_populate_free_bitmap` gives it),
for every nonzero address `a`: when `get_next_heap_block(a)` returns true with block
`b`, then `b.addr > a`. Hence the blocks that repeated calls visit, each call fed the
address of the block before, have strictly increasing addresses, all above `a`. -/
theorem get_next_heap_block_increasing (mem : Nat → Option Nat) (fuel : Nat)
    (st : HeapState) (hr : Ready st) (a : Nat) (ha : a ≠ 0) (blk : heap_block) :
    (∀ r : query_result, get_next_heap_block mem fuel st a blk = Outcome.ret r →
      r.ok = true → a < r.blk.addr) ∧
    ∀ k : Nat,
      List.Chain (· < ·) a ((next_blocks mem fuel k st a blk).map heap_block.addr) ∧
      List.Sorted (· < ·) ((next_blocks mem fuel k st a blk).map heap_block.addr) := by
  refine ⟨fun r h hok => (next_above mem fuel st hr a ha blk r h hok).1, fun k => ?_⟩
  have hc := next_blocks_chain mem fuel k st a blk hr ha
  exact ⟨hc, (List.pairwise_cons.mp (List.chain_iff_pairwise.mp hc)).2⟩

/-- Witness of C26, amended, on `ex_pair`, from the address `0xA000` of its undivided span: three
calls visit the blocks at `0xB000`, `0xB020` and `0xB040` of the next span. -/
theorem get_next_heap_block_increasing_witness :
    Ready ex_pair ∧
    (next_blocks ex_mem_cached 2 3 ex_pair 0xA000 ex_blk).map heap_block.addr =
      [0xB000, 0xB020, 0xB040] ∧
    List.Chain (· < ·) 0xA000
      ((next_blocks ex_mem_cached 2 3 ex_pair 0xA000 ex_blk).map heap_block.addr) :=
  ⟨by decide, by decide,
   ((get_next_heap_block_increasing ex_mem_cached 2 ex_pair (by decide) 0xA000 (by decide)
     ex_blk).2 3).1⟩

end TcmallocHeap
